import Mathlib

/-! floydwars: the card-game rules engine of `gamestate.go`.

A shallow embedding of the Go source and the properties proved about it.

Memory model:

* A `[]CardEntity` that the program points into (a hand, an item pool) is a
  `CardSlice`: the elements visible through the slice (`elems`, so `len` is
  `elems.length`) followed by the cells of the backing array past the length
  (`spare`).  `removeCard` shifts in place and leaves the old last element in
  the first spare cell; `append` fills the first spare cell when there is one.
* A `*CardEntity` obtained from `&player.hand[i]` is a `CardRef`: the address
  of the player, the slice, and the index of the cell in the backing array.
  No function writes through such a pointer after an `append` to the slice
  it points into, so reading the current array is what the Go pointer reads.
* A `*PlayerEntity` is `Option Nat`: `none` is `nil`, `some a` the address of
  `heap[a]`.  `GameState.Players` is the list of the map's entries; every
  `range` over the map takes the order of iteration as an argument, since Go
  leaves that order open.
* An item pointer of an `AttackContext` is a `CardPtr` (`none` is `nil`):
  either a pointer to a cell of a player's hand or item pool, read in the
  memory of the moment, or a pointer to a card object outside those arrays,
  which no function of the program writes and which is given by its card.
  `PendingAttack` owns its context.
* Go's `int` is the 64-bit two's complement integer: a damage value is an
  `Int` between `intMin` and `intMax`, and `+`, `-` are followed by `wrapInt`.
* `rand.Intn(n)` in the `k`-th iteration of a shuffle is `rnd k % n`.
* A run-time fault (nil dereference) is the outcome `fault`.
-/

namespace FloydWars

abbrev Phase := String

def DrawPhase : Phase := "Draw"
def MainPhase : Phase := "Main"
def AttackPhase : Phase := "Attack"
def ResolutionPhase : Phase := "Resolution"
def EndPhase : Phase := "End"

/-- The smallest value of Go's 64-bit `int`. -/
def intMin : Int := -9223372036854775808

/-- The largest value of Go's 64-bit `int`. -/
def intMax : Int := 9223372036854775807

/-- The `int` that Go's arithmetic gives for the mathematical result `x`: the
value congruent to `x` modulo 2^64 between `intMin` and `intMax`. -/
def wrapInt (x : Int) : Int :=
  (x + 9223372036854775808) % 18446744073709551616 - 9223372036854775808

structure CardEntity where
  id : String
  title : String
  dmg : Int
  description : String
  destroyed : Bool
  skill : String
  CardClass : String
deriving DecidableEq, Repr

/-- A slice of cards with its backing array: `elems` are the cells below the
length, `spare` the cells from the length up to the capacity. -/
structure CardSlice where
  elems : List CardEntity
  spare : List CardEntity
deriving DecidableEq, Repr

structure PlayerEntity where
  ID : String
  hand : CardSlice
  itemCards : CardSlice
deriving DecidableEq, Repr

/-- Which slice of a player a card pointer points into. -/
inductive Zone where
  | hand
  | itemCards
deriving DecidableEq, Repr

/-- A pointer to a cell of the backing array of a player's hand or item pool. -/
structure CardRef where
  owner : Nat
  zone : Zone
  idx : Nat
deriving DecidableEq, Repr

/-- A `*CardEntity` that is not nil: a pointer to a cell of a player's hand or
item pool, or a pointer to a card object that lies outside those arrays (a
local copy, a deck cell), which the program never writes. -/
inductive CardPtr where
  | cell (r : CardRef)
  | obj (c : CardEntity)
deriving DecidableEq, Repr

structure AttackContext where
  AttackerID : String
  TargetID : String
  AttackerItem : Option CardPtr
  DefenderItem : Option CardPtr
  DamageResolved : Bool
deriving DecidableEq, Repr

structure GameState where
  Players : List (String × Option Nat)
  TurnPlayerID : String
  Phase : Phase
  PendingAttack : Option AttackContext
  FighterDeck : List CardEntity
  ItemDeck : List CardEntity
deriving DecidableEq, Repr

/-- The memory a call works on: the player objects and the game state. -/
structure Mem where
  heap : List PlayerEntity
  gs : GameState
deriving DecidableEq, Repr

/-- How a call ends: a return with a nil error, a return with an error, or a
run-time fault.  The memory is kept in the error case because a Go function
may have written to it before it returns the error. -/
inductive Outcome (α : Type) where
  | ok (m : Mem) (v : α)
  | error (m : Mem) (msg : String)
  | fault
deriving DecidableEq, Repr

/-! ## Slices, cells and player objects -/

/-- The backing array of a slice, from its first element to its capacity. -/
def CardSlice.cells (s : CardSlice) : List CardEntity := s.elems ++ s.spare

/-- Write a cell of the backing array through a pointer. -/
def CardSlice.setCell (s : CardSlice) (i : Nat) (c : CardEntity) : CardSlice :=
  if i < s.elems.length then { s with elems := s.elems.set i c }
  else { s with spare := s.spare.set (i - s.elems.length) c }

/-- The slice `append(s, c)`: in place when a spare cell exists, a new array otherwise. -/
def CardSlice.push (s : CardSlice) (c : CardEntity) : CardSlice :=
  { elems := s.elems ++ [c], spare := s.spare.tail }

def PlayerEntity.slice (p : PlayerEntity) : Zone → CardSlice
  | .hand => p.hand
  | .itemCards => p.itemCards

def PlayerEntity.setSlice (p : PlayerEntity) (z : Zone) (s : CardSlice) : PlayerEntity :=
  match z with
  | .hand => { p with hand := s }
  | .itemCards => { p with itemCards := s }

/-- Dereference a player pointer; `none` is the nil-dereference fault. -/
def Mem.player (m : Mem) : Option Nat → Option (Nat × PlayerEntity)
  | none => none
  | some a => (m.heap[a]?).map (fun p => (a, p))

def Mem.setPlayer (m : Mem) (a : Nat) (p : PlayerEntity) : Mem :=
  { m with heap := m.heap.set a p }

/-- Read the card a pointer points to. -/
def Mem.readCell (m : Mem) (r : CardRef) : Option CardEntity :=
  match m.heap[r.owner]? with
  | none => none
  | some p => (p.slice r.zone).cells[r.idx]?

/-- Write the card a pointer points to. -/
def Mem.writeCell (m : Mem) (r : CardRef) (c : CardEntity) : Mem :=
  match m.heap[r.owner]? with
  | none => m
  | some p => m.setPlayer r.owner (p.setSlice r.zone ((p.slice r.zone).setCell r.idx c))

/-- Read the card an item pointer points to, in the memory of the moment. -/
def Mem.deref (m : Mem) : CardPtr → Option CardEntity
  | .cell r => m.readCell r
  | .obj c => some c

/-- The value of `gs.Players[key]`: `nil` when the key is absent. -/
def lookupPlayer : List (String × Option Nat) → String → Option Nat
  | [], _ => none
  | (k, p) :: rest, key => if k = key then p else lookupPlayer rest key

/-! ## Card and player helpers -/

/-- The index at which the loop `for i := range cards` first sees `id`. -/
def indexOfID (id : String) : List CardEntity → Option Nat
  | [] => none
  | c :: cs => if c.id = id then some 0 else (indexOfID id cs).map (· + 1)

def findCardByID (cards : List CardEntity) (id : String) : Except String (Nat × CardEntity) :=
  match indexOfID id cards with
  | some i =>
    match cards[i]? with
    | some c => .ok (i, c)
    | none => .error "card not found"
  | none => .error "card not found"

/-- The Go `removeCard`: `append(hand[:i], hand[i+1:]...)` moves the cells
after `i` one place down inside the same array, so the cell that held the
last element keeps it and becomes the first spare cell. -/
def removeCard (hand : CardSlice) (id : String) : CardSlice :=
  match indexOfID id hand.elems with
  | some i =>
    { elems := hand.elems.take i ++ hand.elems.drop (i + 1),
      spare := hand.elems.drop (hand.elems.length - 1) ++ hand.spare }
  | none => hand

/-! ## Deck and hand manager -/

def swapCells (l : List CardEntity) (i j : Nat) : List CardEntity :=
  match l[i]?, l[j]? with
  | some a, some b => (l.set i b).set j a
  | _, _ => l

/-- The hand after the first `k` iterations of the loop of `ShuffleHand`. -/
def shuffleSteps (rnd : Nat → Nat) (n : Nat) (l : List CardEntity) : Nat → List CardEntity
  | 0 => l
  | k + 1 => swapCells (shuffleSteps rnd n l k) k (rnd k % n)

def ShuffleHand (rnd : Nat → Nat) (m : Mem) (p : Option Nat) : Option Mem :=
  match m.player p with
  | none => none
  | some (a, pl) =>
    let n := pl.hand.elems.length
    some (m.setPlayer a
      { pl with hand := { pl.hand with elems := shuffleSteps rnd n pl.hand.elems n } })

def DrawFighterCard (m : Mem) (p : Option Nat) : Outcome CardEntity :=
  match m.gs.FighterDeck with
  | [] => .error m "fighter deck is empty"
  | card :: rest =>
    let m1 : Mem := { m with gs := { m.gs with FighterDeck := rest } }
    match m1.player p with
    | none => .fault
    | some (a, pl) => .ok (m1.setPlayer a { pl with hand := pl.hand.push card }) card

def DrawItemCard (m : Mem) (p : Option Nat) : Outcome CardEntity :=
  match m.gs.ItemDeck with
  | [] => .error m "item deck is empty"
  | card :: rest =>
    let m1 : Mem := { m with gs := { m.gs with ItemDeck := rest } }
    match m1.player p with
    | none => .fault
    | some (a, pl) => .ok (m1.setPlayer a { pl with itemCards := pl.itemCards.push card }) card

/-- The loop of `ShuffleAndRedrawHand` with `count` iterations left: each
successful draw has already put the card in the hand, and the loop body
appends the returned card to the hand as well. -/
def redrawLoop (a : Nat) : Nat → Mem → Option Mem
  | 0, m => some m
  | count + 1, m =>
    match DrawFighterCard m (some a) with
    | .ok m1 card =>
      match m1.heap[a]? with
      | none => none
      | some pl => redrawLoop a count (m1.setPlayer a { pl with hand := pl.hand.push card })
    | .error m1 _ => redrawLoop a count m1
    | .fault => none

def ShuffleAndRedrawHand (rnd : Nat → Nat) (m : Mem) (p : Option Nat) : Option Mem :=
  match m.player p with
  | none => none
  | some (a, pl) =>
    let count := pl.hand.elems.length
    match ShuffleHand rnd m p with
    | none => none
    | some m1 =>
      match m1.heap[a]? with
      | none => none
      | some pl1 =>
        redrawLoop a count (m1.setPlayer a { pl1 with hand := { elems := [], spare := [] } })

/-- The player (or no player, with fewer than two) that `getOpponent` returns
when the map is ranged over in the order `order`. -/
def getOpponent (order : List (String × Option Nat)) (currentID : String) : Option Nat :=
  match order with
  | [] => none
  | (id, p) :: rest => if id ≠ currentID then p else getOpponent rest currentID

/-- What a search for a card in the game ends with. -/
inductive Find where
  | found (r : CardRef)
  | notFound
  | fault
deriving DecidableEq, Repr

/-- The search `findCardByIDInGame`, ranging over the map in the order
`order`: the pointer to the first matching cell and (as its `owner`) the
player holding it; `notFound` is the error "card not found in game". -/
def findCardByIDInGame (m : Mem) : List (String × Option Nat) → String → Find
  | [], _ => .notFound
  | (_, p) :: rest, cardID =>
    match m.player p with
    | none => .fault
    | some (a, player) =>
      match indexOfID cardID player.hand.elems with
      | some i => .found ⟨a, .hand, i⟩
      | none =>
        match indexOfID cardID player.itemCards.elems with
        | some i => .found ⟨a, .itemCards, i⟩
        | none => findCardByIDInGame m rest cardID

/-! ## Attack state machine -/

def StartAttack (m : Mem) (input : AttackContext) : Outcome Unit :=
  if m.gs.Phase ≠ MainPhase then
    .error m "you can only attack during the main phase"
  else
    .ok { m with gs := { m.gs with
            PendingAttack := some { AttackerID := input.AttackerID,
                                    TargetID := input.TargetID,
                                    AttackerItem := none,
                                    DefenderItem := none,
                                    DamageResolved := false },
            Phase := AttackPhase } } ()

def DefenderUseItem (m : Mem) (item : Option CardPtr) : Outcome Unit :=
  if m.gs.Phase ≠ AttackPhase then
    .error m "items can only be used during attack phase"
  else
    match m.gs.PendingAttack with
    | none => .error m "no pending attack"
    | some ctx =>
      .ok { m with gs := { m.gs with PendingAttack := some { ctx with DefenderItem := item } } } ()

def AttackerUseItem (m : Mem) (item : Option CardPtr) : Outcome Unit :=
  if m.gs.Phase ≠ AttackPhase then
    .error m "items can only be used during attack phase"
  else
    match m.gs.PendingAttack with
    | none => .error m "attacker can only use item after defender used one"
    | some ctx =>
      match ctx.DefenderItem with
      | none => .error m "attacker can only use item after defender used one"
      | some _ =>
        .ok { m with gs := { m.gs with PendingAttack := some { ctx with AttackerItem := item } } } ()

/-! ## Item and skill resolver -/

def canAttackerDestroy (attacker target : CardEntity) : Bool :=
  decide (attacker.dmg ≥ target.dmg)

def applyItemEffects (m : Mem) (item : CardPtr) (owner opponent : CardRef) : Outcome Unit :=
  match m.deref item with
  | none => .fault
  | some it =>
    if it.title = "Armor Buff" then
      match m.readCell owner with
      | none => .fault
      | some c => .ok (m.writeCell owner { c with dmg := wrapInt (c.dmg + 1) }) ()
    else if it.title = "Weakening Shot" then
      match m.readCell opponent with
      | none => .fault
      | some c => .ok (m.writeCell opponent { c with dmg := wrapInt (c.dmg - 1) }) ()
    else if it.title = "Shield Bubble" then
      match m.readCell owner with
      | none => .fault
      | some c => .ok (m.writeCell owner { c with skill := "ImmuneThisTurn" }) ()
    else if it.title = "Mirror Shield" then
      .ok m ()
    else
      .error m ("unknown item effect: " ++ it.title)

/-- The owner id `cardOwnerID` returns when the map is ranged over in the
order `order`; `none` is the fault of reading a nil player. -/
def cardOwnerID (m : Mem) : List (String × Option Nat) → String → Option String
  | [], _ => some ""
  | (id, p) :: rest, cardID =>
    match m.player p with
    | none => none
    | some (_, player) =>
      if (indexOfID cardID player.hand.elems).isSome then some id
      else if (indexOfID cardID player.itemCards.elems).isSome then some id
      else cardOwnerID m rest cardID

/-- The call `resolveCardSkills(card, trigger, gs)`; `none` is a fault.  The
error of a failed draw is dropped, as in the source. -/
def resolveCardSkills (order : List (String × Option Nat)) (rnd : Nat → Nat)
    (m : Mem) (card : CardRef) (_trigger : String) : Option Mem :=
  match m.readCell card with
  | none => none
  | some c =>
    if c.skill = "" then some m
    else
      match cardOwnerID m order c.id with
      | none => none
      | some ownerID =>
        let player := lookupPlayer m.gs.Players ownerID
        if c.skill = "ShuffleHand" then ShuffleHand rnd m player
        else if c.skill = "Draw2" then
          match DrawFighterCard m player with
          | .ok m1 _ => some m1
          | .error m1 _ => some m1
          | .fault => none
        else some m

/-! ## Combat resolver -/

/-- One of the two item steps of `ResolveAttack`: nothing for a nil item,
otherwise the effect and then the removal of the item from the item pool of
the player `holder`. -/
def useItem (m : Mem) (item : Option CardPtr) (owner opponent : CardRef)
    (holder : Nat) : Outcome Unit :=
  match item with
  | none => .ok m ()
  | some p =>
    match applyItemEffects m p owner opponent with
    | .fault => .fault
    | .error m1 e => .error m1 e
    | .ok m1 _ =>
      match m1.heap[holder]?, m1.deref p with
      | some pl, some it =>
        .ok (m1.setPlayer holder { pl with itemCards := removeCard pl.itemCards it.id }) ()
      | _, _ => .fault

/-- The part of `ResolveAttack` under "Combat Resolution": the comparison,
the destruction of the target, the discard of the attacker, the cleanup. -/
def combatResolution (o3 : List (String × Option Nat)) (rnd : Nat → Nat)
    (m : Mem) (attacker target : CardRef) : Outcome Unit :=
  match m.readCell attacker, m.readCell target with
  | some a, some t =>
    let afterDestroy : Option Mem :=
      if canAttackerDestroy a t then
        let m1 := m.writeCell target { t with destroyed := true }
        match m1.heap[target.owner]? with
        | none => none
        | some pl =>
          resolveCardSkills o3 rnd
            (m1.setPlayer target.owner { pl with hand := removeCard pl.hand t.id })
            target "onDestroy"
      else some m
    match afterDestroy with
    | none => .fault
    | some m2 =>
      match m2.readCell attacker, m2.heap[attacker.owner]? with
      | some a2, some pl =>
        let m3 := m2.setPlayer attacker.owner { pl with hand := removeCard pl.hand a2.id }
        .ok { m3 with gs := { m3.gs with PendingAttack := none, Phase := ResolutionPhase } } ()
      | _, _ => .fault
  | _, _ => .fault

/-- The call `ResolveAttack(gs)`.  The three ranges over the player map (two
searches, one owner lookup) run in the orders `o1`, `o2`, `o3`. -/
def ResolveAttack (o1 o2 o3 : List (String × Option Nat)) (rnd : Nat → Nat)
    (m : Mem) : Outcome Unit :=
  if m.gs.Phase ≠ AttackPhase then .error m "no attack to resolve"
  else
    match m.gs.PendingAttack with
    | none => .error m "no attack to resolve"
    | some ctx =>
      match findCardByIDInGame m o1 ctx.AttackerID with
      | .fault => .fault
      | .notFound => .error m "card not found in game"
      | .found attacker =>
        match findCardByIDInGame m o2 ctx.TargetID with
        | .fault => .fault
        | .notFound => .error m "card not found in game"
        | .found target =>
          match useItem m ctx.DefenderItem target attacker target.owner with
          | .fault => .fault
          | .error m1 e => .error m1 e
          | .ok m1 _ =>
            match useItem m1 ctx.AttackerItem attacker target attacker.owner with
            | .fault => .fault
            | .error m2 e => .error m2 e
            | .ok m2 _ => combatResolution o3 rnd m2 attacker target

/-- The assignment `p.hand = removeCard(p.hand, id)` on the player at address
`a`; `none` when no player object is there. -/
def removeFromHand (m : Mem) (a : Nat) (id : String) : Option Mem :=
  match m.heap[a]? with
  | none => none
  | some pl => some (m.setPlayer a { pl with hand := removeCard pl.hand id })

/-- One `if item != nil { p.hand = removeCard(p.hand, item.id) }` of
`ResolveCombat`: the id is read through the item pointer at that moment. -/
def removeItemFromHand (m : Mem) (a : Nat) (item : Option CardPtr) : Option Mem :=
  match item with
  | none => some m
  | some p =>
    match m.deref p with
    | none => none
    | some it => removeFromHand m a it.id

/-- The removals of `ResolveCombat` after the damage test: the attacker card
and the target card by the ids read through their pointers, then the two
items, each from the hand of its player. -/
def combatRemovals (m : Mem) (input : AttackContext) (attackerCard targetCard : CardRef) :
    Option Mem :=
  match m.readCell attackerCard with
  | none => none
  | some ac =>
    match removeFromHand m attackerCard.owner ac.id with
    | none => none
    | some m1 =>
      match m1.readCell targetCard with
      | none => none
      | some tc =>
        match removeFromHand m1 targetCard.owner tc.id with
        | none => none
        | some m2 =>
          match removeItemFromHand m2 attackerCard.owner input.AttackerItem with
          | none => none
          | some m3 => removeItemFromHand m3 targetCard.owner input.DefenderItem

/-- The call `ResolveCombat(gs, input)`; the range of `getOpponent` over the
player map runs in the order `order`. -/
def ResolveCombat (order : List (String × Option Nat)) (m : Mem) (input : AttackContext) :
    Outcome Unit :=
  let attackerPlayer := lookupPlayer m.gs.Players m.gs.TurnPlayerID
  let defenderPlayer := getOpponent order m.gs.TurnPlayerID
  match m.player attackerPlayer with
  | none => .fault
  | some (pa, A) =>
    match findCardByID A.hand.elems input.AttackerID with
    | .error e => .error m ("attacker card not found:" ++ e)
    | .ok (i, attacker) =>
      match m.player defenderPlayer with
      | none => .fault
      | some (pt, T) =>
        match findCardByID T.hand.elems input.TargetID with
        | .error e => .error m ("target card not found: " ++ e)
        | .ok (j, target) =>
          let attackdmg : Option Int :=
            match input.DefenderItem with
            | none => some attacker.dmg
            | some p => (m.deref p).map (fun it => wrapInt (attacker.dmg - it.dmg))
          match attackdmg with
          | none => .fault
          | some dmg =>
            if dmg < target.dmg then .error m "not enough damage to defeat target"
            else
              match combatRemovals m input ⟨pa, .hand, i⟩ ⟨pt, .hand, j⟩ with
              | none => .fault
              | some m2 => .ok m2 ()

/-! ## Vocabulary of the statements -/

def Outcome.isOk {α : Type} : Outcome α → Bool
  | .ok _ _ => true
  | _ => false

def Outcome.isError {α : Type} : Outcome α → Bool
  | .error _ _ => true
  | _ => false

/-- The cards a player holds: the hand, then the item pool. -/
def PlayerEntity.cards (p : PlayerEntity) : List CardEntity :=
  p.hand.elems ++ p.itemCards.elems

/-- The cards held by the players of the given map entries, entry by entry. -/
def Mem.cardsIn (m : Mem) : List (String × Option Nat) → List CardEntity
  | [] => []
  | (_, p) :: rest =>
    (match m.player p with
     | none => []
     | some (_, pl) => pl.cards) ++ m.cardsIn rest

/-- Every entry of the player map points to a player object (none is nil). -/
def Mem.playersValid (m : Mem) : Prop :=
  ∀ e ∈ m.gs.Players, ∃ a pl, e.2 = some a ∧ m.heap[a]? = some pl

/-- No player of the map holds a card with this id, in hand or item pool. -/
def Mem.idAbsent (m : Mem) (id : String) : Prop :=
  ∀ c ∈ m.cardsIn m.gs.Players, c.id ≠ id

/-- Every card of the list twice in a row. -/
def doubled : List CardEntity → List CardEntity
  | [] => []
  | c :: cs => c :: c :: doubled cs

/-- No card held by a player has a skill. -/
def Mem.noSkills (m : Mem) : Prop :=
  ∀ c ∈ m.cardsIn m.gs.Players, c.skill = ""

/-- The setting of an attack between two players: the phase is Attack with
the pending attack `ctx`; every player of the map is non-nil and the ids of
the cards the players hold are distinct; the attacker id is the id of the
card `att` at position `i` of the hand of the player at address `pa`, the
target id that of the card `tgt` at position `j` of the hand of another
player, at address `pt`. -/
structure Duel (m : Mem) (ctx : AttackContext) (pa pt i j : Nat) (A T : PlayerEntity)
    (att tgt : CardEntity) : Prop where
  phase : m.gs.Phase = AttackPhase
  pending : m.gs.PendingAttack = some ctx
  valid : m.playersValid
  distinct : ((m.cardsIn m.gs.Players).map (fun c => c.id)).Nodup
  attackerEntry : ∃ k, (k, some pa) ∈ m.gs.Players
  targetEntry : ∃ k, (k, some pt) ∈ m.gs.Players
  attackerOwner : m.heap[pa]? = some A
  targetOwner : m.heap[pt]? = some T
  attackerCard : A.hand.elems[i]? = some att
  targetCard : T.hand.elems[j]? = some tgt
  attackerId : att.id = ctx.AttackerID
  targetId : tgt.id = ctx.TargetID
  others : pa ≠ pt

/-- The list without the first card that has the id; the list itself when no
card has it. -/
def eraseID (l : List CardEntity) (id : String) : List CardEntity :=
  match indexOfID id l with
  | some i => l.eraseIdx i
  | none => l

/-- The damage of the defender's item, 0 when no item is given. -/
def defenderItemDamage : Option CardEntity → Int
  | none => 0
  | some it => it.dmg

/-- The value `attackdmg` of `ResolveCombat`: the attacker's damage, and with
a defender item the `int` that Go's subtraction of the item's damage gives. -/
def attackDamage (attacker : CardEntity) : Option CardEntity → Int
  | none => attacker.dmg
  | some it => wrapInt (attacker.dmg - it.dmg)

/-- The card an item slot shows in the memory `m`, none for a nil slot. -/
def Mem.itemCard (m : Mem) (item : Option CardPtr) : Option CardEntity :=
  item.bind m.deref

/-- A damage value that Go's `int` can hold. -/
def inIntRange (x : Int) : Prop := intMin ≤ x ∧ x ≤ intMax

instance instDecidableInIntRange (x : Int) : Decidable (inIntRange x) :=
  inferInstanceAs (Decidable (intMin ≤ x ∧ x ≤ intMax))

/-- The pointer points to a cell of the hand of a player. -/
def CardPtr.inHand : CardPtr → Prop
  | .cell r => r.zone = Zone.hand
  | .obj _ => False

/-- The pointer points to a cell of the item pool of the player at address `a`. -/
def CardPtr.inPoolOf (a : Nat) : CardPtr → Prop
  | .cell r => r.owner = a ∧ r.zone = Zone.itemCards
  | .obj _ => False

/-- All sequences of `len` values that `rand.Intn(n)` can return. -/
def choiceSequences (n : Nat) : Nat → List (List Nat)
  | 0 => [[]]
  | len + 1 =>
    ((List.range n).map (fun j => (choiceSequences n len).map (fun js => j :: js))).flatten

/-- The hand `ShuffleHand` leaves to the player at address `a` when the
successive calls of `rand.Intn` return the values of `js`. -/
def handAfterShuffle (js : List Nat) (m : Mem) (a : Nat) : Option (List CardEntity) :=
  match ShuffleHand (fun k => js.getD k 0) m (some a) with
  | none => none
  | some m2 => (m2.heap[a]?).map (fun p => p.hand.elems)

/-- The number of choice sequences of `n` draws from `0..n-1` after which the
hand of the player at address `a` is `ordering`. -/
def shuffleCount (m : Mem) (a n : Nat) (ordering : List CardEntity) : Nat :=
  ((choiceSequences n n).filter
    (fun js => decide (handAfterShuffle js m a = some ordering))).length

/-- The ids of all cards of the game: fighter deck, item deck, then the hands
and item pools of the players of the map. -/
def Mem.allIds (m : Mem) : List String :=
  (m.gs.FighterDeck ++ m.gs.ItemDeck ++ m.cardsIn m.gs.Players).map (fun c => c.id)

/-- The memory a call returns with, on success or on error; `none` for a fault. -/
def Outcome.mem? {α : Type} : Outcome α → Option Mem
  | .ok m _ => some m
  | .error m _ => some m
  | .fault => none

/-- A pending attack is present exactly when the phase is Attack. -/
def Mem.pendingIffAttack (m : Mem) : Prop :=
  m.gs.PendingAttack.isSome = true ↔ m.gs.Phase = AttackPhase

/-- If the attacker item of the pending attack is set, so is the defender item. -/
def Mem.itemOrder (m : Mem) : Prop :=
  ∀ ctx, m.gs.PendingAttack = some ctx →
    ctx.AttackerItem.isSome = true → ctx.DefenderItem.isSome = true

/-- A call of one of the two item operations, with its argument (`none` is nil). -/
inductive ItemCall where
  | defender (item : Option CardPtr)
  | attacker (item : Option CardPtr)
deriving DecidableEq, Repr

/-- The memory after one item call, whether it succeeded or returned an error. -/
def ItemCall.run (m : Mem) : ItemCall → Mem
  | .defender item => ((DefenderUseItem m item).mem?).getD m
  | .attacker item => ((AttackerUseItem m item).mem?).getD m

/-- The memory after a sequence of item calls. -/
def runItemCalls (m : Mem) (calls : List ItemCall) : Mem :=
  calls.foldl ItemCall.run m

/-! ## Sample states -/

def sampleCard (id : String) (dmg : Int) : CardEntity :=
  { id := id, title := "", dmg := dmg, description := "", destroyed := false,
    skill := "", CardClass := "Soldier" }

def sampleItem (id title : String) : CardEntity :=
  { id := id, title := title, dmg := 0, description := "", destroyed := false,
    skill := "", CardClass := "Item" }

def samplePlayer (id : String) (hand items : List CardEntity) : PlayerEntity :=
  { ID := id, hand := { elems := hand, spare := [] }, itemCards := { elems := items, spare := [] } }

/-- Two players; the first holds three fighters, the decks hold one card each. -/
def sampleGame (phase : Phase) (pending : Option AttackContext) : GameState :=
  { Players := [("p1", some 0), ("p2", some 1)], TurnPlayerID := "p1", Phase := phase,
    PendingAttack := pending, FighterDeck := [sampleCard "d1" 5],
    ItemDeck := [sampleItem "i9" "Armor Buff"] }

def sampleHeap (atk tgt : Int) : List PlayerEntity :=
  [samplePlayer "p1" [sampleCard "a" atk, sampleCard "b" 2, sampleCard "c" 3]
     [sampleItem "i1" "Armor Buff"],
   samplePlayer "p2" [sampleCard "t" tgt, sampleCard "u" 1]
     [sampleItem "i2" "Mirror Shield", sampleItem "i3" "Weakening Shot", sampleItem "i4" "Shield Bubble"]]

def sampleMem (phase : Phase) (pending : Option AttackContext) (atk tgt : Int) : Mem :=
  { heap := sampleHeap atk tgt, gs := sampleGame phase pending }

/-- The pointer to the item "i1", first cell of the first player's item pool. -/
def ptrI1 : CardPtr := .cell ⟨0, .itemCards, 0⟩

/-- The pointer to the item "i3", second cell of the second player's item pool. -/
def ptrI3 : CardPtr := .cell ⟨1, .itemCards, 1⟩

def sampleAttack (defenderItem : Option CardPtr) : AttackContext :=
  { AttackerID := "a", TargetID := "t", AttackerItem := none, DefenderItem := defenderItem,
    DamageResolved := false }

/-- A fighter card with a skill. -/
def skillCard (id : String) (dmg : Int) (skill : String) : CardEntity :=
  { id := id, title := "", dmg := dmg, description := "", destroyed := false,
    skill := skill, CardClass := "Soldier" }

/-- Two players in phase Attack, "a" (damage 5) of the first attacking "t" of
the second, no items; the second player holds `hand2`, the fighter deck is
`deck`. -/
def skillMem (hand2 deck : List CardEntity) : Mem :=
  { heap := [samplePlayer "p1" [sampleCard "a" 5] [], samplePlayer "p2" hand2 []],
    gs := { Players := [("p1", some 0), ("p2", some 1)], TurnPlayerID := "p1",
            Phase := AttackPhase, PendingAttack := some (sampleAttack none),
            FighterDeck := deck, ItemDeck := [] } }

/-- The memory `ResolveAttack` hands to `resolveCardSkills` after it has
destroyed the last card "t" of the second player's hand: "t" is out of the
hand and left in the cell behind it. -/
def staleMem (skill : String) (deck : List CardEntity) : Mem :=
  { heap := [samplePlayer "p1" [sampleCard "a" 5] [],
             { ID := "p2",
               hand := { elems := [sampleCard "u" 1],
                         spare := [{ skillCard "t" 3 skill with destroyed := true }] },
               itemCards := { elems := [], spare := [] } }],
    gs := { Players := [("p1", some 0), ("p2", some 1)], TurnPlayerID := "p1",
            Phase := AttackPhase, PendingAttack := some (sampleAttack none),
            FighterDeck := deck, ItemDeck := [] } }

/-- The two orders in which the player map of the sample games can be ranged over. -/
def sampleOrder (reversed : Bool) : List (String × Option Nat) :=
  if reversed then [("p2", some 1), ("p1", some 0)] else [("p1", some 0), ("p2", some 1)]

end FloydWars

/-! # Theorems -/

namespace FloydWars

/-! ## Deck and hand manager -/

/-- C1: with a player object at address `a`, `DrawFighterCard` returns an
error exactly when the fighter deck is empty and then leaves the whole memory
as it was; on a deck `card :: rest` it returns `card`, the deck becomes `rest`
(one shorter), the hand of the player becomes the old hand with `card`
appended (one longer), and nothing else changes.  `DrawItemCard` does the
same over the item deck and the item pool. -/
theorem DrawCard_contract (m : Mem) (a : Nat) (pl : PlayerEntity)
    (hp : m.heap[a]? = some pl) :
    (((DrawFighterCard m (some a)).isError = true ↔ m.gs.FighterDeck = []) ∧
      (m.gs.FighterDeck = [] →
        DrawFighterCard m (some a) = .error m "fighter deck is empty") ∧
      (∀ card rest, m.gs.FighterDeck = card :: rest →
        DrawFighterCard m (some a) =
            .ok { heap := m.heap.set a
                    { pl with hand := { elems := pl.hand.elems ++ [card],
                                        spare := pl.hand.spare.tail } },
                  gs := { m.gs with FighterDeck := rest } } card
          ∧ rest.length + 1 = m.gs.FighterDeck.length
          ∧ (pl.hand.elems ++ [card]).length = pl.hand.elems.length + 1)) ∧
    (((DrawItemCard m (some a)).isError = true ↔ m.gs.ItemDeck = []) ∧
      (m.gs.ItemDeck = [] →
        DrawItemCard m (some a) = .error m "item deck is empty") ∧
      (∀ card rest, m.gs.ItemDeck = card :: rest →
        DrawItemCard m (some a) =
            .ok { heap := m.heap.set a
                    { pl with itemCards := { elems := pl.itemCards.elems ++ [card],
                                             spare := pl.itemCards.spare.tail } },
                  gs := { m.gs with ItemDeck := rest } } card
          ∧ rest.length + 1 = m.gs.ItemDeck.length
          ∧ (pl.itemCards.elems ++ [card]).length = pl.itemCards.elems.length + 1)) := by
  refine ⟨⟨?_, ?_, ?_⟩, ⟨?_, ?_, ?_⟩⟩
  · cases hd : m.gs.FighterDeck with
    | nil => simp [DrawFighterCard, hd, Outcome.isError]
    | cons c cs => simp [DrawFighterCard, hd, Mem.player, hp, Outcome.isError]
  · intro hd
    simp [DrawFighterCard, hd]
  · intro card rest hd
    simp [DrawFighterCard, hd, Mem.player, hp, Mem.setPlayer, CardSlice.push]
  · cases hd : m.gs.ItemDeck with
    | nil => simp [DrawItemCard, hd, Outcome.isError]
    | cons c cs => simp [DrawItemCard, hd, Mem.player, hp, Outcome.isError]
  · intro hd
    simp [DrawItemCard, hd]
  · intro card rest hd
    simp [DrawItemCard, hd, Mem.player, hp, Mem.setPlayer, CardSlice.push]

theorem DrawCard_contract_witness :
    (sampleMem MainPhase none 5 3).heap[1]? =
        some (samplePlayer "p2" [sampleCard "t" 3, sampleCard "u" 1]
          [sampleItem "i2" "Mirror Shield", sampleItem "i3" "Weakening Shot",
           sampleItem "i4" "Shield Bubble"]) ∧
      DrawFighterCard (sampleMem MainPhase none 5 3) (some 1) =
        .ok { heap := [samplePlayer "p1" [sampleCard "a" 5, sampleCard "b" 2, sampleCard "c" 3]
                         [sampleItem "i1" "Armor Buff"],
                       samplePlayer "p2" [sampleCard "t" 3, sampleCard "u" 1, sampleCard "d1" 5]
                         [sampleItem "i2" "Mirror Shield", sampleItem "i3" "Weakening Shot",
                          sampleItem "i4" "Shield Bubble"]],
              gs := { sampleGame MainPhase none with FighterDeck := [] } }
          (sampleCard "d1" 5) :=
  ⟨rfl, ((DrawCard_contract (sampleMem MainPhase none 5 3) 1 _ rfl).1.2.2
    (sampleCard "d1" 5) [] rfl).1⟩

theorem player_some (m : Mem) (a : Nat) (pl : PlayerEntity) (hp : m.heap[a]? = some pl) :
    m.player (some a) = some (a, pl) := by
  simp [Mem.player, hp]

theorem length_doubled (l : List CardEntity) : (doubled l).length = 2 * l.length := by
  induction l with
  | nil => rfl
  | cons c cs ih => simp [doubled, ih]; omega

theorem heap_set_self (heap : List PlayerEntity) (a : Nat) (pl q : PlayerEntity)
    (hp : heap[a]? = some pl) : (heap.set a q)[a]? = some q := by
  have h : a < heap.length := by
    rcases List.getElem?_eq_some.mp hp with ⟨h, _⟩
    exact h
  exact List.getElem?_set_self h

/-- The redraw loop never faults on a player object: it takes the first
`count` cards of the deck (fewer when the deck is shorter) and puts each of
them in the hand twice. -/
theorem redrawLoop_spec (a : Nat) (count : Nat) :
    ∀ (m : Mem) (pl : PlayerEntity), m.heap[a]? = some pl →
      ∃ m2 pl2, redrawLoop a count m = some m2 ∧ m2.heap[a]? = some pl2 ∧
        pl2.hand.elems = pl.hand.elems ++ doubled (m.gs.FighterDeck.take count) ∧
        pl2.itemCards = pl.itemCards ∧
        m2.gs.FighterDeck = m.gs.FighterDeck.drop count := by
  induction count with
  | zero =>
    intro m pl hp
    exact ⟨m, pl, rfl, hp, by simp [doubled], rfl, by simp⟩
  | succ n ih =>
    intro m pl hp
    cases hd : m.gs.FighterDeck with
    | nil =>
      obtain ⟨m2, pl2, h1, h2, h3, h4, h5⟩ := ih m pl hp
      refine ⟨m2, pl2, ?_, h2, ?_, h4, ?_⟩
      · simp [redrawLoop, DrawFighterCard, hd, h1]
      · simpa [hd, doubled] using h3
      · simpa [hd] using h5
    | cons c cs =>
      have hset := heap_set_self m.heap a pl
        { pl with hand := pl.hand.push c } hp
      have hset2 := heap_set_self (m.heap.set a { pl with hand := pl.hand.push c }) a
        { pl with hand := pl.hand.push c }
        { pl with hand := (pl.hand.push c).push c } hset
      obtain ⟨m2, pl2, h1, h2, h3, h4, h5⟩ :=
        ih { heap := (m.heap.set a { pl with hand := pl.hand.push c }).set a
                { pl with hand := (pl.hand.push c).push c },
             gs := { m.gs with FighterDeck := cs } }
          { pl with hand := (pl.hand.push c).push c } hset2
      refine ⟨m2, pl2, ?_, h2, ?_, h4, ?_⟩
      · have hpl : Mem.player { heap := m.heap, gs := { m.gs with FighterDeck := cs } } (some a)
            = some (a, pl) := player_some _ a pl hp
        simp only [redrawLoop, DrawFighterCard, hd, hpl, Mem.setPlayer, hset]
        exact h1
      · simpa [hd, doubled, CardSlice.push] using h3
      · simpa [hd] using h5

/-- What `ShuffleAndRedrawHand` does to a hand of `N` cards on a deck of `D`
cards: no fault, and the hand ends with `2 * min N D` cards, each drawn card
twice. -/
theorem ShuffleAndRedrawHand_doubles (rnd : Nat → Nat) (m : Mem) (a : Nat)
    (pl : PlayerEntity) (hp : m.heap[a]? = some pl) :
    ∃ m2 pl2, ShuffleAndRedrawHand rnd m (some a) = some m2 ∧ m2.heap[a]? = some pl2 ∧
      pl2.hand.elems = doubled (m.gs.FighterDeck.take pl.hand.elems.length) ∧
      pl2.hand.elems.length = 2 * min pl.hand.elems.length m.gs.FighterDeck.length := by
  have hs1 := heap_set_self m.heap a pl
    { pl with hand := { pl.hand with
        elems := shuffleSteps rnd pl.hand.elems.length pl.hand.elems pl.hand.elems.length } } hp
  have hs2 := heap_set_self _ a _
    { ID := pl.ID, hand := { elems := [], spare := [] }, itemCards := pl.itemCards } hs1
  obtain ⟨m2, pl2, h1, h2, h3, _, _⟩ := redrawLoop_spec a pl.hand.elems.length
    { heap := (m.heap.set a { pl with hand := { pl.hand with
        elems := shuffleSteps rnd pl.hand.elems.length pl.hand.elems pl.hand.elems.length } }).set a
          { ID := pl.ID, hand := { elems := [], spare := [] }, itemCards := pl.itemCards },
      gs := m.gs } _ hs2
  refine ⟨m2, pl2, ?_, h2, ?_, ?_⟩
  · simp only [ShuffleAndRedrawHand, ShuffleHand, player_some m a pl hp, Mem.setPlayer, hs1]
    exact h1
  · simpa using h3
  · rw [h3]
    simp [length_doubled, List.length_take]

/-- C2, at the input of the spec: a hand of three cards redrawn on a fighter
deck of one card ends with two cards, the drawn card twice, not with one. -/
theorem ShuffleAndRedrawHand_three_on_one (rnd : Nat → Nat) :
    ∃ m2, ShuffleAndRedrawHand rnd (sampleMem MainPhase none 5 3) (some 0) = some m2 ∧
      (m2.heap[0]?).map (fun p => p.hand.elems) = some [sampleCard "d1" 5, sampleCard "d1" 5] ∧
      (m2.heap[0]?).map (fun p => p.hand.elems.length) = some 2 := by
  obtain ⟨m2, pl2, h1, h2, h3, _⟩ :=
    ShuffleAndRedrawHand_doubles rnd (sampleMem MainPhase none 5 3) 0 _ rfl
  refine ⟨m2, h1, ?_, ?_⟩
  · rw [h2, Option.map, h3]
    rfl
  · rw [h2, Option.map, h3]
    rfl

/-! ## Attack state machine -/

/-- C3: `StartAttack` succeeds exactly when the phase is Main.  When it fails
the memory, `PendingAttack` included, is as before.  When it succeeds the
phase is Attack and `PendingAttack` is a new context with the attacker and
target ids of the input, both item slots nil and `DamageResolved` false,
whatever items the input carried; players and decks are as before. -/
theorem StartAttack_contract (m : Mem) (input : AttackContext) :
    ((StartAttack m input).isOk = true ↔ m.gs.Phase = MainPhase) ∧
    (m.gs.Phase ≠ MainPhase →
      StartAttack m input = .error m "you can only attack during the main phase") ∧
    (m.gs.Phase = MainPhase →
      StartAttack m input =
        .ok { heap := m.heap,
              gs := { Players := m.gs.Players,
                      TurnPlayerID := m.gs.TurnPlayerID,
                      Phase := AttackPhase,
                      PendingAttack := some { AttackerID := input.AttackerID,
                                              TargetID := input.TargetID,
                                              AttackerItem := none,
                                              DefenderItem := none,
                                              DamageResolved := false },
                      FighterDeck := m.gs.FighterDeck,
                      ItemDeck := m.gs.ItemDeck } } ()) := by
  refine ⟨?_, ?_, ?_⟩
  · by_cases h : m.gs.Phase = MainPhase <;> simp [StartAttack, h, Outcome.isOk]
  · intro h
    simp [StartAttack, h]
  · intro h
    simp [StartAttack, h]

theorem StartAttack_contract_witness :
    (sampleMem MainPhase none 5 3).gs.Phase = MainPhase ∧
      StartAttack (sampleMem MainPhase none 5 3)
          { sampleAttack (some ptrI3) with
            AttackerItem := some ptrI1, DamageResolved := true } =
        .ok (sampleMem AttackPhase (some (sampleAttack none)) 5 3) () :=
  ⟨rfl, (StartAttack_contract (sampleMem MainPhase none 5 3)
    { sampleAttack (some ptrI3) with
      AttackerItem := some ptrI1, DamageResolved := true }).2.2 rfl⟩

/-- C4: `AttackerUseItem` succeeds exactly when the phase is Attack, a pending
attack is present and its defender item is set; so it fails on the memory a
successful `StartAttack` has just produced.  When it fails the memory is as
before; when it succeeds only the attacker item of the pending attack has
changed, and it is the given item. -/
theorem AttackerUseItem_contract (m : Mem) (item : Option CardPtr) :
    ((AttackerUseItem m item).isOk = true ↔
      m.gs.Phase = AttackPhase ∧
        ∃ ctx d, m.gs.PendingAttack = some ctx ∧ ctx.DefenderItem = some d) ∧
    (∀ m0 input, StartAttack m0 input = .ok m () → (AttackerUseItem m item).isOk = false) ∧
    ((AttackerUseItem m item).isOk = false → ∃ msg, AttackerUseItem m item = .error m msg) ∧
    (∀ ctx d, m.gs.Phase = AttackPhase → m.gs.PendingAttack = some ctx →
      ctx.DefenderItem = some d →
      AttackerUseItem m item =
        .ok { heap := m.heap,
              gs := { Players := m.gs.Players,
                      TurnPlayerID := m.gs.TurnPlayerID,
                      Phase := m.gs.Phase,
                      PendingAttack := some { AttackerID := ctx.AttackerID,
                                              TargetID := ctx.TargetID,
                                              AttackerItem := item,
                                              DefenderItem := ctx.DefenderItem,
                                              DamageResolved := ctx.DamageResolved },
                      FighterDeck := m.gs.FighterDeck,
                      ItemDeck := m.gs.ItemDeck } } ()) := by
  have key : (AttackerUseItem m item).isOk = true ↔
      m.gs.Phase = AttackPhase ∧
        ∃ ctx d, m.gs.PendingAttack = some ctx ∧ ctx.DefenderItem = some d := by
    by_cases h : m.gs.Phase = AttackPhase
    · cases hp : m.gs.PendingAttack with
      | none => simp [AttackerUseItem, h, hp, Outcome.isOk]
      | some ctx =>
        cases hd : ctx.DefenderItem with
        | none => simp [AttackerUseItem, h, hp, hd, Outcome.isOk]
        | some d => simp [AttackerUseItem, h, hp, hd, Outcome.isOk]
    · simp [AttackerUseItem, h, Outcome.isOk]
  refine ⟨key, ?_, ?_, ?_⟩
  · intro m0 input hstart
    by_cases h0 : m0.gs.Phase = MainPhase
    · simp only [StartAttack, h0, ne_eq, not_true_eq_false, if_false, Outcome.ok.injEq,
        and_true] at hstart
      subst hstart
      simp [AttackerUseItem, Outcome.isOk]
    · simp [StartAttack, h0] at hstart
  · intro hfail
    by_cases h : m.gs.Phase = AttackPhase
    · cases hp : m.gs.PendingAttack with
      | none =>
        exact ⟨"attacker can only use item after defender used one",
          by simp [AttackerUseItem, h, hp]⟩
      | some ctx =>
        cases hd : ctx.DefenderItem with
        | none =>
          exact ⟨"attacker can only use item after defender used one",
            by simp [AttackerUseItem, h, hp, hd]⟩
        | some d => simp [AttackerUseItem, h, hp, hd, Outcome.isOk] at hfail
    · exact ⟨"items can only be used during attack phase", by simp [AttackerUseItem, h]⟩
  · intro ctx d h hp hd
    simp [AttackerUseItem, h, hp, hd]

theorem AttackerUseItem_contract_witness :
    (sampleMem AttackPhase (some (sampleAttack (some ptrI3))) 5 3).gs.Phase
        = AttackPhase ∧
      AttackerUseItem
          (sampleMem AttackPhase (some (sampleAttack (some ptrI3))) 5 3)
          (some ptrI1) =
        .ok (sampleMem AttackPhase
              (some { sampleAttack (some ptrI3) with
                      AttackerItem := some ptrI1 }) 5 3) () :=
  ⟨rfl, (AttackerUseItem_contract
    (sampleMem AttackPhase (some (sampleAttack (some ptrI3))) 5 3)
    (some ptrI1)).2.2.2 _ _ rfl rfl rfl⟩

/-- C5: `DefenderUseItem` succeeds exactly when the phase is Attack and a
pending attack is present.  When it fails the memory is as before; when it
succeeds only the defender item of the pending attack has changed, and it is
the given item. -/
theorem DefenderUseItem_contract (m : Mem) (item : Option CardPtr) :
    ((DefenderUseItem m item).isOk = true ↔
      m.gs.Phase = AttackPhase ∧ ∃ ctx, m.gs.PendingAttack = some ctx) ∧
    ((DefenderUseItem m item).isOk = false → ∃ msg, DefenderUseItem m item = .error m msg) ∧
    (∀ ctx, m.gs.Phase = AttackPhase → m.gs.PendingAttack = some ctx →
      DefenderUseItem m item =
        .ok { heap := m.heap,
              gs := { Players := m.gs.Players,
                      TurnPlayerID := m.gs.TurnPlayerID,
                      Phase := m.gs.Phase,
                      PendingAttack := some { AttackerID := ctx.AttackerID,
                                              TargetID := ctx.TargetID,
                                              AttackerItem := ctx.AttackerItem,
                                              DefenderItem := item,
                                              DamageResolved := ctx.DamageResolved },
                      FighterDeck := m.gs.FighterDeck,
                      ItemDeck := m.gs.ItemDeck } } ()) := by
  refine ⟨?_, ?_, ?_⟩
  · by_cases h : m.gs.Phase = AttackPhase
    · cases hp : m.gs.PendingAttack with
      | none => simp [DefenderUseItem, h, hp, Outcome.isOk]
      | some ctx => simp [DefenderUseItem, h, hp, Outcome.isOk]
    · simp [DefenderUseItem, h, Outcome.isOk]
  · intro hfail
    by_cases h : m.gs.Phase = AttackPhase
    · cases hp : m.gs.PendingAttack with
      | none => exact ⟨"no pending attack", by simp [DefenderUseItem, h, hp]⟩
      | some ctx => simp [DefenderUseItem, h, hp, Outcome.isOk] at hfail
    · exact ⟨"items can only be used during attack phase", by simp [DefenderUseItem, h]⟩
  · intro ctx h hp
    simp [DefenderUseItem, h, hp]

theorem DefenderUseItem_contract_witness :
    (sampleMem AttackPhase (some (sampleAttack none)) 5 3).gs.Phase = AttackPhase ∧
      DefenderUseItem (sampleMem AttackPhase (some (sampleAttack none)) 5 3)
          (some ptrI3) =
        .ok (sampleMem AttackPhase
              (some (sampleAttack (some ptrI3))) 5 3) () :=
  ⟨rfl, (DefenderUseItem_contract (sampleMem AttackPhase (some (sampleAttack none)) 5 3)
    (some ptrI3)).2.2 _ rfl rfl⟩

/-! ## Lists of cards, slices and cells -/

theorem indexOfID_eq_none (id : String) (l : List CardEntity) :
    indexOfID id l = none ↔ ∀ c ∈ l, c.id ≠ id := by
  induction l with
  | nil => simp [indexOfID]
  | cons c cs ih =>
    by_cases h : c.id = id
    · simp [indexOfID, h]
    · simp [indexOfID, h, ih]

theorem indexOfID_some (id : String) (l : List CardEntity) (i : Nat)
    (h : indexOfID id l = some i) : ∃ c, l[i]? = some c ∧ c.id = id := by
  induction l generalizing i with
  | nil => simp [indexOfID] at h
  | cons c cs ih =>
    by_cases hc : c.id = id
    · simp only [indexOfID, hc, if_true, Option.some.injEq] at h
      subst h
      exact ⟨c, by simp, hc⟩
    · simp only [indexOfID, hc, if_false, Option.map_eq_some'] at h
      obtain ⟨k, hk, rfl⟩ := h
      obtain ⟨c2, h1, h2⟩ := ih k hk
      exact ⟨c2, by simpa using h1, h2⟩

/-- With distinct ids in the list, the search for the id of the card at
position `i` stops at `i`. -/
theorem indexOfID_of_nodup (l : List CardEntity) (i : Nat) (c : CardEntity)
    (hn : (l.map (fun x => x.id)).Nodup) (hc : l[i]? = some c) :
    indexOfID c.id l = some i := by
  induction l generalizing i with
  | nil => simp at hc
  | cons d ds ih =>
    simp only [List.map_cons, List.nodup_cons, List.mem_map, not_exists, not_and] at hn
    cases i with
    | zero =>
      simp only [List.getElem?_cons_zero, Option.some.injEq] at hc
      subst hc
      simp [indexOfID]
    | succ k =>
      simp only [List.getElem?_cons_succ] at hc
      have hne : d.id ≠ c.id := fun h => hn.1 c (List.getElem?_mem hc) h.symm
      simp [indexOfID, hne, ih k hn.2 hc]

/-- The search only looks at ids. -/
theorem indexOfID_congr (id : String) (l l2 : List CardEntity)
    (h : l.map (fun x => x.id) = l2.map (fun x => x.id)) :
    indexOfID id l = indexOfID id l2 := by
  induction l generalizing l2 with
  | nil =>
    cases l2 with
    | nil => rfl
    | cons d ds => simp at h
  | cons c cs ih =>
    cases l2 with
    | nil => simp at h
    | cons d ds =>
      simp only [List.map_cons, List.cons.injEq] at h
      simp [indexOfID, h.1, ih ds h.2]

theorem indexOfID_set (id : String) (l : List CardEntity) (i : Nat) (c d : CardEntity)
    (hc : l[i]? = some c) (hd : d.id = c.id) :
    indexOfID id (l.set i d) = indexOfID id l := by
  apply indexOfID_congr
  rw [List.map_set, hd]
  apply List.ext_getElem?
  intro k
  rw [List.getElem?_set]
  split
  · next hik =>
    subst hik
    split
    · simp [hc]
    · next hlt =>
      simp only [List.length_map] at hlt
      have := (List.getElem?_eq_some.mp hc).1
      exact absurd this hlt
  · rfl

theorem eraseIdx_set_self (l : List CardEntity) (i : Nat) (d : CardEntity) :
    (l.set i d).eraseIdx i = l.eraseIdx i := by
  induction l generalizing i with
  | nil => rfl
  | cons c cs ih =>
    cases i with
    | zero => rfl
    | succ k => simp [ih k]

/-- What the slice shows after `removeCard`: the first card with the id is gone. -/
theorem removeCard_elems_of_index (s : CardSlice) (id : String) (i : Nat)
    (h : indexOfID id s.elems = some i) :
    (removeCard s id).elems = s.elems.eraseIdx i := by
  simp [removeCard, h, List.eraseIdx_eq_take_drop_succ]

theorem removeCard_of_absent (s : CardSlice) (id : String)
    (h : indexOfID id s.elems = none) : removeCard s id = s := by
  simp [removeCard, h]

theorem id_not_mem_eraseIdx (l : List CardEntity) (i : Nat) (c : CardEntity)
    (hn : (l.map (fun x => x.id)).Nodup) (hc : l[i]? = some c) :
    c.id ∉ (l.eraseIdx i).map (fun x => x.id) := by
  induction l generalizing i with
  | nil => simp at hc
  | cons d ds ih =>
    simp only [List.map_cons, List.nodup_cons, List.mem_map, not_exists, not_and] at hn
    cases i with
    | zero =>
      simp only [List.getElem?_cons_zero, Option.some.injEq] at hc
      subst hc
      simpa using hn.1
    | succ k =>
      simp only [List.getElem?_cons_succ] at hc
      have hne : c.id ≠ d.id := fun h => hn.1 c (List.getElem?_mem hc) h
      have := ih k hn.2 hc
      simp only [List.eraseIdx_cons_succ, List.map_cons, List.mem_cons, not_or]
      exact ⟨hne, this⟩

/-- With distinct ids, removing the card at the position where the id is
found leaves exactly the cards with another id, in their order. -/
theorem eraseIdx_eq_filter_of_nodup (l : List CardEntity) (id : String) (i : Nat)
    (hn : (l.map (fun x => x.id)).Nodup) (h : indexOfID id l = some i) :
    l.eraseIdx i = l.filter (fun c => decide (c.id ≠ id)) := by
  induction l generalizing i with
  | nil => simp [indexOfID] at h
  | cons d ds ih =>
    simp only [List.map_cons, List.nodup_cons, List.mem_map, not_exists, not_and] at hn
    by_cases hd : d.id = id
    · simp only [indexOfID, hd, if_true, Option.some.injEq] at h
      subst h
      have hall : ∀ c ∈ ds, decide (c.id ≠ id) = true := by
        intro c hc
        have := hn.1 c hc
        simpa [hd] using fun e => this (e.trans hd.symm)
      rw [List.filter_cons_of_neg (by simp [hd]), List.filter_eq_self.mpr hall]
      rfl
    · simp only [indexOfID, hd, if_false, Option.map_eq_some'] at h
      obtain ⟨k, hk, rfl⟩ := h
      simp [hd, ih k hn.2 hk]

theorem filter_eq_self_of_absent (l : List CardEntity) (id : String)
    (h : indexOfID id l = none) : l.filter (fun c => decide (c.id ≠ id)) = l := by
  rw [List.filter_eq_self]
  intro c hc
  simpa using (indexOfID_eq_none id l).mp h c hc

theorem setCell_cells (s : CardSlice) (i : Nat) (c : CardEntity) :
    (s.setCell i c).cells = s.cells.set i c := by
  unfold CardSlice.setCell CardSlice.cells
  by_cases h : i < s.elems.length
  · simp [h]
  · simp [h, List.set_append]

theorem setCell_elems_of_lt (s : CardSlice) (i : Nat) (c : CardEntity)
    (h : i < s.elems.length) : (s.setCell i c).elems = s.elems.set i c := by
  simp [CardSlice.setCell, h]

theorem cells_of_lt (s : CardSlice) (i : Nat) (h : i < s.elems.length) :
    s.cells[i]? = s.elems[i]? := by
  simp [CardSlice.cells, List.getElem?_append_left h]

/-! ## Reading and writing through card pointers -/

theorem readCell_writeCell_self (m : Mem) (r : CardRef) (c d : CardEntity)
    (h : m.readCell r = some c) : (m.writeCell r d).readCell r = some d := by
  unfold Mem.readCell at h
  cases hp : m.heap[r.owner]? with
  | none => simp [hp] at h
  | some p =>
    simp only [hp] at h
    have hlt : r.idx < (p.slice r.zone).cells.length := (List.getElem?_eq_some.mp h).1
    have hs := heap_set_self m.heap r.owner p
      (p.setSlice r.zone ((p.slice r.zone).setCell r.idx d)) hp
    simp only [Mem.writeCell, hp, Mem.readCell, Mem.setPlayer, hs]
    cases hz : r.zone <;>
      simp only [PlayerEntity.setSlice, PlayerEntity.slice, setCell_cells, hz] at hlt ⊢ <;>
      exact List.getElem?_set_self hlt

theorem readCell_writeCell_ne (m : Mem) (r r2 : CardRef) (d : CardEntity) (hne : r2 ≠ r) :
    (m.writeCell r d).readCell r2 = m.readCell r2 := by
  cases hp : m.heap[r.owner]? with
  | none => simp [Mem.writeCell, hp]
  | some p =>
    simp only [Mem.writeCell, hp, Mem.readCell, Mem.setPlayer]
    by_cases ho : r2.owner = r.owner
    · have hs := heap_set_self m.heap r.owner p
        (p.setSlice r.zone ((p.slice r.zone).setCell r.idx d)) hp
      rw [ho, hs, hp]
      by_cases hz : r2.zone = r.zone
      · have hi : r.idx ≠ r2.idx := by
          intro hi
          apply hne
          cases r; cases r2
          simp_all
        rw [hz]
        cases hz2 : r.zone <;>
          simp [PlayerEntity.setSlice, PlayerEntity.slice, setCell_cells,
            List.getElem?_set_ne hi]
      · cases hz1 : r.zone <;> cases hz2 : r2.zone <;>
          simp_all [PlayerEntity.setSlice, PlayerEntity.slice]
    · rw [List.getElem?_set_ne (fun h => ho h.symm)]

theorem writeCell_gs (m : Mem) (r : CardRef) (d : CardEntity) : (m.writeCell r d).gs = m.gs := by
  unfold Mem.writeCell
  cases m.heap[r.owner]? <;> rfl

/-- Writing a card of a hand through a pointer to it. -/
theorem writeCell_hand (m : Mem) (a i : Nat) (pl : PlayerEntity) (d : CardEntity)
    (hp : m.heap[a]? = some pl) (hi : i < pl.hand.elems.length) :
    m.writeCell ⟨a, .hand, i⟩ d =
      { heap := m.heap.set a { pl with hand := { pl.hand with elems := pl.hand.elems.set i d } },
        gs := m.gs } := by
  simp [Mem.writeCell, hp, Mem.setPlayer, PlayerEntity.setSlice, PlayerEntity.slice,
    CardSlice.setCell, hi]

theorem readCell_hand (m : Mem) (a i : Nat) (pl : PlayerEntity)
    (hp : m.heap[a]? = some pl) (hi : i < pl.hand.elems.length) :
    m.readCell ⟨a, .hand, i⟩ = pl.hand.elems[i]? := by
  simp [Mem.readCell, hp, PlayerEntity.slice, cells_of_lt _ _ hi]

/-! ## The cards of the players and the searches over the player map -/

theorem cardsIn_perm (m : Mem) (o1 o2 : List (String × Option Nat)) (h : o1.Perm o2) :
    (m.cardsIn o1).Perm (m.cardsIn o2) := by
  induction h with
  | nil => exact List.Perm.refl _
  | cons e _ ih =>
    obtain ⟨k, p⟩ := e
    exact List.Perm.append_left _ ih
  | swap e1 e2 l =>
    obtain ⟨k1, p1⟩ := e1
    obtain ⟨k2, p2⟩ := e2
    simp only [Mem.cardsIn, ← List.append_assoc]
    exact List.Perm.append_right _ List.perm_append_comm
  | trans _ _ ih1 ih2 => exact ih1.trans ih2

theorem mem_cardsIn (m : Mem) (order : List (String × Option Nat)) (k : String) (a : Nat)
    (pl : PlayerEntity) (c : CardEntity) (he : (k, some a) ∈ order)
    (hp : m.heap[a]? = some pl) (hc : c ∈ pl.cards) : c ∈ m.cardsIn order := by
  induction order with
  | nil => simp at he
  | cons e rest ih =>
    obtain ⟨k2, p2⟩ := e
    simp only [Mem.cardsIn, List.mem_append]
    rcases List.mem_cons.mp he with h | h
    · left
      simp only [Prod.mk.injEq] at h
      rw [← h.2, player_some m a pl hp]
      exact hc
    · right
      exact ih h

/-- The search finds a card that lies in a hand: with non-nil players and
distinct ids, whatever the order of the range, the result is the pointer to
the cell of the card in the hand of the player holding it. -/
theorem findCardByIDInGame_hand (m : Mem) (id : String) (a i : Nat) (pl : PlayerEntity)
    (hp : m.heap[a]? = some pl) (hi : indexOfID id pl.hand.elems = some i) :
    ∀ order : List (String × Option Nat),
      (∀ e ∈ order, ∃ b q, e.2 = some b ∧ m.heap[b]? = some q) →
      ((m.cardsIn order).map (fun x => x.id)).Nodup →
      (∃ k, (k, some a) ∈ order) →
      findCardByIDInGame m order id = .found ⟨a, .hand, i⟩ := by
  intro order
  induction order with
  | nil =>
    intro _ _ he
    obtain ⟨k, hk⟩ := he
    simp at hk
  | cons e rest ih =>
    intro hv hn he
    obtain ⟨k2, p2⟩ := e
    obtain ⟨b, q, hb, hq⟩ := hv (k2, p2) (List.mem_cons_self _ _)
    simp only at hb
    subst hb
    by_cases hba : b = a
    · subst hba
      rw [hp] at hq
      simp only [Option.some.injEq] at hq
      subst hq
      simp [findCardByIDInGame, player_some m b pl hp, hi]
    · obtain ⟨k, hk⟩ := he
      have hk2 : (k, some a) ∈ rest := by
        rcases List.mem_cons.mp hk with h | h
        · simp only [Prod.mk.injEq, Option.some.injEq] at h
          exact absurd h.2.symm hba
        · exact h
      obtain ⟨c, hc1, hc2⟩ := indexOfID_some id pl.hand.elems i hi
      have hcin : c ∈ m.cardsIn rest :=
        mem_cardsIn m rest k a pl c hk2 hp
          (List.mem_append_left _ (List.getElem?_mem hc1))
      simp only [Mem.cardsIn, player_some m b q hq, List.map_append] at hn
      have hdis := (List.nodup_append.mp hn).2.2
      have hq1 : indexOfID id q.hand.elems = none := by
        rw [indexOfID_eq_none]
        intro d hd hdid
        exact hdis (List.mem_map.mpr ⟨d, List.mem_append_left _ hd, hdid⟩)
          (List.mem_map.mpr ⟨c, hcin, hc2⟩)
      have hq2 : indexOfID id q.itemCards.elems = none := by
        rw [indexOfID_eq_none]
        intro d hd hdid
        exact hdis (List.mem_map.mpr ⟨d, List.mem_append_right _ hd, hdid⟩)
          (List.mem_map.mpr ⟨c, hcin, hc2⟩)
      simp only [findCardByIDInGame, player_some m b q hq, hq1, hq2]
      exact ih (fun e he => hv e (List.mem_cons_of_mem _ he)) (List.nodup_append.mp hn).2.1
        ⟨k, hk2⟩

/-- The search misses an id that no player holds: with non-nil players the
result is the error "card not found in game". -/
theorem findCardByIDInGame_absent (m : Mem) (id : String) :
    ∀ order : List (String × Option Nat),
      (∀ e ∈ order, ∃ b q, e.2 = some b ∧ m.heap[b]? = some q) →
      (∀ c ∈ m.cardsIn order, c.id ≠ id) →
      findCardByIDInGame m order id = .notFound := by
  intro order
  induction order with
  | nil => intro _ _; rfl
  | cons e rest ih =>
    intro hv habs
    obtain ⟨k2, p2⟩ := e
    obtain ⟨b, q, hb, hq⟩ := hv (k2, p2) (List.mem_cons_self _ _)
    simp only at hb
    subst hb
    simp only [Mem.cardsIn, player_some m b q hq, List.mem_append, PlayerEntity.cards] at habs
    have hq1 : indexOfID id q.hand.elems = none :=
      (indexOfID_eq_none _ _).mpr (fun c hc => habs c (Or.inl (Or.inl hc)))
    have hq2 : indexOfID id q.itemCards.elems = none :=
      (indexOfID_eq_none _ _).mpr (fun c hc => habs c (Or.inl (Or.inr hc)))
    simp only [findCardByIDInGame, player_some m b q hq, hq1, hq2]
    exact ih (fun e he => hv e (List.mem_cons_of_mem _ he)) (fun c hc => habs c (Or.inr hc))

/-- With non-nil players the search never faults. -/
theorem findCardByIDInGame_no_fault (m : Mem) (id : String) :
    ∀ order : List (String × Option Nat),
      (∀ e ∈ order, ∃ b q, e.2 = some b ∧ m.heap[b]? = some q) →
      findCardByIDInGame m order id ≠ .fault := by
  intro order
  induction order with
  | nil => intro _; simp [findCardByIDInGame]
  | cons e rest ih =>
    intro hv
    obtain ⟨k2, p2⟩ := e
    obtain ⟨b, q, hb, hq⟩ := hv (k2, p2) (List.mem_cons_self _ _)
    simp only at hb
    subst hb
    simp only [findCardByIDInGame, player_some m b q hq]
    cases indexOfID id q.hand.elems with
    | some i => simp
    | none =>
      cases indexOfID id q.itemCards.elems with
      | some i => simp
      | none => exact ih (fun e he => hv e (List.mem_cons_of_mem _ he))

/-! ## Combat resolver -/

theorem sublist_cardsIn (m : Mem) (order : List (String × Option Nat)) (k : String) (a : Nat)
    (pl : PlayerEntity) (he : (k, some a) ∈ order) (hp : m.heap[a]? = some pl) :
    pl.cards.Sublist (m.cardsIn order) := by
  induction order with
  | nil => simp at he
  | cons e rest ih =>
    obtain ⟨k2, p2⟩ := e
    simp only [Mem.cardsIn]
    rcases List.mem_cons.mp he with h | h
    · simp only [Prod.mk.injEq] at h
      rw [← h.2, player_some m a pl hp]
      exact List.sublist_append_left _ _
    · exact (ih h).trans (List.sublist_append_right _ _)

/-- The cell a pointer to the removed card points to after `removeCard`
holds a card of the old hand (the next one, or the removed one when it was
the last), so it has no skill when no card of the hand has one. -/
theorem removed_cell_no_skill (s : CardSlice) (id : String) (j : Nat)
    (hj : indexOfID id s.elems = some j) (hs : ∀ c ∈ s.elems, c.skill = "") :
    ∃ c, (removeCard s id).cells[j]? = some c ∧ c.skill = "" := by
  obtain ⟨c0, hc0, _⟩ := indexOfID_some id s.elems j hj
  have hlt : j < s.elems.length := (List.getElem?_eq_some.mp hc0).1
  have hcells : (removeCard s id).cells =
      (s.elems.take j ++ s.elems.drop (j + 1) ++ s.elems.drop (s.elems.length - 1))
        ++ s.spare := by
    simp [removeCard, hj, CardSlice.cells]
  have hlen : j < (s.elems.take j ++ s.elems.drop (j + 1)
      ++ s.elems.drop (s.elems.length - 1)).length := by
    simp only [List.length_append, List.length_take, List.length_drop]
    omega
  rw [hcells, List.getElem?_append_left hlen]
  refine ⟨_, List.getElem?_eq_getElem hlen, ?_⟩
  apply hs
  have hmem := List.getElem_mem hlen
  rcases List.mem_append.mp hmem with h | h
  · rcases List.mem_append.mp h with h | h
    · exact List.mem_of_mem_take h
    · exact List.mem_of_mem_drop h
  · exact List.mem_of_mem_drop h

/-- The combat part of `ResolveAttack` between two hands of different
players whose target hand has no skills: it succeeds, the attacker leaves its
hand, the target leaves its hand exactly when the attacker's damage is at
least the target's, nothing else is touched, and the phase is Resolution with
no pending attack. -/
theorem combatResolution_hands (o3 : List (String × Option Nat)) (rnd : Nat → Nat) (m : Mem)
    (pa pt i j : Nat) (A T : PlayerEntity) (att tgt : CardEntity)
    (hA : m.heap[pa]? = some A) (hT : m.heap[pt]? = some T) (hne : pa ≠ pt)
    (hatt : A.hand.elems[i]? = some att) (htgt : T.hand.elems[j]? = some tgt)
    (hai : indexOfID att.id A.hand.elems = some i)
    (htj : indexOfID tgt.id T.hand.elems = some j)
    (hskill : ∀ c ∈ T.hand.elems, c.skill = "") :
    ∃ m2 A2 T2, combatResolution o3 rnd m ⟨pa, .hand, i⟩ ⟨pt, .hand, j⟩ = .ok m2 () ∧
      m2.gs = { m.gs with PendingAttack := none, Phase := ResolutionPhase } ∧
      (∀ b, b ≠ pa → b ≠ pt → m2.heap[b]? = m.heap[b]?) ∧
      m2.heap[pa]? = some A2 ∧ m2.heap[pt]? = some T2 ∧
      A2.ID = A.ID ∧ A2.itemCards = A.itemCards ∧
      A2.hand.elems = A.hand.elems.eraseIdx i ∧
      T2.ID = T.ID ∧ T2.itemCards = T.itemCards ∧
      (att.dmg ≥ tgt.dmg → T2.hand.elems = T.hand.elems.eraseIdx j) ∧
      (att.dmg < tgt.dmg → T2 = T) := by
  have hi : i < A.hand.elems.length := (List.getElem?_eq_some.mp hatt).1
  have hj : j < T.hand.elems.length := (List.getElem?_eq_some.mp htgt).1
  have hra : m.readCell ⟨pa, .hand, i⟩ = some att := by
    rw [readCell_hand m pa i A hA hi]; exact hatt
  have hrt : m.readCell ⟨pt, .hand, j⟩ = some tgt := by
    rw [readCell_hand m pt j T hT hj]; exact htgt
  by_cases hcmp : att.dmg ≥ tgt.dmg
  · -- the target is destroyed
    let T1 : PlayerEntity :=
      { T with hand := { T.hand with
          elems := T.hand.elems.set j { tgt with destroyed := true } } }
    let T2 : PlayerEntity := { T1 with hand := removeCard T1.hand tgt.id }
    let mR : Mem := { heap := (m.heap.set pt T1).set pt T2, gs := m.gs }
    have hT1 : (m.heap.set pt T1)[pt]? = some T1 := heap_set_self m.heap pt T T1 hT
    have hT2 : mR.heap[pt]? = some T2 := heap_set_self _ pt T1 T2 hT1
    have hidx : indexOfID tgt.id T1.hand.elems = some j := by
      show indexOfID tgt.id (T.hand.elems.set j { tgt with destroyed := true }) = some j
      rw [indexOfID_set tgt.id T.hand.elems j tgt { tgt with destroyed := true } htgt rfl]
      exact htj
    have hsk1 : ∀ c ∈ T1.hand.elems, c.skill = "" := by
      intro c hc
      rcases List.mem_or_eq_of_mem_set hc with h | h
      · exact hskill c h
      · rw [h]; exact hskill tgt (List.getElem?_mem htgt)
    obtain ⟨cx, hcx, hcxs⟩ := removed_cell_no_skill T1.hand tgt.id j hidx hsk1
    have hskip : resolveCardSkills o3 rnd mR ⟨pt, .hand, j⟩ "onDestroy" = some mR := by
      have : mR.readCell ⟨pt, .hand, j⟩ = some cx := by
        simp only [Mem.readCell, hT2, PlayerEntity.slice]
        exact hcx
      simp [resolveCardSkills, this, hcxs]
    have hApa : mR.heap[pa]? = some A := by
      show ((m.heap.set pt T1).set pt T2)[pa]? = some A
      rw [List.getElem?_set_ne (fun h => hne h.symm), List.getElem?_set_ne (fun h => hne h.symm)]
      exact hA
    have hra2 : mR.readCell ⟨pa, .hand, i⟩ = some att := by
      rw [readCell_hand mR pa i A hApa hi]; exact hatt
    let A2 : PlayerEntity := { A with hand := removeCard A.hand att.id }
    refine ⟨{ heap := mR.heap.set pa A2,
              gs := { m.gs with PendingAttack := none, Phase := ResolutionPhase } },
            A2, T2, ?_, rfl, ?_, ?_, ?_, rfl, rfl, ?_, rfl, rfl, ?_, ?_⟩
    · simp only [combatResolution, hra, hrt, canAttackerDestroy, hcmp, decide_True, if_true]
      rw [writeCell_hand m pt j T _ hT hj]
      simp only [hT1, Mem.setPlayer]
      show (match resolveCardSkills o3 rnd mR ⟨pt, .hand, j⟩ "onDestroy" with
            | none => Outcome.fault
            | some m2 => _) = _
      rw [hskip]
      simp only [hra2, hApa, Mem.setPlayer]
    · intro b hba hbt
      show ((((m.heap.set pt T1).set pt T2).set pa A2))[b]? = m.heap[b]?
      rw [List.getElem?_set_ne (fun h => hba h.symm), List.getElem?_set_ne (fun h => hbt h.symm),
        List.getElem?_set_ne (fun h => hbt h.symm)]
    · exact heap_set_self _ pa A A2 hApa
    · show (mR.heap.set pa A2)[pt]? = some T2
      rw [List.getElem?_set_ne hne]; exact hT2
    · exact removeCard_elems_of_index A.hand att.id i hai
    · intro _
      show (removeCard T1.hand tgt.id).elems = T.hand.elems.eraseIdx j
      rw [removeCard_elems_of_index T1.hand tgt.id j hidx]
      exact eraseIdx_set_self T.hand.elems j _
    · intro hlt
      exact absurd hcmp (not_le.mpr hlt)
  · -- the target survives
    let A2 : PlayerEntity := { A with hand := removeCard A.hand att.id }
    refine ⟨{ heap := m.heap.set pa A2,
              gs := { m.gs with PendingAttack := none, Phase := ResolutionPhase } },
            A2, T, ?_, rfl, ?_, ?_, ?_, rfl, rfl, ?_, rfl, rfl, ?_, ?_⟩
    · simp only [combatResolution, hra, hrt, canAttackerDestroy, hcmp, decide_False,
        Bool.false_eq_true, if_false, hA, Mem.setPlayer]
    · intro b hba _
      show (m.heap.set pa A2)[b]? = m.heap[b]?
      rw [List.getElem?_set_ne (fun h => hba h.symm)]
    · exact heap_set_self _ pa A A2 hA
    · show (m.heap.set pa A2)[pt]? = some T
      rw [List.getElem?_set_ne hne]; exact hT
    · exact removeCard_elems_of_index A.hand att.id i hai
    · intro h
      exact absurd h hcmp
    · intro _
      rfl

theorem valid_of_perm (m : Mem) (o : List (String × Option Nat)) (ho : o.Perm m.gs.Players)
    (hv : m.playersValid) : ∀ e ∈ o, ∃ b q, e.2 = some b ∧ m.heap[b]? = some q :=
  fun e he => hv e (ho.subset he)

theorem nodup_of_perm (m : Mem) (o : List (String × Option Nat)) (ho : o.Perm m.gs.Players)
    (hn : ((m.cardsIn m.gs.Players).map (fun c => c.id)).Nodup) :
    ((m.cardsIn o).map (fun c => c.id)).Nodup :=
  (((cardsIn_perm m o m.gs.Players ho).map (fun c => c.id)).nodup_iff).mpr hn

/-- The ids of the hand of a player of the map are distinct when those of all cards are. -/
theorem hand_nodup (m : Mem) (k : String) (a : Nat) (pl : PlayerEntity)
    (he : (k, some a) ∈ m.gs.Players) (hp : m.heap[a]? = some pl)
    (hn : ((m.cardsIn m.gs.Players).map (fun c => c.id)).Nodup) :
    (pl.hand.elems.map (fun c => c.id)).Nodup :=
  hn.sublist ((((List.sublist_append_left pl.hand.elems pl.itemCards.elems).trans
    (sublist_cardsIn m m.gs.Players k a pl he hp))).map (fun c => c.id))

theorem pool_nodup (m : Mem) (k : String) (a : Nat) (pl : PlayerEntity)
    (he : (k, some a) ∈ m.gs.Players) (hp : m.heap[a]? = some pl)
    (hn : ((m.cardsIn m.gs.Players).map (fun c => c.id)).Nodup) :
    (pl.itemCards.elems.map (fun c => c.id)).Nodup :=
  hn.sublist ((((List.sublist_append_right pl.hand.elems pl.itemCards.elems).trans
    (sublist_cardsIn m m.gs.Players k a pl he hp))).map (fun c => c.id))

theorem Duel.attackerIndex {m : Mem} {ctx : AttackContext} {pa pt i j : Nat}
    {A T : PlayerEntity} {att tgt : CardEntity} (h : Duel m ctx pa pt i j A T att tgt) :
    indexOfID att.id A.hand.elems = some i := by
  obtain ⟨k, hk⟩ := h.attackerEntry
  exact indexOfID_of_nodup _ _ _ (hand_nodup m k pa A hk h.attackerOwner h.distinct)
    h.attackerCard

theorem Duel.targetIndex {m : Mem} {ctx : AttackContext} {pa pt i j : Nat}
    {A T : PlayerEntity} {att tgt : CardEntity} (h : Duel m ctx pa pt i j A T att tgt) :
    indexOfID tgt.id T.hand.elems = some j := by
  obtain ⟨k, hk⟩ := h.targetEntry
  exact indexOfID_of_nodup _ _ _ (hand_nodup m k pt T hk h.targetOwner h.distinct)
    h.targetCard

/-- In the setting `Duel`, whatever the orders of the two searches, they
return the pointers to the two cards, and `ResolveAttack` is the two item
steps followed by the combat part on those pointers. -/
theorem ResolveAttack_of_duel (o1 o2 o3 : List (String × Option Nat)) (rnd : Nat → Nat)
    (m : Mem) (ctx : AttackContext) (pa pt i j : Nat) (A T : PlayerEntity)
    (att tgt : CardEntity) (h : Duel m ctx pa pt i j A T att tgt)
    (ho1 : o1.Perm m.gs.Players) (ho2 : o2.Perm m.gs.Players) :
    ResolveAttack o1 o2 o3 rnd m =
      match useItem m ctx.DefenderItem ⟨pt, .hand, j⟩ ⟨pa, .hand, i⟩ pt with
      | .fault => .fault
      | .error m1 e => .error m1 e
      | .ok m1 _ =>
        match useItem m1 ctx.AttackerItem ⟨pa, .hand, i⟩ ⟨pt, .hand, j⟩ pa with
        | .fault => .fault
        | .error m2 e => .error m2 e
        | .ok m2 _ => combatResolution o3 rnd m2 ⟨pa, .hand, i⟩ ⟨pt, .hand, j⟩ := by
  have hfa : findCardByIDInGame m o1 ctx.AttackerID = .found ⟨pa, .hand, i⟩ := by
    obtain ⟨k, hk⟩ := h.attackerEntry
    rw [← h.attackerId]
    exact findCardByIDInGame_hand m att.id pa i A h.attackerOwner h.attackerIndex o1
      (valid_of_perm m o1 ho1 h.valid) (nodup_of_perm m o1 ho1 h.distinct)
      ⟨k, ho1.mem_iff.mpr hk⟩
  have hft : findCardByIDInGame m o2 ctx.TargetID = .found ⟨pt, .hand, j⟩ := by
    obtain ⟨k, hk⟩ := h.targetEntry
    rw [← h.targetId]
    exact findCardByIDInGame_hand m tgt.id pt j T h.targetOwner h.targetIndex o2
      (valid_of_perm m o2 ho2 h.valid) (nodup_of_perm m o2 ho2 h.distinct)
      ⟨k, ho2.mem_iff.mpr hk⟩
  simp only [ResolveAttack, h.phase, h.pending, hfa, hft, ne_eq, not_true_eq_false, if_false]

/-- C6: in the setting `Duel` with no items attached and no skills, whatever
the orders in which the player map is ranged over, `ResolveAttack` succeeds,
the phase becomes Resolution and the pending attack is cleared; the attacker
card leaves its owner's hand in every case; the target card leaves its
owner's hand exactly when the attacker's damage is at least the target's
(a tie destroys the target), and otherwise the target's owner is untouched,
the target still in its place in the hand with the same fields. -/
theorem ResolveAttack_without_items (o1 o2 o3 : List (String × Option Nat)) (rnd : Nat → Nat)
    (m : Mem) (ctx : AttackContext) (pa pt i j : Nat) (A T : PlayerEntity)
    (att tgt : CardEntity) (h : Duel m ctx pa pt i j A T att tgt)
    (hno : ctx.AttackerItem = none ∧ ctx.DefenderItem = none) (hskill : m.noSkills)
    (ho1 : o1.Perm m.gs.Players) (ho2 : o2.Perm m.gs.Players) :
    ∃ m2 A2 T2, ResolveAttack o1 o2 o3 rnd m = .ok m2 () ∧
      m2.gs = { m.gs with PendingAttack := none, Phase := ResolutionPhase } ∧
      m2.heap[pa]? = some A2 ∧ m2.heap[pt]? = some T2 ∧
      (∀ b, b ≠ pa → b ≠ pt → m2.heap[b]? = m.heap[b]?) ∧
      A2.hand.elems = A.hand.elems.eraseIdx i ∧
      att.id ∉ A2.hand.elems.map (fun c => c.id) ∧
      A2.itemCards = A.itemCards ∧ T2.itemCards = T.itemCards ∧
      (tgt.id ∉ T2.hand.elems.map (fun c => c.id) ↔ att.dmg ≥ tgt.dmg) ∧
      (att.dmg ≥ tgt.dmg → T2.hand.elems = T.hand.elems.eraseIdx j) ∧
      (att.dmg < tgt.dmg → T2 = T ∧ T2.hand.elems[j]? = some tgt) := by
  obtain ⟨kt, hkt⟩ := h.targetEntry
  obtain ⟨ka, hka⟩ := h.attackerEntry
  have hsk : ∀ c ∈ T.hand.elems, c.skill = "" := fun c hc =>
    hskill c (mem_cardsIn m m.gs.Players kt pt T c hkt h.targetOwner
      (List.mem_append_left _ hc))
  obtain ⟨m2, A2, T2, hres, hgs, hframe, hA2, hT2, _, hAi, hAh, _, hTi, hwin, hlose⟩ :=
    combatResolution_hands o3 rnd m pa pt i j A T att tgt h.attackerOwner h.targetOwner
      h.others h.attackerCard h.targetCard h.attackerIndex h.targetIndex hsk
  refine ⟨m2, A2, T2, ?_, hgs, hA2, hT2, hframe, hAh, ?_, hAi, hTi, ?_, hwin, ?_⟩
  · rw [ResolveAttack_of_duel o1 o2 o3 rnd m ctx pa pt i j A T att tgt h ho1 ho2]
    simp only [hno.1, hno.2, useItem]
    exact hres
  · rw [hAh]
    exact id_not_mem_eraseIdx _ _ _ (hand_nodup m ka pa A hka h.attackerOwner h.distinct)
      h.attackerCard
  · constructor
    · intro hnot
      by_contra hlt
      have := hlose (not_le.mp hlt)
      rw [this] at hnot
      exact hnot (List.mem_map.mpr ⟨tgt, List.getElem?_mem h.targetCard, rfl⟩)
    · intro hge
      rw [hwin hge]
      exact id_not_mem_eraseIdx _ _ _ (hand_nodup m kt pt T hkt h.targetOwner h.distinct)
        h.targetCard
  · intro hlt
    have := hlose hlt
    exact ⟨this, by rw [this]; exact h.targetCard⟩

/-- C7: with non-nil players, whatever the orders of the searches,
`ResolveAttack` returns an error and leaves the whole memory as it was when
the phase is not Attack, or no attack is pending, or the attacker id or the
target id of the pending attack is the id of no card held by a player. -/
theorem ResolveAttack_failure_unchanged (o1 o2 o3 : List (String × Option Nat))
    (rnd : Nat → Nat) (m : Mem) (hv : m.playersValid)
    (ho1 : o1.Perm m.gs.Players) (ho2 : o2.Perm m.gs.Players)
    (h : m.gs.Phase ≠ AttackPhase ∨ m.gs.PendingAttack = none ∨
      ∃ ctx, m.gs.PendingAttack = some ctx ∧
        (m.idAbsent ctx.AttackerID ∨ m.idAbsent ctx.TargetID)) :
    ∃ msg, ResolveAttack o1 o2 o3 rnd m = .error m msg := by
  by_cases hph : m.gs.Phase = AttackPhase
  · cases hpe : m.gs.PendingAttack with
    | none => exact ⟨"no attack to resolve", by simp [ResolveAttack, hph, hpe]⟩
    | some ctx =>
      rcases h with h | h | ⟨ctx2, hc, habs⟩
      · exact absurd hph h
      · rw [hpe] at h
        simp at h
      · rw [hpe] at hc
        simp only [Option.some.injEq] at hc
        subst hc
        have absent_in : ∀ (o : List (String × Option Nat)) (id : String),
            o.Perm m.gs.Players → m.idAbsent id → findCardByIDInGame m o id = .notFound :=
          fun o id ho ha => findCardByIDInGame_absent m id o (valid_of_perm m o ho hv)
            (fun c hc => ha c ((cardsIn_perm m o m.gs.Players ho).subset hc))
        refine ⟨"card not found in game", ?_⟩
        rcases habs with ha | ht
        · simp [ResolveAttack, hph, hpe, absent_in o1 ctx.AttackerID ho1 ha]
        · have hnf := findCardByIDInGame_no_fault m ctx.AttackerID o1 (valid_of_perm m o1 ho1 hv)
          cases hfa : findCardByIDInGame m o1 ctx.AttackerID with
          | fault => exact absurd hfa hnf
          | notFound => simp [ResolveAttack, hph, hpe, hfa]
          | found r => simp [ResolveAttack, hph, hpe, hfa, absent_in o2 ctx.TargetID ho2 ht]
  · exact ⟨"no attack to resolve", by simp [ResolveAttack, hph]⟩

/-- The sample memory in phase Attack is a `Duel` between the card "a" of the
first player and the card "t" of the second. -/
theorem sampleDuel (atk tgt : Int) (d : Option CardPtr) :
    Duel (sampleMem AttackPhase (some (sampleAttack d)) atk tgt) (sampleAttack d) 0 1 0 0
      (samplePlayer "p1" [sampleCard "a" atk, sampleCard "b" 2, sampleCard "c" 3]
        [sampleItem "i1" "Armor Buff"])
      (samplePlayer "p2" [sampleCard "t" tgt, sampleCard "u" 1]
        [sampleItem "i2" "Mirror Shield", sampleItem "i3" "Weakening Shot",
         sampleItem "i4" "Shield Bubble"])
      (sampleCard "a" atk) (sampleCard "t" tgt) where
  phase := rfl
  pending := rfl
  valid := by
    intro e he
    simp only [sampleMem, sampleGame, List.mem_cons, List.mem_singleton, List.not_mem_nil,
      or_false] at he
    rcases he with rfl | rfl
    · exact ⟨0, _, rfl, rfl⟩
    · exact ⟨1, _, rfl, rfl⟩
  distinct := by
    have hids : ((sampleMem AttackPhase (some (sampleAttack d)) atk tgt).cardsIn
        (sampleMem AttackPhase (some (sampleAttack d)) atk tgt).gs.Players).map (fun c => c.id)
        = ["a", "b", "c", "i1", "t", "u", "i2", "i3", "i4"] := rfl
    rw [hids]
    decide
  attackerEntry := ⟨"p1", by simp [sampleMem, sampleGame]⟩
  targetEntry := ⟨"p2", by simp [sampleMem, sampleGame]⟩
  attackerOwner := rfl
  targetOwner := rfl
  attackerCard := rfl
  targetCard := rfl
  attackerId := rfl
  targetId := rfl
  others := by decide

theorem sample_noSkills (atk tgt : Int) (d : Option CardPtr) :
    (sampleMem AttackPhase (some (sampleAttack d)) atk tgt).noSkills := by
  intro c hc
  have hcs : (sampleMem AttackPhase (some (sampleAttack d)) atk tgt).cardsIn
      (sampleMem AttackPhase (some (sampleAttack d)) atk tgt).gs.Players
      = [sampleCard "a" atk, sampleCard "b" 2, sampleCard "c" 3, sampleItem "i1" "Armor Buff",
         sampleCard "t" tgt, sampleCard "u" 1, sampleItem "i2" "Mirror Shield",
         sampleItem "i3" "Weakening Shot", sampleItem "i4" "Shield Bubble"] := rfl
  rw [hcs] at hc
  simp only [List.mem_cons, List.mem_singleton, List.not_mem_nil, or_false] at hc
  rcases hc with rfl | rfl | rfl | rfl | rfl | rfl | rfl | rfl | rfl <;> rfl

theorem ResolveAttack_without_items_witness :
    (∃ m2 T2, ResolveAttack (sampleGame AttackPhase none).Players
          (sampleGame AttackPhase none).Players.reverse [] (fun _ => 0)
          (sampleMem AttackPhase (some (sampleAttack none)) 5 3) = .ok m2 () ∧
        m2.gs.Phase = ResolutionPhase ∧ m2.gs.PendingAttack = none ∧
        m2.heap[1]? = some T2 ∧ T2.hand.elems = [sampleCard "u" 1]) ∧
    (∃ m2 A2 T2, ResolveAttack (sampleGame AttackPhase none).Players
          (sampleGame AttackPhase none).Players.reverse [] (fun _ => 0)
          (sampleMem AttackPhase (some (sampleAttack none)) 2 3) = .ok m2 () ∧
        m2.heap[0]? = some A2 ∧ A2.hand.elems = [sampleCard "b" 2, sampleCard "c" 3] ∧
        m2.heap[1]? = some T2 ∧ T2.hand.elems = [sampleCard "t" 3, sampleCard "u" 1]) := by
  constructor
  · obtain ⟨m2, A2, T2, h1, h2, _, h4, _, _, _, _, _, _, h11, _⟩ :=
      ResolveAttack_without_items (sampleGame AttackPhase none).Players
        (sampleGame AttackPhase none).Players.reverse [] (fun _ => 0)
        (sampleMem AttackPhase (some (sampleAttack none)) 5 3) (sampleAttack none) 0 1 0 0 _ _ _ _
        (sampleDuel 5 3 none) ⟨rfl, rfl⟩ (sample_noSkills 5 3 none) (List.Perm.refl _)
        (List.reverse_perm _)
    exact ⟨m2, T2, h1, by rw [h2], by rw [h2], h4, h11 (by decide)⟩
  · obtain ⟨m2, A2, T2, h1, _, h3, h4, _, h6, _, _, _, _, _, h12⟩ :=
      ResolveAttack_without_items (sampleGame AttackPhase none).Players
        (sampleGame AttackPhase none).Players.reverse [] (fun _ => 0)
        (sampleMem AttackPhase (some (sampleAttack none)) 2 3) (sampleAttack none) 0 1 0 0 _ _ _ _
        (sampleDuel 2 3 none) ⟨rfl, rfl⟩ (sample_noSkills 2 3 none) (List.Perm.refl _)
        (List.reverse_perm _)
    exact ⟨m2, A2, T2, h1, h3, h6, h4, by rw [(h12 (by decide)).1]; rfl⟩

theorem ResolveAttack_failure_unchanged_witness :
    (sampleMem AttackPhase
        (some { sampleAttack none with TargetID := "zz" }) 5 3).idAbsent "zz" ∧
      ∃ msg, ResolveAttack (sampleGame AttackPhase none).Players
          (sampleGame AttackPhase none).Players.reverse [] (fun _ => 0)
          (sampleMem AttackPhase (some { sampleAttack none with TargetID := "zz" }) 5 3) =
        .error (sampleMem AttackPhase (some { sampleAttack none with TargetID := "zz" }) 5 3)
          msg := by
  have habs : (sampleMem AttackPhase
      (some { sampleAttack none with TargetID := "zz" }) 5 3).idAbsent "zz" := by
    unfold Mem.idAbsent
    decide
  refine ⟨habs, ?_⟩
  apply ResolveAttack_failure_unchanged _ _ _ _ _ ?_ (List.Perm.refl _) (List.reverse_perm _)
    (Or.inr (Or.inr ⟨_, rfl, Or.inr habs⟩))
  intro e he
  simp only [sampleMem, sampleGame, List.mem_cons, List.mem_singleton, List.not_mem_nil,
    or_false] at he
  rcases he with rfl | rfl
  · exact ⟨0, _, rfl, rfl⟩
  · exact ⟨1, _, rfl, rfl⟩

/-! ## Go's `int` and item pointers -/

theorem wrapInt_of_inIntRange (x : Int) (h : inIntRange x) : wrapInt x = x := by
  unfold inIntRange intMin intMax at h
  unfold wrapInt
  omega

theorem wrapInt_inIntRange (x : Int) : inIntRange (wrapInt x) := by
  unfold inIntRange intMin intMax wrapInt
  omega

theorem wrapInt_succ (x : Int) (h : inIntRange x) (hlt : x < intMax) :
    wrapInt (x + 1) = x + 1 := by
  unfold inIntRange intMin intMax at h
  unfold intMax at hlt
  unfold wrapInt
  omega

theorem wrapInt_pred (x : Int) (h : inIntRange x) (hlt : intMin < x) :
    wrapInt (x - 1) = x - 1 := by
  unfold inIntRange intMin intMax at h
  unfold intMin at hlt
  unfold wrapInt
  omega

/-- What an item pointer shows after a card was written through a card
pointer: the written card when both point to the same cell, the same card as
before otherwise. -/
theorem deref_writeCell (m : Mem) (r0 : CardRef) (c0 c2 : CardEntity) (p : CardPtr)
    (it : CardEntity) (h0 : m.readCell r0 = some c0) (hp : m.deref p = some it) :
    (p = .cell r0 → it = c0 ∧ (m.writeCell r0 c2).deref p = some c2) ∧
    (p ≠ .cell r0 → (m.writeCell r0 c2).deref p = some it) := by
  constructor
  · intro h
    subst h
    simp only [Mem.deref] at hp ⊢
    rw [h0] at hp
    simp only [Option.some.injEq] at hp
    exact ⟨hp.symm, readCell_writeCell_self m r0 c0 c2 h0⟩
  · intro h
    cases p with
    | obj c => exact hp
    | cell r =>
      simp only [Mem.deref] at hp ⊢
      rw [readCell_writeCell_ne m r0 r c2 (fun e => h (by rw [e]))]
      exact hp

/-- Writing a card with the same id and title through a card pointer leaves
the id and the title that an item pointer shows as they were. -/
theorem deref_writeCell_same (m : Mem) (r0 : CardRef) (c0 c2 : CardEntity) (p : CardPtr)
    (it : CardEntity) (h0 : m.readCell r0 = some c0) (hp : m.deref p = some it)
    (hid : c2.id = c0.id) (htitle : c2.title = c0.title) :
    ∃ it2, (m.writeCell r0 c2).deref p = some it2 ∧ it2.id = it.id ∧ it2.title = it.title := by
  obtain ⟨h1, h2⟩ := deref_writeCell m r0 c0 c2 p it h0 hp
  by_cases h : p = .cell r0
  · obtain ⟨he, hd⟩ := h1 h
    exact ⟨c2, hd, by rw [hid, he], by rw [htitle, he]⟩
  · exact ⟨it, h2 h, rfl, rfl⟩

/-! ## Item effects -/

/-- C10: on two different cells holding the owner card `co` and the opponent
card `cp`, with an item pointer that shows the card `it`, `applyItemEffects`
follows the table, in Go's `int` arithmetic.  "Armor Buff" adds 1 to the
owner's damage (the sum wraps to the smallest `int` at the largest one),
"Weakening Shot" subtracts 1 from the opponent's damage (below zero too; the
difference wraps to the largest `int` at the smallest one), "Shield Bubble"
sets the owner's skill marker and no damage value, "Mirror Shield" changes
nothing; in each case the call succeeds and the other card and the game state
are as before.  Any other title returns the error "unknown item effect: "
followed by the title, on the unchanged memory. -/
theorem applyItemEffects_table (m : Mem) (item : CardPtr) (it : CardEntity)
    (owner opponent : CardRef) (co cp : CardEntity) (hi : m.deref item = some it)
    (ho : m.readCell owner = some co) (hp : m.readCell opponent = some cp)
    (hne : owner ≠ opponent) :
    (it.title = "Armor Buff" →
      applyItemEffects m item owner opponent =
          .ok (m.writeCell owner { co with dmg := wrapInt (co.dmg + 1) }) () ∧
        (m.writeCell owner { co with dmg := wrapInt (co.dmg + 1) }).readCell owner =
          some { co with dmg := wrapInt (co.dmg + 1) } ∧
        (m.writeCell owner { co with dmg := wrapInt (co.dmg + 1) }).readCell opponent =
          some cp ∧
        (m.writeCell owner { co with dmg := wrapInt (co.dmg + 1) }).gs = m.gs ∧
        (inIntRange co.dmg → co.dmg < intMax → wrapInt (co.dmg + 1) = co.dmg + 1) ∧
        (co.dmg = intMax → wrapInt (co.dmg + 1) = intMin)) ∧
    (it.title = "Weakening Shot" →
      applyItemEffects m item owner opponent =
          .ok (m.writeCell opponent { cp with dmg := wrapInt (cp.dmg - 1) }) () ∧
        (m.writeCell opponent { cp with dmg := wrapInt (cp.dmg - 1) }).readCell opponent =
          some { cp with dmg := wrapInt (cp.dmg - 1) } ∧
        (m.writeCell opponent { cp with dmg := wrapInt (cp.dmg - 1) }).readCell owner =
          some co ∧
        (m.writeCell opponent { cp with dmg := wrapInt (cp.dmg - 1) }).gs = m.gs ∧
        (inIntRange cp.dmg → intMin < cp.dmg → wrapInt (cp.dmg - 1) = cp.dmg - 1) ∧
        (cp.dmg = intMin → wrapInt (cp.dmg - 1) = intMax)) ∧
    (it.title = "Shield Bubble" →
      applyItemEffects m item owner opponent =
          .ok (m.writeCell owner { co with skill := "ImmuneThisTurn" }) () ∧
        (m.writeCell owner { co with skill := "ImmuneThisTurn" }).readCell owner =
          some { co with skill := "ImmuneThisTurn" } ∧
        (m.writeCell owner { co with skill := "ImmuneThisTurn" }).readCell opponent = some cp ∧
        (m.writeCell owner { co with skill := "ImmuneThisTurn" }).gs = m.gs) ∧
    (it.title = "Mirror Shield" → applyItemEffects m item owner opponent = .ok m ()) ∧
    (it.title ≠ "Armor Buff" → it.title ≠ "Weakening Shot" →
      it.title ≠ "Shield Bubble" → it.title ≠ "Mirror Shield" →
      applyItemEffects m item owner opponent =
        .error m ("unknown item effect: " ++ it.title)) := by
  refine ⟨?_, ?_, ?_, ?_, ?_⟩
  · intro ht
    refine ⟨?_, readCell_writeCell_self m owner co _ ho, ?_, writeCell_gs m owner _,
      wrapInt_succ co.dmg, ?_⟩
    · simp [applyItemEffects, hi, ht, ho]
    · rw [readCell_writeCell_ne m owner opponent _ (fun h => hne h.symm)]; exact hp
    · intro h
      rw [h]
      decide
  · intro ht
    refine ⟨?_, readCell_writeCell_self m opponent cp _ hp, ?_, writeCell_gs m opponent _,
      wrapInt_pred cp.dmg, ?_⟩
    · simp [applyItemEffects, hi, ht, hp]
    · rw [readCell_writeCell_ne m opponent owner _ hne]; exact ho
    · intro h
      rw [h]
      decide
  · intro ht
    refine ⟨?_, readCell_writeCell_self m owner co _ ho, ?_, writeCell_gs m owner _⟩
    · simp [applyItemEffects, hi, ht, ho]
    · rw [readCell_writeCell_ne m owner opponent _ (fun h => hne h.symm)]; exact hp
  · intro ht
    simp [applyItemEffects, hi, ht]
  · intro h1 h2 h3 h4
    simp [applyItemEffects, hi, h1, h2, h3, h4]

theorem applyItemEffects_table_witness :
    (sampleMem AttackPhase none 5 3).deref ptrI3 = some (sampleItem "i3" "Weakening Shot") ∧
      (sampleMem AttackPhase none 5 3).readCell ⟨1, .hand, 0⟩ = some (sampleCard "t" 3) ∧
      (sampleMem AttackPhase none 5 3).readCell ⟨0, .hand, 0⟩ = some (sampleCard "a" 5) ∧
      applyItemEffects (sampleMem AttackPhase none 5 3) ptrI3 ⟨1, .hand, 0⟩ ⟨0, .hand, 0⟩ =
        .ok (sampleMem AttackPhase none 4 3) () :=
  ⟨rfl, rfl, rfl, ((applyItemEffects_table (sampleMem AttackPhase none 5 3) ptrI3
    (sampleItem "i3" "Weakening Shot") ⟨1, .hand, 0⟩ ⟨0, .hand, 0⟩ _ _ rfl rfl rfl
    (by decide)).2.1 rfl).1⟩

/-! ## The defender's "Weakening Shot" -/

theorem applyItemEffects_weakening (m : Mem) (p : CardPtr) (item : CardEntity)
    (owner opponent : CardRef) (cp : CardEntity) (hi : m.deref p = some item)
    (ht : item.title = "Weakening Shot") (hp : m.readCell opponent = some cp) :
    applyItemEffects m p owner opponent =
      .ok (m.writeCell opponent { cp with dmg := wrapInt (cp.dmg - 1) }) () := by
  simp [applyItemEffects, hi, ht, hp]

/-- In the setting `Duel` with the defender item "Weakening Shot", no
attacker item and no skills: the item step lowers the damage of the attacking
card by 1 in its cell and takes the item out of the defender's pool, the
combat part runs on that memory, and the call succeeds.  The lowering is Go's
`int` subtraction. -/
theorem ResolveAttack_weakening_shot (o1 o2 o3 : List (String × Option Nat))
    (rnd : Nat → Nat) (m : Mem) (ctx : AttackContext) (pa pt i j : Nat)
    (A T : PlayerEntity) (att tgt item : CardEntity) (p : CardPtr)
    (h : Duel m ctx pa pt i j A T att tgt)
    (hdef : ctx.DefenderItem = some p) (hitem : m.deref p = some item)
    (htitle : item.title = "Weakening Shot")
    (hatk : ctx.AttackerItem = none) (hskill : m.noSkills)
    (ho1 : o1.Perm m.gs.Players) (ho2 : o2.Perm m.gs.Players) :
    ∃ m1 m2 A2 T2,
      useItem m ctx.DefenderItem ⟨pt, .hand, j⟩ ⟨pa, .hand, i⟩ pt = .ok m1 () ∧
      m1.readCell ⟨pa, .hand, i⟩ = some { att with dmg := wrapInt (att.dmg - 1) } ∧
      m1.readCell ⟨pt, .hand, j⟩ = some tgt ∧
      ResolveAttack o1 o2 o3 rnd m = combatResolution o3 rnd m1 ⟨pa, .hand, i⟩ ⟨pt, .hand, j⟩ ∧
      ResolveAttack o1 o2 o3 rnd m = .ok m2 () ∧
      m2.gs = { m.gs with PendingAttack := none, Phase := ResolutionPhase } ∧
      m2.heap[pa]? = some A2 ∧ m2.heap[pt]? = some T2 ∧
      A2.hand.elems = A.hand.elems.eraseIdx i ∧ A2.itemCards = A.itemCards ∧
      T2.itemCards = removeCard T.itemCards item.id ∧
      (wrapInt (att.dmg - 1) ≥ tgt.dmg → T2.hand.elems = T.hand.elems.eraseIdx j) ∧
      (wrapInt (att.dmg - 1) < tgt.dmg → T2.hand = T.hand) := by
  obtain ⟨kt, hkt⟩ := h.targetEntry
  have hi : i < A.hand.elems.length := (List.getElem?_eq_some.mp h.attackerCard).1
  have hj : j < T.hand.elems.length := (List.getElem?_eq_some.mp h.targetCard).1
  have hra : m.readCell ⟨pa, .hand, i⟩ = some att := by
    rw [readCell_hand m pa i A h.attackerOwner hi]; exact h.attackerCard
  let A1 : PlayerEntity :=
    { A with hand := { A.hand with
        elems := A.hand.elems.set i { att with dmg := wrapInt (att.dmg - 1) } } }
  let T1 : PlayerEntity := { T with itemCards := removeCard T.itemCards item.id }
  let m1 : Mem := { heap := (m.heap.set pa A1).set pt T1, gs := m.gs }
  have hTa : (m.heap.set pa A1)[pt]? = some T := by
    rw [List.getElem?_set_ne h.others]; exact h.targetOwner
  have hA1 : m1.heap[pa]? = some A1 := by
    show ((m.heap.set pa A1).set pt T1)[pa]? = some A1
    rw [List.getElem?_set_ne (fun e => h.others e.symm)]
    exact heap_set_self m.heap pa A A1 h.attackerOwner
  have hT1 : m1.heap[pt]? = some T1 := heap_set_self _ pt T T1 hTa
  have huse : useItem m ctx.DefenderItem ⟨pt, .hand, j⟩ ⟨pa, .hand, i⟩ pt = .ok m1 () := by
    have hw : m.writeCell ⟨pa, .hand, i⟩ { att with dmg := wrapInt (att.dmg - 1) } =
        { heap := m.heap.set pa A1, gs := m.gs } :=
      writeCell_hand m pa i A _ h.attackerOwner hi
    rw [hdef]
    simp only [useItem]
    obtain ⟨it2, hd2, hid2, _⟩ := deref_writeCell_same m ⟨pa, .hand, i⟩ att
      { att with dmg := wrapInt (att.dmg - 1) } p item hra hitem rfl rfl
    rw [applyItemEffects_weakening m p item _ _ att hitem htitle hra]
    simp only [hd2]
    rw [hw]
    simp only [hTa, Mem.setPlayer, hid2]
  have hatt1 : A1.hand.elems[i]? = some { att with dmg := wrapInt (att.dmg - 1) } :=
    List.getElem?_set_self hi
  have hr1 : m1.readCell ⟨pa, .hand, i⟩ = some { att with dmg := wrapInt (att.dmg - 1) } := by
    rw [readCell_hand m1 pa i A1 hA1 (by simpa [A1] using hi)]; exact hatt1
  have hr2 : m1.readCell ⟨pt, .hand, j⟩ = some tgt := by
    rw [readCell_hand m1 pt j T1 hT1 hj]; exact h.targetCard
  have hai1 : indexOfID att.id A1.hand.elems = some i := by
    show indexOfID att.id (A.hand.elems.set i { att with dmg := wrapInt (att.dmg - 1) }) = some i
    rw [indexOfID_set att.id A.hand.elems i att { att with dmg := wrapInt (att.dmg - 1) }
      h.attackerCard rfl]
    exact h.attackerIndex
  have hsk : ∀ c ∈ T1.hand.elems, c.skill = "" := fun c hc =>
    hskill c (mem_cardsIn m m.gs.Players kt pt T c hkt h.targetOwner
      (List.mem_append_left _ hc))
  obtain ⟨m2, A2, T2, hres, hgs, _, hA2, hT2, _, hAi, hAh, _, hTi, hwin, hlose⟩ :=
    combatResolution_hands o3 rnd m1 pa pt i j A1 T1 { att with dmg := wrapInt (att.dmg - 1) } tgt
      hA1 hT1 h.others hatt1 h.targetCard hai1 h.targetIndex hsk
  have hcore : ResolveAttack o1 o2 o3 rnd m =
      combatResolution o3 rnd m1 ⟨pa, .hand, i⟩ ⟨pt, .hand, j⟩ := by
    rw [ResolveAttack_of_duel o1 o2 o3 rnd m ctx pa pt i j A T att tgt h ho1 ho2, huse]
    simp only [hatk, useItem]
  refine ⟨m1, m2, A2, T2, huse, hr1, hr2, hcore, hcore.trans hres, hgs, hA2, hT2, ?_, hAi,
    hTi, ?_, ?_⟩
  · rw [hAh]
    exact eraseIdx_set_self A.hand.elems i _
  · intro hge
    exact hwin hge
  · intro hlt
    rw [hlose hlt]

/-- C8: in the setting `Duel` with a defender item pointer that shows a card
titled "Weakening Shot", no attacker item and no skills, `ResolveAttack`
applies the item with the target card as owner and the attacking card as
opponent before it compares: the comparison runs on a memory where the
attacker's damage is one lower (Go's `int` subtraction) and the target is as
before, so the target leaves its hand exactly when that lowered value is at
least `tgt.dmg`; for an attacker damage in the `int` range above the smallest
`int` this is `att.dmg - 1 ≥ tgt.dmg` in the values before the call.
Afterwards the id of the item is not in the pool of the target's owner, whose
other items are the old ones in their order. -/
theorem ResolveAttack_defender_weakening_shot (o1 o2 o3 : List (String × Option Nat))
    (rnd : Nat → Nat) (m : Mem) (ctx : AttackContext) (pa pt i j : Nat)
    (A T : PlayerEntity) (att tgt item : CardEntity) (p : CardPtr)
    (h : Duel m ctx pa pt i j A T att tgt)
    (hdef : ctx.DefenderItem = some p) (hitem : m.deref p = some item)
    (htitle : item.title = "Weakening Shot")
    (hatk : ctx.AttackerItem = none) (hskill : m.noSkills)
    (ho1 : o1.Perm m.gs.Players) (ho2 : o2.Perm m.gs.Players) :
    ∃ m1 m2 T2,
      ResolveAttack o1 o2 o3 rnd m = combatResolution o3 rnd m1 ⟨pa, .hand, i⟩ ⟨pt, .hand, j⟩ ∧
      m1.readCell ⟨pa, .hand, i⟩ = some { att with dmg := wrapInt (att.dmg - 1) } ∧
      m1.readCell ⟨pt, .hand, j⟩ = some tgt ∧
      ResolveAttack o1 o2 o3 rnd m = .ok m2 () ∧ m2.heap[pt]? = some T2 ∧
      (tgt.id ∉ T2.hand.elems.map (fun c => c.id) ↔ wrapInt (att.dmg - 1) ≥ tgt.dmg) ∧
      (inIntRange att.dmg → intMin < att.dmg →
        (tgt.id ∉ T2.hand.elems.map (fun c => c.id) ↔ att.dmg - 1 ≥ tgt.dmg)) ∧
      item.id ∉ T2.itemCards.elems.map (fun c => c.id) ∧
      T2.itemCards.elems = T.itemCards.elems.filter (fun c => decide (c.id ≠ item.id)) := by
  obtain ⟨kt, hkt⟩ := h.targetEntry
  obtain ⟨m1, m2, A2, T2, _, hr1, hr2, hcore, hres, _, _, hT2, _, _, hTi, hwin, hlose⟩ :=
    ResolveAttack_weakening_shot o1 o2 o3 rnd m ctx pa pt i j A T att tgt item p h hdef hitem
      htitle hatk hskill ho1 ho2
  have hpool : T2.itemCards.elems =
      T.itemCards.elems.filter (fun c => decide (c.id ≠ item.id)) := by
    rw [hTi]
    cases hk : indexOfID item.id T.itemCards.elems with
    | none =>
      rw [removeCard_of_absent _ _ hk, filter_eq_self_of_absent _ _ hk]
    | some k =>
      rw [removeCard_elems_of_index _ _ k hk]
      exact eraseIdx_eq_filter_of_nodup _ _ k
        (pool_nodup m kt pt T hkt h.targetOwner h.distinct) hk
  have hiff : tgt.id ∉ T2.hand.elems.map (fun c => c.id) ↔ wrapInt (att.dmg - 1) ≥ tgt.dmg := by
    constructor
    · intro hnot
      by_contra hlt
      rw [hlose (not_le.mp hlt)] at hnot
      exact hnot (List.mem_map.mpr ⟨tgt, List.getElem?_mem h.targetCard, rfl⟩)
    · intro hge
      rw [hwin hge]
      exact id_not_mem_eraseIdx _ _ _ (hand_nodup m kt pt T hkt h.targetOwner h.distinct)
        h.targetCard
  refine ⟨m1, m2, T2, hcore, hr1, hr2, hres, hT2, hiff, ?_, ?_, hpool⟩
  · intro hin hgt
    rw [hiff, wrapInt_pred att.dmg hin hgt]
  · rw [hpool]
    intro hmem
    obtain ⟨c, hc, hcid⟩ := List.mem_map.mp hmem
    have := (List.mem_filter.mp hc).2
    simp only [ne_eq, decide_not, Bool.not_eq_true', decide_eq_false_iff_not] at this
    exact this hcid

theorem ResolveAttack_defender_weakening_shot_witness :
    ∃ m2 T2, ResolveAttack (sampleGame AttackPhase none).Players
        (sampleGame AttackPhase none).Players.reverse [] (fun _ => 0)
        (sampleMem AttackPhase (some (sampleAttack (some ptrI3))) 4 3)
          = .ok m2 () ∧
      m2.heap[1]? = some T2 ∧
      "t" ∉ T2.hand.elems.map (fun c => c.id) ∧
      T2.itemCards.elems = [sampleItem "i2" "Mirror Shield", sampleItem "i4" "Shield Bubble"] := by
  obtain ⟨_, m2, T2, _, _, _, h4, h5, _, h6, _, h8⟩ :=
    ResolveAttack_defender_weakening_shot (sampleGame AttackPhase none).Players
      (sampleGame AttackPhase none).Players.reverse [] (fun _ => 0)
      (sampleMem AttackPhase (some (sampleAttack (some ptrI3))) 4 3)
      (sampleAttack (some ptrI3)) 0 1 0 0 _ _ _ _
      (sampleItem "i3" "Weakening Shot") ptrI3 (sampleDuel 4 3 _) rfl rfl rfl rfl
      (sample_noSkills 4 3 _) (List.Perm.refl _) (List.reverse_perm _)
  exact ⟨m2, T2, h4, h5, (h6 (by decide) (by decide)).mpr (by decide), by rw [h8]; decide⟩

/-- C9, as the code has it: in the setting `Duel` with a defender item
pointer that shows a card titled "Weakening Shot", no attacker item and no
skills, it is the attacking card whose damage is lowered by 1 (Go's `int`
subtraction, which is `att.dmg - 1` for a damage in the `int` range above the
smallest `int`), the target's damage is as before, and the comparison uses
the lowered attacker value: the target leaves its hand when that value is at
least `tgt.dmg` and otherwise stays in its place in the hand with the same
fields. -/
theorem ResolveAttack_weakening_shot_lowers_attacker (o1 o2 o3 : List (String × Option Nat))
    (rnd : Nat → Nat) (m : Mem) (ctx : AttackContext) (pa pt i j : Nat)
    (A T : PlayerEntity) (att tgt item : CardEntity) (p : CardPtr)
    (h : Duel m ctx pa pt i j A T att tgt)
    (hdef : ctx.DefenderItem = some p) (hitem : m.deref p = some item)
    (htitle : item.title = "Weakening Shot")
    (hatk : ctx.AttackerItem = none) (hskill : m.noSkills)
    (ho1 : o1.Perm m.gs.Players) (ho2 : o2.Perm m.gs.Players) :
    ∃ m1 m2 T2,
      ResolveAttack o1 o2 o3 rnd m = combatResolution o3 rnd m1 ⟨pa, .hand, i⟩ ⟨pt, .hand, j⟩ ∧
      (m1.readCell ⟨pa, .hand, i⟩).map (fun c => c.dmg) = some (wrapInt (att.dmg - 1)) ∧
      (m1.readCell ⟨pt, .hand, j⟩).map (fun c => c.dmg) = some tgt.dmg ∧
      ResolveAttack o1 o2 o3 rnd m = .ok m2 () ∧ m2.heap[pt]? = some T2 ∧
      (wrapInt (att.dmg - 1) ≥ tgt.dmg → T2.hand.elems = T.hand.elems.eraseIdx j) ∧
      (wrapInt (att.dmg - 1) < tgt.dmg →
        T2.hand.elems = T.hand.elems ∧ T2.hand.elems[j]? = some tgt) ∧
      (inIntRange att.dmg → intMin < att.dmg → wrapInt (att.dmg - 1) = att.dmg - 1) := by
  obtain ⟨m1, m2, A2, T2, _, hr1, hr2, hcore, hres, _, _, hT2, _, _, _, hwin, hlose⟩ :=
    ResolveAttack_weakening_shot o1 o2 o3 rnd m ctx pa pt i j A T att tgt item p h hdef hitem
      htitle hatk hskill ho1 ho2
  refine ⟨m1, m2, T2, hcore, by rw [hr1]; rfl, by rw [hr2]; rfl, hres, hT2, hwin, ?_,
    wrapInt_pred att.dmg⟩
  intro hlt
  rw [hlose hlt]
  exact ⟨rfl, h.targetCard⟩

theorem ResolveAttack_weakening_shot_lowers_attacker_witness :
    ∃ m2 T2, ResolveAttack (sampleGame AttackPhase none).Players
        (sampleGame AttackPhase none).Players.reverse [] (fun _ => 0)
        (sampleMem AttackPhase (some (sampleAttack (some ptrI3))) 3 3)
          = .ok m2 () ∧
      m2.heap[1]? = some T2 ∧
      T2.hand.elems = [sampleCard "t" 3, sampleCard "u" 1] := by
  obtain ⟨_, m2, T2, _, _, _, h4, h5, _, h7, _⟩ :=
    ResolveAttack_weakening_shot_lowers_attacker (sampleGame AttackPhase none).Players
      (sampleGame AttackPhase none).Players.reverse [] (fun _ => 0)
      (sampleMem AttackPhase (some (sampleAttack (some ptrI3))) 3 3)
      (sampleAttack (some ptrI3)) 0 1 0 0 _ _ _ _
      (sampleItem "i3" "Weakening Shot") ptrI3 (sampleDuel 3 3 _) rfl rfl rfl rfl
      (sample_noSkills 3 3 _) (List.Perm.refl _) (List.reverse_perm _)
  exact ⟨m2, T2, h4, h5, (h7 (by decide)).1⟩

/-- C9 as stated fails: attacker "a" and target "t" both with damage 3, the
defender's "Weakening Shot" attached.  The claim has the target's damage
lowered to 2 and the target destroyed, since 3 ≥ 3 - 1; the code leaves the
target in its hand with damage 3. -/
theorem weakening_shot_target_not_lowered :
    ∃ m2 T2, ResolveAttack (sampleGame AttackPhase none).Players
        (sampleGame AttackPhase none).Players (sampleGame AttackPhase none).Players (fun _ => 0)
        (sampleMem AttackPhase (some (sampleAttack (some ptrI3))) 3 3)
          = .ok m2 () ∧
      m2.heap[1]? = some T2 ∧
      T2.hand.elems = [sampleCard "t" 3, sampleCard "u" 1] ∧
      (sampleCard "a" 3).dmg ≥ (sampleCard "t" 3).dmg - 1 ∧
      ¬ ("t" ∉ T2.hand.elems.map (fun c => c.id) ↔
          (sampleCard "a" 3).dmg ≥ (sampleCard "t" 3).dmg - 1) :=
  ⟨_, _, rfl, rfl, rfl, by decide, by decide⟩

/-! ## The alternate combat path `ResolveCombat` -/

theorem removeCard_elems (s : CardSlice) (id : String) :
    (removeCard s id).elems = eraseID s.elems id := by
  unfold eraseID
  cases h : indexOfID id s.elems with
  | none => rw [removeCard_of_absent s id h]
  | some i => rw [removeCard_elems_of_index s id i h]

theorem perm_pair {α : Type} (e1 e2 : α) (o : List α) (h : o.Perm [e1, e2]) :
    o = [e1, e2] ∨ o = [e2, e1] := by
  have hlen := h.length_eq
  match o, hlen with
  | [x, y], _ =>
    have hx : x ∈ [e1, e2] := h.subset (List.mem_cons_self _ _)
    simp only [List.mem_cons, List.mem_singleton, List.not_mem_nil, or_false] at hx
    rcases hx with rfl | rfl
    · left
      have := List.perm_singleton.mp (List.Perm.cons_inv h)
      simp only [List.cons.injEq, and_true] at this
      rw [this]
    · right
      have h2 : [x, y].Perm [x, e1] := h.trans (List.Perm.swap _ _ _)
      have := List.perm_singleton.mp (List.Perm.cons_inv h2)
      simp only [List.cons.injEq, and_true] at this
      rw [this]

theorem removeCard_cells_length (s : CardSlice) (id : String) :
    (removeCard s id).cells.length = s.cells.length := by
  cases h : indexOfID id s.elems with
  | none => rw [removeCard_of_absent s id h]
  | some i =>
    obtain ⟨c, hc, _⟩ := indexOfID_some id s.elems i h
    have hi : i < s.elems.length := (List.getElem?_eq_some.mp hc).1
    simp only [removeCard, h, CardSlice.cells, List.length_append, List.length_take,
      List.length_drop]
    omega

theorem eraseID_sublist (l : List CardEntity) (id : String) : (eraseID l id).Sublist l := by
  unfold eraseID
  cases indexOfID id l with
  | none => exact List.Sublist.refl l
  | some i => exact List.eraseIdx_sublist l i

/-- One `p.hand = removeCard(p.hand, id)`: only the hand of that player
changes, and it loses the first card with the id, if any.  A pointer that
showed a card before shows a card afterwards, and the same card when it does
not point into a hand. -/
theorem removeFromHand_spec (m : Mem) (a : Nat) (id : String) (pl : PlayerEntity)
    (hp : m.heap[a]? = some pl) :
    ∃ m2 pl2, removeFromHand m a id = some m2 ∧ m2.gs = m.gs ∧ m2.heap[a]? = some pl2 ∧
      pl2.ID = pl.ID ∧ pl2.itemCards = pl.itemCards ∧
      pl2.hand.elems = eraseID pl.hand.elems id ∧
      (∀ b, b ≠ a → m2.heap[b]? = m.heap[b]?) ∧
      (∀ p, (m.deref p).isSome = true → (m2.deref p).isSome = true) ∧
      (∀ p, ¬ p.inHand → m2.deref p = m.deref p) := by
  have hself : (m.heap.set a { pl with hand := removeCard pl.hand id })[a]? =
      some { pl with hand := removeCard pl.hand id } := heap_set_self m.heap a pl _ hp
  have hother : ∀ b, b ≠ a →
      (m.heap.set a { pl with hand := removeCard pl.hand id })[b]? = m.heap[b]? := by
    intro b hb
    rw [List.getElem?_set_ne (fun h => hb h.symm)]
  refine ⟨m.setPlayer a { pl with hand := removeCard pl.hand id },
    { pl with hand := removeCard pl.hand id }, ?_, rfl, hself, rfl, rfl, ?_, hother, ?_, ?_⟩
  · simp [removeFromHand, hp]
  · exact removeCard_elems pl.hand id
  · intro p hsome
    cases p with
    | obj c => exact hsome
    | cell r =>
      obtain ⟨o, z, k⟩ := r
      simp only [Mem.deref, Mem.readCell, Mem.setPlayer] at hsome ⊢
      by_cases ho : o = a
      · subst ho
        rw [hself]
        rw [hp] at hsome
        cases z with
        | itemCards => exact hsome
        | hand =>
          simp only [PlayerEntity.slice] at hsome ⊢
          rw [Option.isSome_iff_exists] at hsome ⊢
          obtain ⟨c, hc⟩ := hsome
          have hk : k < pl.hand.cells.length := (List.getElem?_eq_some.mp hc).1
          rw [← removeCard_cells_length pl.hand id] at hk
          exact ⟨_, List.getElem?_eq_getElem hk⟩
      · rw [hother o ho]
        exact hsome
  · intro p hnot
    cases p with
    | obj c => rfl
    | cell r =>
      obtain ⟨o, z, k⟩ := r
      simp only [Mem.deref, Mem.readCell, Mem.setPlayer]
      by_cases ho : o = a
      · subst ho
        rw [hself, hp]
        cases z with
        | itemCards => rfl
        | hand => exact absurd rfl hnot
      · rw [hother o ho]

/-- The same for the removal by the id that an item pointer shows; nothing
happens for a nil item. -/
theorem removeItemFromHand_spec (m : Mem) (a : Nat) (item : Option CardPtr)
    (pl : PlayerEntity) (hp : m.heap[a]? = some pl)
    (hv : ∀ p, item = some p → (m.deref p).isSome = true) :
    ∃ m2 pl2, removeItemFromHand m a item = some m2 ∧
      m2.gs = m.gs ∧ m2.heap[a]? = some pl2 ∧
      pl2.ID = pl.ID ∧ pl2.itemCards = pl.itemCards ∧
      (item = none → pl2.hand.elems = pl.hand.elems) ∧
      (∀ p, item = some p →
        ∃ it, m.deref p = some it ∧ pl2.hand.elems = eraseID pl.hand.elems it.id) ∧
      (∀ b, b ≠ a → m2.heap[b]? = m.heap[b]?) ∧
      (∀ p, (m.deref p).isSome = true → (m2.deref p).isSome = true) ∧
      (∀ p, ¬ p.inHand → m2.deref p = m.deref p) := by
  cases item with
  | none =>
    exact ⟨m, pl, rfl, rfl, hp, rfl, rfl, fun _ => rfl, fun p h => (by cases h),
      fun _ _ => rfl, fun _ h => h, fun _ _ => rfl⟩
  | some q =>
    obtain ⟨it, hit⟩ := Option.isSome_iff_exists.mp (hv q rfl)
    obtain ⟨m2, pl2, h1, h2, h3, h4, h5, h6, h7, h8, h9⟩ := removeFromHand_spec m a it.id pl hp
    refine ⟨m2, pl2, ?_, h2, h3, h4, h5, fun h => (by cases h), ?_, h7, h8, h9⟩
    · simp only [removeItemFromHand, hit, h1]
    · intro p hpq
      cases hpq
      exact ⟨it, hit, h6⟩

theorem findCardByID_of_index (l : List CardEntity) (id : String) (i : Nat) (c : CardEntity)
    (hi : indexOfID id l = some i) (hc : l[i]? = some c) :
    findCardByID l id = .ok (i, c) := by
  simp [findCardByID, hi, hc]

theorem eraseID_of_index (l : List CardEntity) (id : String) (i : Nat)
    (hi : indexOfID id l = some i) : eraseID l id = l.eraseIdx i := by
  simp [eraseID, hi]

/-- C11: two players, the turn player at address `pa` and the opponent at
`pt`; the search of the turn player's hand for the attacker id finds `att` at
position `i`, the search of the opponent's hand for the target id finds `tgt`
at position `j`; an item pointer that is given shows a card.  Whatever the
order of the range in `getOpponent`, `ResolveCombat` returns an error exactly
when `att.dmg` minus the defender item's damage, as Go's `int` subtraction
gives it (the attacker's damage itself without item), is below `tgt.dmg`, and
then the memory is as before; otherwise it succeeds, the attacker card is
taken out of the turn player's hand and the target card out of the
opponent's hand, the item pools are as before, and the game state record, so
phase and pending attack, is as before.  Nothing else leaves a hand when that
player's item is nil; with an item pointer, the first card with the id that
the pointer shows at that moment leaves the hand too, which for a pointer
that does not point into a hand is the id of the card it shows before the
call.  When the plain difference is in the `int` range, the subtraction gives
it. -/
theorem ResolveCombat_contract (order : List (String × Option Nat)) (m : Mem)
    (input : AttackContext) (ko : String) (pa pt i j : Nat) (A T : PlayerEntity)
    (att tgt : CardEntity)
    (hplayers : m.gs.Players.Perm [(m.gs.TurnPlayerID, some pa), (ko, some pt)])
    (hko : ko ≠ m.gs.TurnPlayerID) (hne : pa ≠ pt) (horder : order.Perm m.gs.Players)
    (hA : m.heap[pa]? = some A) (hT : m.heap[pt]? = some T)
    (hai : indexOfID input.AttackerID A.hand.elems = some i)
    (hatt : A.hand.elems[i]? = some att)
    (htj : indexOfID input.TargetID T.hand.elems = some j)
    (htgt : T.hand.elems[j]? = some tgt)
    (hva : ∀ p, input.AttackerItem = some p → (m.deref p).isSome = true)
    (hvd : ∀ p, input.DefenderItem = some p → (m.deref p).isSome = true) :
    ((ResolveCombat order m input).isError = true ↔
      attackDamage att (m.itemCard input.DefenderItem) < tgt.dmg) ∧
    (attackDamage att (m.itemCard input.DefenderItem) < tgt.dmg →
      ResolveCombat order m input = .error m "not enough damage to defeat target") ∧
    (¬ attackDamage att (m.itemCard input.DefenderItem) < tgt.dmg →
      ∃ m2 A2 T2, ResolveCombat order m input = .ok m2 () ∧ m2.gs = m.gs ∧
        m2.heap[pa]? = some A2 ∧ m2.heap[pt]? = some T2 ∧
        (∀ b, b ≠ pa → b ≠ pt → m2.heap[b]? = m.heap[b]?) ∧
        A2.itemCards = A.itemCards ∧ T2.itemCards = T.itemCards ∧
        A2.hand.elems.Sublist (A.hand.elems.eraseIdx i) ∧
        T2.hand.elems.Sublist (T.hand.elems.eraseIdx j) ∧
        (input.AttackerItem = none → A2.hand.elems = A.hand.elems.eraseIdx i) ∧
        (input.DefenderItem = none → T2.hand.elems = T.hand.elems.eraseIdx j) ∧
        (∀ p, input.AttackerItem = some p →
          ∃ it, A2.hand.elems = eraseID (A.hand.elems.eraseIdx i) it.id ∧
            (¬ p.inHand → m.deref p = some it)) ∧
        (∀ p, input.DefenderItem = some p →
          ∃ it, T2.hand.elems = eraseID (T.hand.elems.eraseIdx j) it.id ∧
            (¬ p.inHand → m.deref p = some it))) ∧
    (inIntRange (att.dmg - defenderItemDamage (m.itemCard input.DefenderItem)) →
      attackDamage att (m.itemCard input.DefenderItem) =
        att.dmg - defenderItemDamage (m.itemCard input.DefenderItem)) := by
  have hlook : lookupPlayer m.gs.Players m.gs.TurnPlayerID = some pa := by
    rcases perm_pair _ _ _ hplayers with h | h <;> simp [h, lookupPlayer, hko]
  have hopp : getOpponent order m.gs.TurnPlayerID = some pt := by
    rcases perm_pair _ _ _ (horder.trans hplayers) with h | h <;> simp [h, getOpponent, hko]
  have hfa := findCardByID_of_index _ _ i att hai hatt
  have hft := findCardByID_of_index _ _ j tgt htj htgt
  have hdmg : (match input.DefenderItem with
      | none => some att.dmg
      | some p => (m.deref p).map (fun it => wrapInt (att.dmg - it.dmg))) =
        some (attackDamage att (m.itemCard input.DefenderItem)) := by
    cases hd : input.DefenderItem with
    | none => rfl
    | some p =>
      obtain ⟨it, hit⟩ := Option.isSome_iff_exists.mp (hvd p hd)
      simp [Mem.itemCard, hit, attackDamage]
  have hunfold : ResolveCombat order m input =
      if attackDamage att (m.itemCard input.DefenderItem) < tgt.dmg then
        .error m "not enough damage to defeat target"
      else
        match combatRemovals m input ⟨pa, .hand, i⟩ ⟨pt, .hand, j⟩ with
        | none => .fault
        | some m2 => .ok m2 () := by
    simp only [ResolveCombat, hlook, hopp, player_some m pa A hA, player_some m pt T hT, hfa,
      hft, hdmg]
  -- the removals
  have hi : i < A.hand.elems.length := (List.getElem?_eq_some.mp hatt).1
  have hj : j < T.hand.elems.length := (List.getElem?_eq_some.mp htgt).1
  have hattid : att.id = input.AttackerID := by
    obtain ⟨c, hc, hcid⟩ := indexOfID_some _ _ _ hai
    rw [hatt] at hc
    simp only [Option.some.injEq] at hc
    rw [hc]; exact hcid
  have htgtid : tgt.id = input.TargetID := by
    obtain ⟨c, hc, hcid⟩ := indexOfID_some _ _ _ htj
    rw [htgt] at hc
    simp only [Option.some.injEq] at hc
    rw [hc]; exact hcid
  have hrem : ∃ m2 A2 T2, combatRemovals m input ⟨pa, .hand, i⟩ ⟨pt, .hand, j⟩ = some m2 ∧
      m2.gs = m.gs ∧ m2.heap[pa]? = some A2 ∧ m2.heap[pt]? = some T2 ∧
      (∀ b, b ≠ pa → b ≠ pt → m2.heap[b]? = m.heap[b]?) ∧
      A2.itemCards = A.itemCards ∧ T2.itemCards = T.itemCards ∧
      A2.hand.elems.Sublist (A.hand.elems.eraseIdx i) ∧
      T2.hand.elems.Sublist (T.hand.elems.eraseIdx j) ∧
      (input.AttackerItem = none → A2.hand.elems = A.hand.elems.eraseIdx i) ∧
      (input.DefenderItem = none → T2.hand.elems = T.hand.elems.eraseIdx j) ∧
      (∀ p, input.AttackerItem = some p →
        ∃ it, A2.hand.elems = eraseID (A.hand.elems.eraseIdx i) it.id ∧
          (¬ p.inHand → m.deref p = some it)) ∧
      (∀ p, input.DefenderItem = some p →
        ∃ it, T2.hand.elems = eraseID (T.hand.elems.eraseIdx j) it.id ∧
          (¬ p.inHand → m.deref p = some it)) := by
    have hra : m.readCell ⟨pa, .hand, i⟩ = some att := by
      rw [readCell_hand m pa i A hA hi]; exact hatt
    obtain ⟨m1, A1, h1, g1, a1, _, ai1, ah1, f1, v1, d1⟩ :=
      removeFromHand_spec m pa att.id A hA
    have hT1 : m1.heap[pt]? = some T := by rw [f1 pt (fun h => hne h.symm)]; exact hT
    have hrt : m1.readCell ⟨pt, .hand, j⟩ = some tgt := by
      rw [readCell_hand m1 pt j T hT1 hj]; exact htgt
    obtain ⟨m2, T2, h2, g2, t2, _, ti2, th2, f2, v2, d2⟩ :=
      removeFromHand_spec m1 pt tgt.id T hT1
    have hA2 : m2.heap[pa]? = some A1 := by rw [f2 pa hne]; exact a1
    obtain ⟨m3, A3, h3, g3, a3, _, ai3, ahn3, ahs3, f3, v3, d3⟩ :=
      removeItemFromHand_spec m2 pa input.AttackerItem A1 hA2
        (fun p hp => v2 p (v1 p (hva p hp)))
    have hT3 : m3.heap[pt]? = some T2 := by rw [f3 pt (fun h => hne h.symm)]; exact t2
    obtain ⟨m4, T4, h4, g4, t4, _, ti4, thn4, ths4, f4, _, _⟩ :=
      removeItemFromHand_spec m3 pt input.DefenderItem T2 hT3
        (fun p hp => v3 p (v2 p (v1 p (hvd p hp))))
    have hA4 : m4.heap[pa]? = some A3 := by rw [f4 pa hne]; exact a3
    have hA1e : A1.hand.elems = A.hand.elems.eraseIdx i := by
      rw [ah1, hattid, eraseID_of_index _ _ i hai]
    have hT2e : T2.hand.elems = T.hand.elems.eraseIdx j := by
      rw [th2, htgtid, eraseID_of_index _ _ j htj]
    refine ⟨m4, A3, T4, ?_, ?_, hA4, t4, ?_, ?_, ?_, ?_, ?_, ?_, ?_, ?_, ?_⟩
    · simp only [combatRemovals, hra, h1, hrt, h2, h3, h4]
    · rw [g4, g3, g2, g1]
    · intro b hba hbt
      rw [f4 b hbt, f3 b hba, f2 b hbt, f1 b hba]
    · rw [ai3, ai1]
    · rw [ti4, ti2]
    · cases ha : input.AttackerItem with
      | none => rw [ahn3 ha, hA1e]
      | some p =>
        obtain ⟨it, _, he⟩ := ahs3 p ha
        rw [he, ← hA1e]
        exact eraseID_sublist _ _
    · cases hd : input.DefenderItem with
      | none => rw [thn4 hd, hT2e]
      | some p =>
        obtain ⟨it, _, he⟩ := ths4 p hd
        rw [he, ← hT2e]
        exact eraseID_sublist _ _
    · intro ha
      rw [ahn3 ha, hA1e]
    · intro hd
      rw [thn4 hd, hT2e]
    · intro p ha
      obtain ⟨it, hit, he⟩ := ahs3 p ha
      refine ⟨it, by rw [he, hA1e], ?_⟩
      intro hnot
      rw [← d1 p hnot, ← d2 p hnot]
      exact hit
    · intro p hd
      obtain ⟨it, hit, he⟩ := ths4 p hd
      refine ⟨it, by rw [he, hT2e], ?_⟩
      intro hnot
      rw [← d1 p hnot, ← d2 p hnot, ← d3 p hnot]
      exact hit
  refine ⟨?_, ?_, ?_, ?_⟩
  · rw [hunfold]
    by_cases hlt : attackDamage att (m.itemCard input.DefenderItem) < tgt.dmg
    · simp [hlt, Outcome.isError]
    · obtain ⟨m2, _, _, hr, _⟩ := hrem
      simp [hlt, hr, Outcome.isError]
  · intro hlt
    rw [hunfold]
    simp [hlt]
  · intro hge
    obtain ⟨m2, A2, T2, hr, rest⟩ := hrem
    refine ⟨m2, A2, T2, ?_, rest⟩
    rw [hunfold]
    simp [hge, hr]
  · intro hin
    cases hc : m.itemCard input.DefenderItem with
    | none => simp [attackDamage, defenderItemDamage]
    | some it =>
      rw [hc] at hin
      exact wrapInt_of_inIntRange _ hin

theorem ResolveCombat_contract_witness :
    (∃ m2 A2 T2, ResolveCombat (sampleGame MainPhase none).Players.reverse
          (sampleMem MainPhase none 5 3)
          { sampleAttack (some ptrI3) with
            AttackerItem := some ptrI1 } = .ok m2 () ∧
        m2.gs = sampleGame MainPhase none ∧
        m2.heap[0]? = some A2 ∧ m2.heap[1]? = some T2 ∧
        A2.hand.elems = [sampleCard "b" 2, sampleCard "c" 3] ∧
        T2.hand.elems = [sampleCard "u" 1]) ∧
      ResolveCombat (sampleGame MainPhase none).Players.reverse (sampleMem MainPhase none 2 3)
          (sampleAttack none) =
        .error (sampleMem MainPhase none 2 3) "not enough damage to defeat target" := by
  constructor
  · obtain ⟨m2, A2, T2, h1, h2, h3, h4, _, _, _, _, _, _, _, h8, h9⟩ :=
      (ResolveCombat_contract (sampleGame MainPhase none).Players.reverse
        (sampleMem MainPhase none 5 3)
        { sampleAttack (some ptrI3) with
          AttackerItem := some ptrI1 }
        "p2" 0 1 0 0 _ _ (sampleCard "a" 5) (sampleCard "t" 3) (List.Perm.refl _)
        (by decide) (by decide) (List.reverse_perm _) rfl rfl rfl rfl rfl rfl
        (fun p hp => (by cases hp; rfl)) (fun p hp => (by cases hp; rfl))).2.2.1 (by decide)
    obtain ⟨ia, hia, hda⟩ := h8 ptrI1 rfl
    obtain ⟨it, hit, hdt⟩ := h9 ptrI3 rfl
    have ea : sampleItem "i1" "Armor Buff" = ia :=
      Option.some.inj (hda (by simp [ptrI1, CardPtr.inHand]))
    have et : sampleItem "i3" "Weakening Shot" = it :=
      Option.some.inj (hdt (by simp [ptrI3, CardPtr.inHand]))
    exact ⟨m2, A2, T2, h1, h2, h3, h4, by rw [hia, ← ea]; rfl, by rw [hit, ← et]; rfl⟩
  · exact (ResolveCombat_contract (sampleGame MainPhase none).Players.reverse
      (sampleMem MainPhase none 2 3) (sampleAttack none)
      "p2" 0 1 0 0 _ _ (sampleCard "a" 2) (sampleCard "t" 3) (List.Perm.refl _)
      (by decide) (by decide) (List.reverse_perm _) rfl rfl rfl rfl rfl rfl
      (fun p hp => (by cases hp)) (fun p hp => (by cases hp))).2.1 (by decide)

/-- C12, at a failing input: the sample game, attacker "a" (damage 5), target
"t" (damage 3), the attacker's item "i1" held in the turn player's item pool
and the defender's item "i3" held in the opponent's item pool.
`ResolveCombat` succeeds and both item pools are as before: "i1" and "i3" are
still in them.  (The removals by the item ids are made on the hands.) -/
theorem ResolveCombat_leaves_items_in_pools :
    ∃ m2 A2 T2, ResolveCombat (sampleGame MainPhase none).Players
        (sampleMem MainPhase none 5 3)
        { sampleAttack (some ptrI3) with
          AttackerItem := some ptrI1 } = .ok m2 () ∧
      m2.heap[0]? = some A2 ∧ m2.heap[1]? = some T2 ∧
      A2.itemCards.elems = [sampleItem "i1" "Armor Buff"] ∧
      T2.itemCards.elems = [sampleItem "i2" "Mirror Shield", sampleItem "i3" "Weakening Shot",
        sampleItem "i4" "Shield Bubble"] ∧
      "i1" ∈ A2.itemCards.elems.map (fun c => c.id) ∧
      "i3" ∈ T2.itemCards.elems.map (fun c => c.id) :=
  ⟨_, _, _, rfl, rfl, rfl, rfl, rfl, by decide, by decide⟩

/-! ## `removeCard` and `findCardByID` -/

theorem indexOfID_first (id : String) (l : List CardEntity) (i : Nat)
    (h : indexOfID id l = some i) :
    ∀ k d, k < i → l[k]? = some d → d.id ≠ id := by
  induction l generalizing i with
  | nil => simp [indexOfID] at h
  | cons c cs ih =>
    by_cases hc : c.id = id
    · simp only [indexOfID, hc, if_true, Option.some.injEq] at h
      subst h
      intro k d hk
      exact absurd hk (Nat.not_lt_zero k)
    · simp only [indexOfID, hc, if_false, Option.map_eq_some'] at h
      obtain ⟨n, hn, rfl⟩ := h
      intro k d hk hd
      cases k with
      | zero =>
        simp only [List.getElem?_cons_zero, Option.some.injEq] at hd
        rw [← hd]; exact hc
      | succ k2 =>
        simp only [List.getElem?_cons_succ] at hd
        exact ih n hn k2 d (by omega) hd

/-- C14: when no card of the collection has the id, `removeCard` returns the
collection as it is; when `findCardByID` succeeds with the card `c` at
position `i`, that is the first card with the id, and `removeCard` returns
the cards before `i` followed by the cards after `i`, in their order, one
card fewer.  (`removeCard` is a total function: it cannot fail.) -/
theorem removeCard_contract (hand : CardSlice) (id : String) :
    ((∀ c ∈ hand.elems, c.id ≠ id) → removeCard hand id = hand) ∧
    (∀ i c, findCardByID hand.elems id = .ok (i, c) →
      hand.elems[i]? = some c ∧ c.id = id ∧
      (∀ k d, k < i → hand.elems[k]? = some d → d.id ≠ id) ∧
      (removeCard hand id).elems = hand.elems.take i ++ hand.elems.drop (i + 1) ∧
      (removeCard hand id).elems.Sublist hand.elems ∧
      (removeCard hand id).elems.length + 1 = hand.elems.length) := by
  constructor
  · intro h
    exact removeCard_of_absent hand id ((indexOfID_eq_none id hand.elems).mpr h)
  · intro i c hfind
    cases hidx : indexOfID id hand.elems with
    | none => simp [findCardByID, hidx] at hfind
    | some k =>
      obtain ⟨c2, hc2, hc2id⟩ := indexOfID_some id hand.elems k hidx
      simp only [findCardByID, hidx, hc2, Except.ok.injEq, Prod.mk.injEq] at hfind
      obtain ⟨rfl, rfl⟩ := hfind
      have hlt : k < hand.elems.length := (List.getElem?_eq_some.mp hc2).1
      have hel : (removeCard hand id).elems = hand.elems.eraseIdx k :=
        removeCard_elems_of_index hand id k hidx
      refine ⟨hc2, hc2id, indexOfID_first id hand.elems k hidx, ?_, ?_, ?_⟩
      · rw [hel, List.eraseIdx_eq_take_drop_succ]
      · rw [hel]; exact List.eraseIdx_sublist _ _
      · rw [hel, List.length_eraseIdx_of_lt hlt]
        omega

theorem removeCard_contract_witness :
    findCardByID [sampleCard "a" 5, sampleCard "b" 2, sampleCard "c" 3] "b" =
        .ok (1, sampleCard "b" 2) ∧
      (removeCard { elems := [sampleCard "a" 5, sampleCard "b" 2, sampleCard "c" 3],
                    spare := [] } "b").elems = [sampleCard "a" 5, sampleCard "c" 3] :=
  ⟨rfl, ((removeCard_contract
    { elems := [sampleCard "a" 5, sampleCard "b" 2, sampleCard "c" 3], spare := [] } "b").2
    1 (sampleCard "b" 2) rfl).2.2.2.1⟩

/-! ## Skills fired by a destroyed target -/

/-- C13, at failing inputs: "a" (damage 5) attacks "t" (damage 3, skill
"Draw2") of the other player, no items, distinct ids, fighter deck ["d1"],
for every order of the ranges over the player map.  When "t" is the last card
of its hand, the pointer still shows "t" after the removal, the owner lookup
finds no holder, the player looked up is nil and the draw faults.  When "t"
is followed by "u" (no skill), the pointer shows "u" after the removal, no
skill fires: the owner's hand is ["u"] and the deck still holds "d1". -/
theorem ResolveAttack_draw2_of_target_misfires (r1 r2 r3 : Bool) (rnd : Nat → Nat) :
    ResolveAttack (sampleOrder r1) (sampleOrder r2) (sampleOrder r3) rnd
        (skillMem [sampleCard "u" 1, skillCard "t" 3 "Draw2"] [sampleCard "d1" 5]) = .fault ∧
    ∃ m2 T2, ResolveAttack (sampleOrder r1) (sampleOrder r2) (sampleOrder r3) rnd
          (skillMem [skillCard "t" 3 "Draw2", sampleCard "u" 1] [sampleCard "d1" 5])
          = .ok m2 () ∧
        m2.heap[1]? = some T2 ∧ T2.hand.elems = [sampleCard "u" 1] ∧
        m2.gs.FighterDeck = [sampleCard "d1" 5] := by
  cases r1 <;> cases r2 <;> cases r3 <;> exact ⟨rfl, _, _, rfl, rfl, rfl, rfl⟩

/-- C20, at failing inputs: two non-nil players, the card "t" held by no
player (it lies in the cell behind the second player's hand, where
`ResolveAttack` leaves a destroyed last card), for every order of the range
over the player map.  With the skill "ShuffleHand", and with the skill
"Draw2" on a non-empty fighter deck, `resolveCardSkills` faults: the owner
lookup returns "", the player looked up is nil, and it is dereferenced.  So
does `ResolveAttack` when it destroys a last card with the skill
"ShuffleHand". -/
theorem resolveCardSkills_faults_without_owner (r r1 r2 : Bool) (rnd : Nat → Nat) :
    resolveCardSkills (sampleOrder r) rnd (staleMem "ShuffleHand" []) ⟨1, .hand, 1⟩
        "onDestroy" = none ∧
    resolveCardSkills (sampleOrder r) rnd (staleMem "Draw2" [sampleCard "d1" 5]) ⟨1, .hand, 1⟩
        "onDestroy" = none ∧
    ResolveAttack (sampleOrder r1) (sampleOrder r2) (sampleOrder r) rnd
        (skillMem [sampleCard "u" 1, skillCard "t" 3 "ShuffleHand"] []) = .fault := by
  cases r <;> cases r1 <;> cases r2 <;> exact ⟨rfl, rfl, rfl⟩

/-! ## Uniqueness of card ids and the shuffle -/

/-- C15, at a failing input: in the sample game no id occurs twice across the
decks, hands and item pools; after `ShuffleAndRedrawHand` on the first player
the id "d1" occurs twice, in that player's hand. -/
theorem ShuffleAndRedrawHand_breaks_uniqueness (rnd : Nat → Nat) :
    (sampleMem MainPhase none 5 3).allIds.Nodup ∧
    ∃ m2, ShuffleAndRedrawHand rnd (sampleMem MainPhase none 5 3) (some 0) = some m2 ∧
      m2.allIds = ["i9", "d1", "d1", "i1", "t", "u", "i2", "i3", "i4"] ∧
      ¬ m2.allIds.Nodup := by
  refine ⟨by decide, _, rfl, rfl, ?_⟩
  show ¬ List.Nodup ["i9", "d1", "d1", "i1", "t", "u", "i2", "i3", "i4"]
  decide

/-- C16, on a hand of three distinct cards: of the 27 sequences of three
draws from 0..2, four leave the order a, b, c, five leave a, c, b, five
b, a, c, five b, c, a, four c, a, b and four c, b, a.  The six orderings are
not equally likely (27 is not a multiple of 6). -/
theorem ShuffleHand_not_uniform :
    (choiceSequences 3 3).length = 27 ∧
    shuffleCount (sampleMem MainPhase none 5 3) 0 3
      [sampleCard "a" 5, sampleCard "b" 2, sampleCard "c" 3] = 4 ∧
    shuffleCount (sampleMem MainPhase none 5 3) 0 3
      [sampleCard "a" 5, sampleCard "c" 3, sampleCard "b" 2] = 5 ∧
    shuffleCount (sampleMem MainPhase none 5 3) 0 3
      [sampleCard "b" 2, sampleCard "a" 5, sampleCard "c" 3] = 5 ∧
    shuffleCount (sampleMem MainPhase none 5 3) 0 3
      [sampleCard "b" 2, sampleCard "c" 3, sampleCard "a" 5] = 5 ∧
    shuffleCount (sampleMem MainPhase none 5 3) 0 3
      [sampleCard "c" 3, sampleCard "a" 5, sampleCard "b" 2] = 4 ∧
    shuffleCount (sampleMem MainPhase none 5 3) 0 3
      [sampleCard "c" 3, sampleCard "b" 2, sampleCard "a" 5] = 4 :=
  ⟨rfl, rfl, rfl, rfl, rfl, rfl, rfl⟩

/-! ## Invariants of the attack state machine -/

theorem applyItemEffects_gs (m : Mem) (item : CardPtr) (owner opponent : CardRef)
    (m2 : Mem) (h : (applyItemEffects m item owner opponent).mem? = some m2) :
    m2.gs = m.gs := by
  unfold applyItemEffects at h
  cases hd : m.deref item with
  | none => simp [hd, Outcome.mem?] at h
  | some it =>
    simp only [hd] at h
    split at h
    · cases hr : m.readCell owner with
      | none => simp [hr, Outcome.mem?] at h
      | some c =>
        simp only [hr, Outcome.mem?, Option.some.injEq] at h
        rw [← h]; exact writeCell_gs _ _ _
    · split at h
      · cases hr : m.readCell opponent with
        | none => simp [hr, Outcome.mem?] at h
        | some c =>
          simp only [hr, Outcome.mem?, Option.some.injEq] at h
          rw [← h]; exact writeCell_gs _ _ _
      · split at h
        · cases hr : m.readCell owner with
          | none => simp [hr, Outcome.mem?] at h
          | some c =>
            simp only [hr, Outcome.mem?, Option.some.injEq] at h
            rw [← h]; exact writeCell_gs _ _ _
        · split at h
          · simp only [Outcome.mem?, Option.some.injEq] at h
            rw [← h]
          · simp only [Outcome.mem?, Option.some.injEq] at h
            rw [← h]

theorem useItem_gs (m : Mem) (item : Option CardPtr) (owner opponent : CardRef)
    (holder : Nat) (m2 : Mem) (h : (useItem m item owner opponent holder).mem? = some m2) :
    m2.gs = m.gs := by
  cases item with
  | none =>
    simp only [useItem, Outcome.mem?, Option.some.injEq] at h
    rw [← h]
  | some it =>
    simp only [useItem] at h
    cases ha : applyItemEffects m it owner opponent with
    | fault => simp [ha, Outcome.mem?] at h
    | error m1 e =>
      have hg := applyItemEffects_gs m it owner opponent m1 (by simp [ha, Outcome.mem?])
      simp only [ha, Outcome.mem?, Option.some.injEq] at h
      rw [← h]; exact hg
    | ok m1 v =>
      have hg := applyItemEffects_gs m it owner opponent m1 (by simp [ha, Outcome.mem?])
      simp only [ha] at h
      cases hp : m1.heap[holder]? with
      | none => simp [hp, Outcome.mem?] at h
      | some pl =>
        cases hd : m1.deref it with
        | none => simp [hp, hd, Outcome.mem?] at h
        | some c =>
          simp only [hp, hd, Outcome.mem?, Option.some.injEq] at h
          rw [← h]; exact hg

theorem combatResolution_tail (attacker : CardRef) (ad : Option Mem) (r : Mem)
    (h : (match ad with
          | none => (Outcome.fault : Outcome Unit)
          | some m2 =>
            match m2.readCell attacker, m2.heap[attacker.owner]? with
            | some a2, some pl =>
              let m3 := m2.setPlayer attacker.owner { pl with hand := removeCard pl.hand a2.id }
              .ok { m3 with gs := { m3.gs with PendingAttack := none,
                                               Phase := ResolutionPhase } } ()
            | _, _ => .fault).mem? = some r) :
    r.gs.Phase = ResolutionPhase ∧ r.gs.PendingAttack = none := by
  cases ad with
  | none => simp [Outcome.mem?] at h
  | some m2 =>
    simp only at h
    split at h
    · simp only [Outcome.mem?, Option.some.injEq] at h
      rw [← h]
      exact ⟨rfl, rfl⟩
    · simp [Outcome.mem?] at h

/-- `combatResolution` never returns an error, and when it succeeds the
phase is Resolution and no attack is pending. -/
theorem combatResolution_mem (o3 : List (String × Option Nat)) (rnd : Nat → Nat) (m : Mem)
    (attacker target : CardRef) (m2 : Mem)
    (h : (combatResolution o3 rnd m attacker target).mem? = some m2) :
    m2.gs.Phase = ResolutionPhase ∧ m2.gs.PendingAttack = none := by
  unfold combatResolution at h
  split at h
  · exact combatResolution_tail attacker _ m2 h
  · simp [Outcome.mem?] at h

/-- Every memory `ResolveAttack` returns with has either the game state
record of the start (on an error) or phase Resolution and no pending attack
(on success). -/
theorem ResolveAttack_mem (o1 o2 o3 : List (String × Option Nat)) (rnd : Nat → Nat)
    (m m2 : Mem) (h : (ResolveAttack o1 o2 o3 rnd m).mem? = some m2) :
    m2.gs = m.gs ∨ (m2.gs.Phase = ResolutionPhase ∧ m2.gs.PendingAttack = none) := by
  by_cases hph : m.gs.Phase = AttackPhase
  · cases hp : m.gs.PendingAttack with
    | none =>
      simp only [ResolveAttack, hph, hp, ne_eq, not_true_eq_false, if_false, Outcome.mem?,
        Option.some.injEq] at h
      left; rw [← h]
    | some ctx =>
      cases hfa : findCardByIDInGame m o1 ctx.AttackerID with
      | fault => simp [ResolveAttack, hph, hp, hfa, Outcome.mem?] at h
      | notFound =>
        simp only [ResolveAttack, hph, hp, hfa, ne_eq, not_true_eq_false, if_false,
          Outcome.mem?, Option.some.injEq] at h
        left; rw [← h]
      | found attacker =>
        cases hft : findCardByIDInGame m o2 ctx.TargetID with
        | fault => simp [ResolveAttack, hph, hp, hfa, hft, Outcome.mem?] at h
        | notFound =>
          simp only [ResolveAttack, hph, hp, hfa, hft, ne_eq, not_true_eq_false, if_false,
            Outcome.mem?, Option.some.injEq] at h
          left; rw [← h]
        | found target =>
          cases hd : useItem m ctx.DefenderItem target attacker target.owner with
          | fault => simp [ResolveAttack, hph, hp, hfa, hft, hd, Outcome.mem?] at h
          | error m1 e =>
            have hg := useItem_gs m _ _ _ _ m1 (by rw [hd]; rfl)
            simp only [ResolveAttack, hph, hp, hfa, hft, hd, ne_eq, not_true_eq_false, if_false,
              Outcome.mem?, Option.some.injEq] at h
            left; rw [← h]; exact hg
          | ok m1 v =>
            have hg1 := useItem_gs m _ _ _ _ m1 (by rw [hd]; rfl)
            cases ha : useItem m1 ctx.AttackerItem attacker target attacker.owner with
            | fault => simp [ResolveAttack, hph, hp, hfa, hft, hd, ha, Outcome.mem?] at h
            | error m3 e =>
              have hg := useItem_gs m1 _ _ _ _ m3 (by rw [ha]; rfl)
              simp only [ResolveAttack, hph, hp, hfa, hft, hd, ha, ne_eq, not_true_eq_false,
                if_false, Outcome.mem?, Option.some.injEq] at h
              left; rw [← h, hg, hg1]
            | ok m3 v =>
              simp only [ResolveAttack, hph, hp, hfa, hft, hd, ha, ne_eq, not_true_eq_false,
                if_false] at h
              right
              exact combatResolution_mem o3 rnd m3 attacker target m2 h
  · simp only [ResolveAttack, hph, ne_eq, not_false_eq_true, if_true, Outcome.mem?,
      Option.some.injEq] at h
    left; rw [← h]

/-- From a memory where a pending attack is present exactly when the phase
is Attack, each of `StartAttack`, `DefenderUseItem` and `AttackerUseItem`
returns (with success or with an error, never a fault) a memory where that
holds again, and so does every memory `ResolveAttack` returns with, on
success or on error, whatever the orders of its ranges and the random
choices. -/
theorem pendingIffAttack_kept_on_return (m : Mem) (hinv : m.pendingIffAttack) :
    (∀ input, ∃ m2, (StartAttack m input).mem? = some m2 ∧ m2.pendingIffAttack) ∧
    (∀ item, ∃ m2, (DefenderUseItem m item).mem? = some m2 ∧ m2.pendingIffAttack) ∧
    (∀ item, ∃ m2, (AttackerUseItem m item).mem? = some m2 ∧ m2.pendingIffAttack) ∧
    (∀ o1 o2 o3 rnd m2, (ResolveAttack o1 o2 o3 rnd m).mem? = some m2 →
      m2.pendingIffAttack) := by
  unfold Mem.pendingIffAttack at hinv
  refine ⟨?_, ?_, ?_, ?_⟩
  · intro input
    by_cases hph : m.gs.Phase = MainPhase
    · have hs : StartAttack m input =
          .ok { m with gs := { m.gs with
                  PendingAttack := some { AttackerID := input.AttackerID,
                                          TargetID := input.TargetID,
                                          AttackerItem := none,
                                          DefenderItem := none,
                                          DamageResolved := false },
                  Phase := AttackPhase } } () := by
        simp [StartAttack, hph]
      refine ⟨_, by rw [hs]; rfl, ?_⟩
      simp [Mem.pendingIffAttack]
    · have hs : StartAttack m input = .error m "you can only attack during the main phase" := by
        simp [StartAttack, hph]
      exact ⟨m, by rw [hs]; rfl, hinv⟩
  · intro item
    by_cases hph : m.gs.Phase = AttackPhase
    · cases hp : m.gs.PendingAttack with
      | none =>
        have hs : DefenderUseItem m item = .error m "no pending attack" := by
          simp [DefenderUseItem, hph, hp]
        exact ⟨m, by rw [hs]; rfl, hinv⟩
      | some ctx =>
        have hs : DefenderUseItem m item =
            .ok { m with gs := { m.gs with
                    PendingAttack := some { ctx with DefenderItem := item } } } () := by
          simp [DefenderUseItem, hph, hp]
        refine ⟨_, by rw [hs]; rfl, ?_⟩
        simp [Mem.pendingIffAttack, hph]
    · have hs : DefenderUseItem m item =
          .error m "items can only be used during attack phase" := by
        simp [DefenderUseItem, hph]
      exact ⟨m, by rw [hs]; rfl, hinv⟩
  · intro item
    by_cases hph : m.gs.Phase = AttackPhase
    · cases hp : m.gs.PendingAttack with
      | none =>
        have hs : AttackerUseItem m item =
            .error m "attacker can only use item after defender used one" := by
          simp [AttackerUseItem, hph, hp]
        exact ⟨m, by rw [hs]; rfl, hinv⟩
      | some ctx =>
        cases hd : ctx.DefenderItem with
        | none =>
          have hs : AttackerUseItem m item =
              .error m "attacker can only use item after defender used one" := by
            simp [AttackerUseItem, hph, hp, hd]
          exact ⟨m, by rw [hs]; rfl, hinv⟩
        | some d =>
          have hs : AttackerUseItem m item =
              .ok { m with gs := { m.gs with
                      PendingAttack := some { ctx with AttackerItem := item } } } () := by
            simp [AttackerUseItem, hph, hp, hd]
          refine ⟨_, by rw [hs]; rfl, ?_⟩
          simp [Mem.pendingIffAttack, hph]
    · have hs : AttackerUseItem m item =
          .error m "items can only be used during attack phase" := by
        simp [AttackerUseItem, hph]
      exact ⟨m, by rw [hs]; rfl, hinv⟩
  · intro o1 o2 o3 rnd m2 h
    rcases ResolveAttack_mem o1 o2 o3 rnd m m2 h with hg | ⟨h1, h2⟩
    · unfold Mem.pendingIffAttack
      rw [hg]; exact hinv
    · unfold Mem.pendingIffAttack
      rw [h1, h2]
      simp [ResolutionPhase, AttackPhase]

theorem itemOrder_step (m : Mem) (c : ItemCall) (hm : m.itemOrder)
    (hc : ∀ item, c = ItemCall.defender item → item.isSome = true) :
    (c.run m).itemOrder := by
  cases c with
  | defender item =>
    have hsome := hc item rfl
    by_cases hph : m.gs.Phase = AttackPhase
    · cases hp : m.gs.PendingAttack with
      | none =>
        have hs : DefenderUseItem m item = .error m "no pending attack" := by
          simp [DefenderUseItem, hph, hp]
        simp only [ItemCall.run, hs, Outcome.mem?, Option.getD_some]
        exact hm
      | some ctx =>
        have hs : DefenderUseItem m item =
            .ok { m with gs := { m.gs with
                    PendingAttack := some { ctx with DefenderItem := item } } } () := by
          simp [DefenderUseItem, hph, hp]
        simp only [ItemCall.run, hs, Outcome.mem?, Option.getD_some]
        intro ctx2 h2 _
        simp only [Option.some.injEq] at h2
        rw [← h2]
        exact hsome
    · have hs : DefenderUseItem m item =
          .error m "items can only be used during attack phase" := by
        simp [DefenderUseItem, hph]
      simp only [ItemCall.run, hs, Outcome.mem?, Option.getD_some]
      exact hm
  | attacker item =>
    by_cases hph : m.gs.Phase = AttackPhase
    · cases hp : m.gs.PendingAttack with
      | none =>
        have hs : AttackerUseItem m item =
            .error m "attacker can only use item after defender used one" := by
          simp [AttackerUseItem, hph, hp]
        simp only [ItemCall.run, hs, Outcome.mem?, Option.getD_some]
        exact hm
      | some ctx =>
        cases hd : ctx.DefenderItem with
        | none =>
          have hs : AttackerUseItem m item =
              .error m "attacker can only use item after defender used one" := by
            simp [AttackerUseItem, hph, hp, hd]
          simp only [ItemCall.run, hs, Outcome.mem?, Option.getD_some]
          exact hm
        | some d =>
          have hs : AttackerUseItem m item =
              .ok { m with gs := { m.gs with
                      PendingAttack := some { ctx with AttackerItem := item } } } () := by
            simp [AttackerUseItem, hph, hp, hd]
          simp only [ItemCall.run, hs, Outcome.mem?, Option.getD_some]
          intro ctx2 h2 _
          simp only [Option.some.injEq] at h2
          rw [← h2]
          simp [hd]
    · have hs : AttackerUseItem m item =
          .error m "items can only be used during attack phase" := by
        simp [AttackerUseItem, hph]
      simp only [ItemCall.run, hs, Outcome.mem?, Option.getD_some]
      exact hm

theorem itemOrder_run (calls : List ItemCall) :
    ∀ m : Mem, m.itemOrder →
      (∀ item, ItemCall.defender item ∈ calls → item.isSome = true) →
      (runItemCalls m calls).itemOrder := by
  induction calls with
  | nil => intro m hm _; exact hm
  | cons c cs ih =>
    intro m hm hc
    show (runItemCalls (c.run m) cs).itemOrder
    apply ih
    · exact itemOrder_step m c hm (fun item he => hc item (by rw [he]; exact List.mem_cons_self _ _))
    · exact fun item he => hc item (List.mem_cons_of_mem _ he)

/-- C18, as the code has it: in every memory reached from a successful
`StartAttack` by a sequence of `DefenderUseItem` and `AttackerUseItem` calls
in which every `DefenderUseItem` is given an item (the arguments of
`AttackerUseItem` are arbitrary, nil included), if the attacker item of the
pending attack is set then its defender item is set. -/
theorem itemOrder_reachable (m0 m : Mem) (input : AttackContext) (calls : List ItemCall)
    (hstart : StartAttack m0 input = .ok m ())
    (hdef : ∀ item, ItemCall.defender item ∈ calls → item.isSome = true) :
    (runItemCalls m calls).itemOrder := by
  apply itemOrder_run calls m ?_ hdef
  by_cases hph : m0.gs.Phase = MainPhase
  · simp only [StartAttack, hph, ne_eq, not_true_eq_false, if_false, Outcome.ok.injEq,
      and_true] at hstart
    subst hstart
    intro ctx hctx hatk
    simp only [Option.some.injEq] at hctx
    rw [← hctx] at hatk
    simp at hatk
  · simp [StartAttack, hph] at hstart

theorem itemOrder_reachable_witness :
    StartAttack (sampleMem MainPhase none 5 3) (sampleAttack none) =
        .ok (sampleMem AttackPhase (some (sampleAttack none)) 5 3) () ∧
      (runItemCalls (sampleMem AttackPhase (some (sampleAttack none)) 5 3)
        [ItemCall.attacker (some ptrI1),
         ItemCall.defender (some ptrI3),
         ItemCall.attacker none]).itemOrder :=
  ⟨rfl, itemOrder_reachable (sampleMem MainPhase none 5 3) _ (sampleAttack none)
    [ItemCall.attacker (some ptrI1),
     ItemCall.defender (some ptrI3),
     ItemCall.attacker none] rfl (by
      intro item he
      simp only [List.mem_cons, List.mem_singleton, List.not_mem_nil, or_false,
        ItemCall.defender.injEq] at he
      rcases he with h | h | h
      · exact absurd h (by simp)
      · rw [h]; rfl
      · exact absurd h (by simp))⟩

/-- C18 as stated fails: after a successful `StartAttack` on the sample game,
the calls `DefenderUseItem(i3)`, `AttackerUseItem(i1)`, `DefenderUseItem(nil)`
all succeed and leave a pending attack whose attacker item is set and whose
defender item is nil. -/
theorem itemOrder_broken_by_nil_defender_item :
    StartAttack (sampleMem MainPhase none 5 3) (sampleAttack none) =
        .ok (sampleMem AttackPhase (some (sampleAttack none)) 5 3) () ∧
    (runItemCalls (sampleMem AttackPhase (some (sampleAttack none)) 5 3)
        [ItemCall.defender (some ptrI3),
         ItemCall.attacker (some ptrI1),
         ItemCall.defender none]).gs.PendingAttack =
      some { sampleAttack none with AttackerItem := some ptrI1 } ∧
    ¬ (runItemCalls (sampleMem AttackPhase (some (sampleAttack none)) 5 3)
        [ItemCall.defender (some ptrI3),
         ItemCall.attacker (some ptrI1),
         ItemCall.defender none]).itemOrder := by
  refine ⟨rfl, rfl, ?_⟩
  intro h
  have := h { sampleAttack none with AttackerItem := some ptrI1 }
    rfl rfl
  exact absurd this (by decide)

/-! ## A failing second item -/

theorem useItem_unknown (m : Mem) (p : CardPtr) (a : CardEntity) (owner opponent : CardRef)
    (holder : Nat) (hp : m.deref p = some a)
    (h1 : a.title ≠ "Armor Buff") (h2 : a.title ≠ "Weakening Shot")
    (h3 : a.title ≠ "Shield Bubble") (h4 : a.title ≠ "Mirror Shield") :
    useItem m (some p) owner opponent holder =
      .error m ("unknown item effect: " ++ a.title) := by
  simp [useItem, applyItemEffects, hp, h1, h2, h3, h4]

/-- A new item pool for the player at address `a` leaves what a pointer shows
as it was, unless the pointer points into that pool. -/
theorem deref_setPlayer_pool (m : Mem) (a : Nat) (pl : PlayerEntity) (s : CardSlice)
    (p : CardPtr) (hpl : m.heap[a]? = some pl) (hnp : ¬ p.inPoolOf a) :
    (m.setPlayer a { pl with itemCards := s }).deref p = m.deref p := by
  cases p with
  | obj c => rfl
  | cell r =>
    obtain ⟨o, z, k⟩ := r
    simp only [Mem.deref, Mem.readCell, Mem.setPlayer]
    by_cases ho : o = a
    · subst ho
      rw [heap_set_self m.heap o pl _ hpl, hpl]
      cases z with
      | hand => rfl
      | itemCards => exact absurd ⟨rfl, rfl⟩ hnp
    · rw [List.getElem?_set_ne (fun e => ho e.symm)]

/-- In the setting `Duel`, when the effect of the defender's item succeeds
and the attacker's item pointer, which does not point into the pool of the
target's owner, shows an unknown title, `ResolveAttack` returns the
unknown-effect error on the memory the defender's item step has produced. -/
theorem ResolveAttack_second_item_fails (o1 o2 o3 : List (String × Option Nat))
    (rnd : Nat → Nat) (m : Mem) (ctx : AttackContext) (pa pt i j : Nat)
    (A T : PlayerEntity) (att tgt d a : CardEntity) (pd pi : CardPtr)
    (h : Duel m ctx pa pt i j A T att tgt)
    (hdef : ctx.DefenderItem = some pd) (hatk : ctx.AttackerItem = some pi)
    (hnp : ¬ pi.inPoolOf pt)
    (h1 : a.title ≠ "Armor Buff") (h2 : a.title ≠ "Weakening Shot")
    (h3 : a.title ≠ "Shield Bubble") (h4 : a.title ≠ "Mirror Shield")
    (ho1 : o1.Perm m.gs.Players) (ho2 : o2.Perm m.gs.Players)
    (m0 : Mem) (T0 : PlayerEntity)
    (happly : applyItemEffects m pd ⟨pt, .hand, j⟩ ⟨pa, .hand, i⟩ = .ok m0 ())
    (hT0 : m0.heap[pt]? = some T0)
    (hd0 : ∃ d0, m0.deref pd = some d0 ∧ d0.id = d.id)
    (ha0 : ∃ a0, m0.deref pi = some a0 ∧ a0.title = a.title) :
    ResolveAttack o1 o2 o3 rnd m =
      .error (m0.setPlayer pt { T0 with itemCards := removeCard T0.itemCards d.id })
        ("unknown item effect: " ++ a.title) := by
  obtain ⟨d0, hd0, hid⟩ := hd0
  obtain ⟨a0, ha0, htitle⟩ := ha0
  rw [ResolveAttack_of_duel o1 o2 o3 rnd m ctx pa pt i j A T att tgt h ho1 ho2, hdef, hatk]
  have hu : useItem m (some pd) ⟨pt, .hand, j⟩ ⟨pa, .hand, i⟩ pt =
      .ok (m0.setPlayer pt { T0 with itemCards := removeCard T0.itemCards d.id }) () := by
    simp only [useItem, happly, hT0, hd0, hid]
  rw [hu]
  have ha1 : (m0.setPlayer pt { T0 with itemCards := removeCard T0.itemCards d.id }).deref pi =
      some a0 := by
    rw [deref_setPlayer_pool m0 pt T0 _ pi hT0 hnp]; exact ha0
  simp only [useItem_unknown _ pi a0 _ _ _ ha1 (by rw [htitle]; exact h1)
    (by rw [htitle]; exact h2) (by rw [htitle]; exact h3) (by rw [htitle]; exact h4), htitle]

theorem map_id_set (l : List CardEntity) (k : Nat) (c d : CardEntity)
    (hc : l[k]? = some c) (hd : d.id = c.id) :
    (l.set k d).map (fun x => x.id) = l.map (fun x => x.id) := by
  rw [List.map_set, hd]
  apply List.ext_getElem?
  intro n
  rw [List.getElem?_set]
  split
  · next hkn =>
    subst hkn
    split
    · simp [hc]
    · next hlt =>
      simp only [List.length_map] at hlt
      exact absurd (List.getElem?_eq_some.mp hc).1 hlt
  · rfl

/-- C19: in the setting `Duel`, with a defender item pointer that shows a
card `d` of a recognised title and an attacker item pointer that shows a card
`a` of an unrecognised title and does not point into the item pool of the
target's owner, whatever the orders of the searches, `ResolveAttack` returns
the error "unknown item effect: " followed by the title of `a`, on a memory
where the effect of `d` is applied to the cards ("Armor Buff": the target's
damage one higher; "Weakening Shot": the attacker's damage one lower, both in
Go's `int` arithmetic, which is the plain sum or difference away from the
ends of the `int` range; "Shield Bubble": the target's skill marker set), the
id of `d` is out of the item pool of the target's owner, the phase is still
Attack with the same pending attack, holding the same two item pointers, and
both hands hold the same ids as before, attacker and target included.  A
defender item pointer into that pool shows, after the call, what the shifted
pool has in its cell. -/
theorem ResolveAttack_not_atomic (o1 o2 o3 : List (String × Option Nat))
    (rnd : Nat → Nat) (m : Mem) (ctx : AttackContext) (pa pt i j : Nat)
    (A T : PlayerEntity) (att tgt d a : CardEntity) (pd pi : CardPtr)
    (h : Duel m ctx pa pt i j A T att tgt)
    (hdef : ctx.DefenderItem = some pd) (hatk : ctx.AttackerItem = some pi)
    (hd : m.deref pd = some d) (ha : m.deref pi = some a) (hnp : ¬ pi.inPoolOf pt)
    (hrec : d.title = "Armor Buff" ∨ d.title = "Weakening Shot" ∨
      d.title = "Shield Bubble" ∨ d.title = "Mirror Shield")
    (h1 : a.title ≠ "Armor Buff") (h2 : a.title ≠ "Weakening Shot")
    (h3 : a.title ≠ "Shield Bubble") (h4 : a.title ≠ "Mirror Shield")
    (ho1 : o1.Perm m.gs.Players) (ho2 : o2.Perm m.gs.Players) :
    ∃ m1 A1 T1,
      ResolveAttack o1 o2 o3 rnd m = .error m1 ("unknown item effect: " ++ a.title) ∧
      m1.gs = m.gs ∧ m1.gs.Phase = AttackPhase ∧ m1.gs.PendingAttack = some ctx ∧
      m1.heap[pa]? = some A1 ∧ m1.heap[pt]? = some T1 ∧
      A1.hand.elems.map (fun c => c.id) = A.hand.elems.map (fun c => c.id) ∧
      T1.hand.elems.map (fun c => c.id) = T.hand.elems.map (fun c => c.id) ∧
      A1.itemCards = A.itemCards ∧
      T1.itemCards = removeCard T.itemCards d.id ∧
      T1.itemCards.elems = T.itemCards.elems.filter (fun c => decide (c.id ≠ d.id)) ∧
      d.id ∉ T1.itemCards.elems.map (fun c => c.id) ∧
      (∀ k, pd = .cell ⟨pt, .itemCards, k⟩ →
        m1.deref pd = (removeCard T.itemCards d.id).cells[k]?) ∧
      (d.title = "Armor Buff" →
        T1.hand.elems[j]? = some { tgt with dmg := wrapInt (tgt.dmg + 1) } ∧
        A1.hand = A.hand ∧
        (inIntRange tgt.dmg → tgt.dmg < intMax → wrapInt (tgt.dmg + 1) = tgt.dmg + 1)) ∧
      (d.title = "Weakening Shot" →
        A1.hand.elems[i]? = some { att with dmg := wrapInt (att.dmg - 1) } ∧
        T1.hand = T.hand ∧
        (inIntRange att.dmg → intMin < att.dmg → wrapInt (att.dmg - 1) = att.dmg - 1)) ∧
      (d.title = "Shield Bubble" →
        T1.hand.elems[j]? = some { tgt with skill := "ImmuneThisTurn" } ∧ A1.hand = A.hand) ∧
      (d.title = "Mirror Shield" → A1.hand = A.hand ∧ T1.hand = T.hand) := by
  obtain ⟨kt, hkt⟩ := h.targetEntry
  have hi : i < A.hand.elems.length := (List.getElem?_eq_some.mp h.attackerCard).1
  have hj : j < T.hand.elems.length := (List.getElem?_eq_some.mp h.targetCard).1
  have hra : m.readCell ⟨pa, .hand, i⟩ = some att := by
    rw [readCell_hand m pa i A h.attackerOwner hi]; exact h.attackerCard
  have hrt : m.readCell ⟨pt, .hand, j⟩ = some tgt := by
    rw [readCell_hand m pt j T h.targetOwner hj]; exact h.targetCard
  have hpool : (removeCard T.itemCards d.id).elems =
      T.itemCards.elems.filter (fun c => decide (c.id ≠ d.id)) := by
    cases hk : indexOfID d.id T.itemCards.elems with
    | none => rw [removeCard_of_absent _ _ hk, filter_eq_self_of_absent _ _ hk]
    | some k =>
      rw [removeCard_elems_of_index _ _ k hk]
      exact eraseIdx_eq_filter_of_nodup _ _ k
        (pool_nodup m kt pt T hkt h.targetOwner h.distinct) hk
  have hnotin : d.id ∉ (T.itemCards.elems.filter (fun c => decide (c.id ≠ d.id))).map
      (fun c => c.id) := by
    intro hmem
    obtain ⟨c, hc, hcid⟩ := List.mem_map.mp hmem
    have := (List.mem_filter.mp hc).2
    simp only [ne_eq, decide_not, Bool.not_eq_true', decide_eq_false_iff_not] at this
    exact this hcid
  have hne : pa ≠ pt := h.others
  -- what the defender item pointer shows once the pool has been shifted
  have hshow : ∀ (m1 : Mem) (T1 : PlayerEntity), m1.heap[pt]? = some T1 →
      T1.itemCards = removeCard T.itemCards d.id →
      ∀ k, pd = .cell ⟨pt, .itemCards, k⟩ →
        m1.deref pd = (removeCard T.itemCards d.id).cells[k]? := by
    intro m1 T1 hT1 hTi k hk
    rw [hk]
    simp only [Mem.deref, Mem.readCell, hT1, PlayerEntity.slice, hTi]
  -- the three effects that write a card, and the one that writes nothing
  have write_target : ∀ c2 : CardEntity, c2.id = tgt.id → c2.title = tgt.title →
      applyItemEffects m pd ⟨pt, .hand, j⟩ ⟨pa, .hand, i⟩ =
        .ok (m.writeCell ⟨pt, .hand, j⟩ c2) () →
      ∃ m1 A1 T1,
        ResolveAttack o1 o2 o3 rnd m = .error m1 ("unknown item effect: " ++ a.title) ∧
        m1.gs = m.gs ∧ m1.heap[pa]? = some A1 ∧ m1.heap[pt]? = some T1 ∧
        A1 = A ∧ T1.hand.elems = T.hand.elems.set j c2 ∧
        T1.itemCards = removeCard T.itemCards d.id := by
    intro c2 hid2 htitle2 happly
    obtain ⟨d0, hd0, hd0id, _⟩ := deref_writeCell_same m ⟨pt, .hand, j⟩ tgt c2 pd d hrt hd
      hid2 htitle2
    obtain ⟨a0, ha0, _, ha0t⟩ := deref_writeCell_same m ⟨pt, .hand, j⟩ tgt c2 pi a hrt ha
      hid2 htitle2
    rw [writeCell_hand m pt j T c2 h.targetOwner hj] at happly hd0 ha0
    have hT0 := heap_set_self m.heap pt T
      { T with hand := { T.hand with elems := T.hand.elems.set j c2 } } h.targetOwner
    refine ⟨_, A, { T with hand := { T.hand with elems := T.hand.elems.set j c2 },
                             itemCards := removeCard T.itemCards d.id },
      ResolveAttack_second_item_fails o1 o2 o3 rnd m ctx pa pt i j A T att tgt
        d a pd pi h hdef hatk hnp h1 h2 h3 h4 ho1 ho2 _ _ happly hT0 ⟨d0, hd0, hd0id⟩
        ⟨a0, ha0, ha0t⟩, rfl, ?_, ?_, rfl, rfl, rfl⟩
    · show ((m.heap.set pt _).set pt _)[pa]? = some A
      rw [List.getElem?_set_ne (fun e => hne e.symm), List.getElem?_set_ne (fun e => hne e.symm)]
      exact h.attackerOwner
    · exact heap_set_self _ pt _ _ hT0
  rcases hrec with ht | ht | ht | ht
  · -- Armor Buff
    have happly : applyItemEffects m pd ⟨pt, .hand, j⟩ ⟨pa, .hand, i⟩ =
        .ok (m.writeCell ⟨pt, .hand, j⟩ { tgt with dmg := wrapInt (tgt.dmg + 1) }) () := by
      simp [applyItemEffects, hd, ht, hrt]
    obtain ⟨m1, A1, T1, hres, hgs, hA1, hT1, hAA, hTh, hTi⟩ :=
      write_target { tgt with dmg := wrapInt (tgt.dmg + 1) } rfl rfl happly
    subst hAA
    refine ⟨m1, A1, T1, hres, hgs, by rw [hgs]; exact h.phase, by rw [hgs]; exact h.pending, hA1,
      hT1, rfl, ?_, rfl, hTi, ?_, ?_, hshow m1 T1 hT1 hTi, ?_, ?_, ?_, ?_⟩
    · rw [hTh]; exact map_id_set _ _ tgt _ h.targetCard rfl
    · rw [hTi]; exact hpool
    · rw [hTi, hpool]; exact hnotin
    · intro _
      exact ⟨by rw [hTh]; exact List.getElem?_set_self hj, rfl, wrapInt_succ tgt.dmg⟩
    · intro h'; rw [ht] at h'; exact absurd h' (by decide)
    · intro h'; rw [ht] at h'; exact absurd h' (by decide)
    · intro h'; rw [ht] at h'; exact absurd h' (by decide)
  · -- Weakening Shot
    obtain ⟨d0, hd0, hd0id, _⟩ := deref_writeCell_same m ⟨pa, .hand, i⟩ att
      { att with dmg := wrapInt (att.dmg - 1) } pd d hra hd rfl rfl
    obtain ⟨a0, ha0, _, ha0t⟩ := deref_writeCell_same m ⟨pa, .hand, i⟩ att
      { att with dmg := wrapInt (att.dmg - 1) } pi a hra ha rfl rfl
    rw [writeCell_hand m pa i A _ h.attackerOwner hi] at hd0 ha0
    have happly : applyItemEffects m pd ⟨pt, .hand, j⟩ ⟨pa, .hand, i⟩ =
        .ok { heap := m.heap.set pa
                { A with hand := { A.hand with
                    elems := A.hand.elems.set i { att with dmg := wrapInt (att.dmg - 1) } } },
              gs := m.gs } () := by
      rw [applyItemEffects_weakening m pd d _ _ att hd ht hra,
        writeCell_hand m pa i A _ h.attackerOwner hi]
    have hT0 : (m.heap.set pa
        { A with hand := { A.hand with
            elems := A.hand.elems.set i { att with dmg := wrapInt (att.dmg - 1) } } })[pt]?
          = some T := by
      rw [List.getElem?_set_ne hne]; exact h.targetOwner
    have hT1 : ((m.heap.set pa
        { A with hand := { A.hand with
            elems := A.hand.elems.set i { att with dmg := wrapInt (att.dmg - 1) } } }).set pt
        { T with itemCards := removeCard T.itemCards d.id })[pt]? =
          some { T with itemCards := removeCard T.itemCards d.id } :=
      heap_set_self _ pt _ _ hT0
    refine ⟨_, { A with hand := { A.hand with
        elems := A.hand.elems.set i { att with dmg := wrapInt (att.dmg - 1) } } },
      { T with itemCards := removeCard T.itemCards d.id },
      ResolveAttack_second_item_fails o1 o2 o3 rnd m ctx pa pt i j A T att tgt
        d a pd pi h hdef hatk hnp h1 h2 h3 h4 ho1 ho2 _ _ happly hT0 ⟨d0, hd0, hd0id⟩
        ⟨a0, ha0, ha0t⟩, rfl, h.phase, h.pending, ?_, hT1, ?_,
      rfl, rfl, rfl, hpool, ?_, hshow _ _ hT1 rfl, ?_, ?_, ?_, ?_⟩
    · show ((m.heap.set pa _).set pt _)[pa]? = some _
      rw [List.getElem?_set_ne (fun e => hne e.symm)]
      exact heap_set_self m.heap pa A _ h.attackerOwner
    · exact map_id_set _ _ att _ h.attackerCard rfl
    · show d.id ∉ (removeCard T.itemCards d.id).elems.map (fun c => c.id)
      rw [hpool]; exact hnotin
    · intro h'; rw [ht] at h'; exact absurd h' (by decide)
    · intro _
      exact ⟨List.getElem?_set_self hi, rfl, wrapInt_pred att.dmg⟩
    · intro h'; rw [ht] at h'; exact absurd h' (by decide)
    · intro h'; rw [ht] at h'; exact absurd h' (by decide)
  · -- Shield Bubble
    have happly : applyItemEffects m pd ⟨pt, .hand, j⟩ ⟨pa, .hand, i⟩ =
        .ok (m.writeCell ⟨pt, .hand, j⟩ { tgt with skill := "ImmuneThisTurn" }) () := by
      simp [applyItemEffects, hd, ht, hrt]
    obtain ⟨m1, A1, T1, hres, hgs, hA1, hT1, hAA, hTh, hTi⟩ :=
      write_target { tgt with skill := "ImmuneThisTurn" } rfl rfl happly
    subst hAA
    refine ⟨m1, A1, T1, hres, hgs, by rw [hgs]; exact h.phase, by rw [hgs]; exact h.pending, hA1,
      hT1, rfl, ?_, rfl, hTi, ?_, ?_, hshow m1 T1 hT1 hTi, ?_, ?_, ?_, ?_⟩
    · rw [hTh]; exact map_id_set _ _ tgt _ h.targetCard rfl
    · rw [hTi]; exact hpool
    · rw [hTi, hpool]; exact hnotin
    · intro h'; rw [ht] at h'; exact absurd h' (by decide)
    · intro h'; rw [ht] at h'; exact absurd h' (by decide)
    · intro _
      exact ⟨by rw [hTh]; exact List.getElem?_set_self hj, rfl⟩
    · intro h'; rw [ht] at h'; exact absurd h' (by decide)
  · -- Mirror Shield
    have happly : applyItemEffects m pd ⟨pt, .hand, j⟩ ⟨pa, .hand, i⟩ = .ok m () := by
      simp [applyItemEffects, hd, ht]
    have hT1 : (m.heap.set pt { T with itemCards := removeCard T.itemCards d.id })[pt]? =
        some { T with itemCards := removeCard T.itemCards d.id } :=
      heap_set_self _ pt _ _ h.targetOwner
    refine ⟨_, A, { T with itemCards := removeCard T.itemCards d.id },
      ResolveAttack_second_item_fails o1 o2 o3 rnd m ctx pa pt i j A T att tgt
        d a pd pi h hdef hatk hnp h1 h2 h3 h4 ho1 ho2 m T happly h.targetOwner ⟨d, hd, rfl⟩
        ⟨a, ha, rfl⟩, rfl, h.phase, h.pending,
      ?_, hT1, rfl, rfl, rfl, rfl, hpool, ?_, hshow _ _ hT1 rfl, ?_, ?_, ?_, ?_⟩
    · show (m.heap.set pt _)[pa]? = some A
      rw [List.getElem?_set_ne (fun e => hne e.symm)]
      exact h.attackerOwner
    · show d.id ∉ (removeCard T.itemCards d.id).elems.map (fun c => c.id)
      rw [hpool]; exact hnotin
    · intro h'; rw [ht] at h'; exact absurd h' (by decide)
    · intro h'; rw [ht] at h'; exact absurd h' (by decide)
    · intro h'; rw [ht] at h'; exact absurd h' (by decide)
    · intro _
      exact ⟨rfl, rfl⟩

/-- The sample memory in phase Attack is a `Duel` for every pending attack of
"a" on "t", whatever items it carries. -/
theorem sampleDuel_with_items (atk tgt : Int) (ctx : AttackContext)
    (ha : ctx.AttackerID = "a") (ht : ctx.TargetID = "t") :
    Duel (sampleMem AttackPhase (some ctx) atk tgt) ctx 0 1 0 0
      (samplePlayer "p1" [sampleCard "a" atk, sampleCard "b" 2, sampleCard "c" 3]
        [sampleItem "i1" "Armor Buff"])
      (samplePlayer "p2" [sampleCard "t" tgt, sampleCard "u" 1]
        [sampleItem "i2" "Mirror Shield", sampleItem "i3" "Weakening Shot",
         sampleItem "i4" "Shield Bubble"])
      (sampleCard "a" atk) (sampleCard "t" tgt) where
  phase := rfl
  pending := rfl
  valid := by
    intro e he
    simp only [sampleMem, sampleGame, List.mem_cons, List.mem_singleton, List.not_mem_nil,
      or_false] at he
    rcases he with rfl | rfl
    · exact ⟨0, _, rfl, rfl⟩
    · exact ⟨1, _, rfl, rfl⟩
  distinct := by
    have hids : ((sampleMem AttackPhase (some ctx) atk tgt).cardsIn
        (sampleMem AttackPhase (some ctx) atk tgt).gs.Players).map (fun c => c.id)
        = ["a", "b", "c", "i1", "t", "u", "i2", "i3", "i4"] := rfl
    rw [hids]
    decide
  attackerEntry := ⟨"p1", by simp [sampleMem, sampleGame]⟩
  targetEntry := ⟨"p2", by simp [sampleMem, sampleGame]⟩
  attackerOwner := rfl
  targetOwner := rfl
  attackerCard := rfl
  targetCard := rfl
  attackerId := ha.symm
  targetId := ht.symm
  others := by decide

theorem ResolveAttack_not_atomic_witness :
    ∃ m1 A1 T1,
      ResolveAttack (sampleOrder false) (sampleOrder true) (sampleOrder false) (fun _ => 0)
          (sampleMem AttackPhase
            (some { sampleAttack (some ptrI3) with
                    AttackerItem := some (.obj (sampleItem "x1" "Rocket")) }) 5 3) =
        .error m1 "unknown item effect: Rocket" ∧
      m1.gs.Phase = AttackPhase ∧ m1.heap[0]? = some A1 ∧ m1.heap[1]? = some T1 ∧
      A1.hand.elems[0]? = some (sampleCard "a" 4) ∧
      T1.hand.elems.map (fun c => c.id) = ["t", "u"] ∧
      T1.itemCards.elems = [sampleItem "i2" "Mirror Shield", sampleItem "i4" "Shield Bubble"] ∧
      m1.deref ptrI3 = some (sampleItem "i4" "Shield Bubble") := by
  obtain ⟨m1, A1, T1, hres, _, hph, _, hA, hT, _, hTids, _, _, hpool, _, hshow, _, hweak, _, _⟩ :=
    ResolveAttack_not_atomic (sampleOrder false) (sampleOrder true) (sampleOrder false)
      (fun _ => 0)
      (sampleMem AttackPhase
        (some { sampleAttack (some ptrI3) with
                AttackerItem := some (.obj (sampleItem "x1" "Rocket")) }) 5 3)
      { sampleAttack (some ptrI3) with
        AttackerItem := some (.obj (sampleItem "x1" "Rocket")) } 0 1 0 0 _ _ _ _
      (sampleItem "i3" "Weakening Shot") (sampleItem "x1" "Rocket") ptrI3
      (.obj (sampleItem "x1" "Rocket"))
      (sampleDuel_with_items 5 3 _ rfl rfl) rfl rfl rfl rfl (fun hin => hin)
      (Or.inr (Or.inl rfl))
      (by decide) (by decide) (by decide) (by decide)
      (List.Perm.refl _) (List.Perm.swap _ _ _)
  exact ⟨m1, A1, T1, hres, hph, hA, hT, (hweak rfl).1, hTids, by rw [hpool]; decide,
    by rw [hshow 1 rfl]; rfl⟩

/-! ## What does hold of the draws and of unrecognised skills -/

theorem player_set_ne (m : Mem) (a : Nat) (q : PlayerEntity) (gs2 : GameState)
    (p : Option Nat) (hp : p ≠ some a) :
    Mem.player { heap := m.heap.set a q, gs := gs2 } p = m.player p := by
  cases p with
  | none => rfl
  | some b =>
    have hb : a ≠ b := fun h => hp (by rw [h])
    simp [Mem.player, List.getElem?_set_ne hb]

/-- The cards of the players after one player object has received the card `c`. -/
theorem cardsIn_after_gain (m : Mem) (a : Nat) (pl q : PlayerEntity) (gs2 : GameState)
    (c : CardEntity) (hp : m.heap[a]? = some pl) (hq : q.cards.Perm (c :: pl.cards)) :
    ∀ order : List (String × Option Nat), (order.map Prod.snd).Nodup →
      (some a ∈ order.map Prod.snd →
        (Mem.cardsIn { heap := m.heap.set a q, gs := gs2 } order).Perm (c :: m.cardsIn order)) ∧
      (some a ∉ order.map Prod.snd →
        Mem.cardsIn { heap := m.heap.set a q, gs := gs2 } order = m.cardsIn order) := by
  intro order
  induction order with
  | nil =>
    intro _
    exact ⟨fun h => absurd h (by simp), fun _ => rfl⟩
  | cons e rest ih =>
    intro hn
    obtain ⟨k, p⟩ := e
    simp only [List.map_cons, List.nodup_cons] at hn
    obtain ⟨ih1, ih2⟩ := ih hn.2
    by_cases hpa : p = some a
    · subst hpa
      have hrest := ih2 hn.1
      have hnew : Mem.player { heap := m.heap.set a q, gs := gs2 } (some a) = some (a, q) :=
        player_some _ a q (heap_set_self m.heap a pl q hp)
      constructor
      · intro _
        simp only [Mem.cardsIn, hnew, player_some m a pl hp, hrest]
        exact List.Perm.append_right _ hq
      · intro h
        exact absurd (List.mem_cons_self _ _) h
    · have hsame := player_set_ne m a q gs2 p hpa
      constructor
      · intro h
        have hin : some a ∈ rest.map Prod.snd := by
          rcases List.mem_cons.mp h with h | h
          · exact absurd h.symm hpa
          · exact h
        simp only [Mem.cardsIn, hsame]
        exact (List.Perm.append_left _ (ih1 hin)).trans List.perm_middle
      · intro h
        have hnot : some a ∉ rest.map Prod.snd := fun h2 => h (List.mem_cons_of_mem _ h2)
        simp only [Mem.cardsIn, hsame, ih2 hnot]

/-- The two draws keep the card ids distinct: when the player objects of the
map are distinct and no id occurs twice across the decks and the players'
hands and item pools, the same holds for the memory a successful
`DrawFighterCard` or `DrawItemCard` returns. -/
theorem draws_keep_ids_distinct (m m2 : Mem) (p : Option Nat) (c : CardEntity)
    (hptr : (m.gs.Players.map Prod.snd).Nodup) (hids : m.allIds.Nodup)
    (h : DrawFighterCard m p = .ok m2 c ∨ DrawItemCard m p = .ok m2 c) :
    m2.allIds.Nodup := by
  have key : ∀ (deck1 deck2 deckA deckB : List CardEntity) (a : Nat) (pl q : PlayerEntity)
      (gs2 : GameState), m.heap[a]? = some pl → q.cards.Perm (c :: pl.cards) →
      gs2.Players = m.gs.Players →
      (deck1 ++ deck2 ++ m.cardsIn m.gs.Players).Perm
        (c :: (deckA ++ deckB ++ m.cardsIn m.gs.Players)) →
      ((deck1 ++ deck2 ++ m.cardsIn m.gs.Players).map (fun x => x.id)).Nodup →
      ((deckA ++ deckB ++ Mem.cardsIn { heap := m.heap.set a q, gs := gs2 } gs2.Players).map
        (fun x => x.id)).Nodup := by
    intro deck1 deck2 deckA deckB a pl q gs2 hp hq hP hperm hn
    rw [hP]
    obtain ⟨g1, g2⟩ := cardsIn_after_gain m a pl q gs2 c hp hq m.gs.Players hptr
    have hn2 : ((c :: (deckA ++ deckB ++ m.cardsIn m.gs.Players)).map (fun x => x.id)).Nodup :=
      ((hperm.map (fun x => x.id)).nodup_iff).mp hn
    by_cases hin : some a ∈ m.gs.Players.map Prod.snd
    · have hperm2 : (deckA ++ deckB ++ Mem.cardsIn { heap := m.heap.set a q, gs := gs2 }
          m.gs.Players).Perm (c :: (deckA ++ deckB ++ m.cardsIn m.gs.Players)) :=
        (List.Perm.append_left _ (g1 hin)).trans List.perm_middle
      exact ((hperm2.map (fun x => x.id)).nodup_iff).mpr hn2
    · rw [g2 hin]
      simp only [List.map_cons, List.nodup_cons] at hn2
      exact hn2.2
  rcases h with h | h
  · unfold DrawFighterCard at h
    cases hd : m.gs.FighterDeck with
    | nil => simp [hd] at h
    | cons card rest =>
      cases p with
      | none => simp [hd, Mem.player] at h
      | some a =>
        cases hp : m.heap[a]? with
        | none => simp [hd, Mem.player, hp] at h
        | some pl =>
          simp only [hd, Mem.player, hp, Option.map_some', Outcome.ok.injEq] at h
          obtain ⟨hm, hc⟩ := h
          subst hm
          subst hc
          unfold Mem.allIds at hids ⊢
          rw [hd] at hids
          refine key (card :: rest) m.gs.ItemDeck rest m.gs.ItemDeck a pl _ _ hp ?_ rfl ?_ hids
          · show (pl.hand.elems ++ [card] ++ pl.itemCards.elems).Perm
              (card :: (pl.hand.elems ++ pl.itemCards.elems))
            simp only [List.append_assoc, List.singleton_append]
            exact List.perm_middle
          · simp only [List.cons_append, List.append_assoc]
            exact List.Perm.refl _
  · unfold DrawItemCard at h
    cases hd : m.gs.ItemDeck with
    | nil => simp [hd] at h
    | cons card rest =>
      cases p with
      | none => simp [hd, Mem.player] at h
      | some a =>
        cases hp : m.heap[a]? with
        | none => simp [hd, Mem.player, hp] at h
        | some pl =>
          simp only [hd, Mem.player, hp, Option.map_some', Outcome.ok.injEq] at h
          obtain ⟨hm, hc⟩ := h
          subst hm
          subst hc
          unfold Mem.allIds at hids ⊢
          rw [hd] at hids
          refine key m.gs.FighterDeck (card :: rest) m.gs.FighterDeck rest a pl _ _ hp ?_ rfl ?_
            hids
          · show (pl.hand.elems ++ (pl.itemCards.elems ++ [card])).Perm
              (card :: (pl.hand.elems ++ pl.itemCards.elems))
            rw [← List.append_assoc]
            exact List.perm_append_singleton _ _
          · simp only [List.append_assoc]
            exact List.perm_middle

theorem cardOwnerID_no_fault (m : Mem) (id : String) :
    ∀ order : List (String × Option Nat),
      (∀ e ∈ order, ∃ b q, e.2 = some b ∧ m.heap[b]? = some q) →
      ∃ owner, cardOwnerID m order id = some owner := by
  intro order
  induction order with
  | nil => intro _; exact ⟨"", rfl⟩
  | cons e rest ih =>
    intro hv
    obtain ⟨k, p⟩ := e
    obtain ⟨b, q, hb, hq⟩ := hv (k, p) (List.mem_cons_self _ _)
    simp only at hb
    subst hb
    simp only [cardOwnerID, player_some m b q hq]
    split
    · exact ⟨k, rfl⟩
    · split
      · exact ⟨k, rfl⟩
      · exact ih (fun e he => hv e (List.mem_cons_of_mem _ he))

/-- With non-nil players, a card without skill or with a skill other than
"ShuffleHand" and "Draw2" makes `resolveCardSkills` return the memory as it
is, whoever holds the card and whatever the trigger. -/
theorem resolveCardSkills_unrecognised (order : List (String × Option Nat))
    (rnd : Nat → Nat) (m : Mem) (card : CardRef) (trigger : String) (c : CardEntity)
    (hv : m.playersValid) (ho : order.Perm m.gs.Players) (hc : m.readCell card = some c)
    (h1 : c.skill ≠ "ShuffleHand") (h2 : c.skill ≠ "Draw2") :
    resolveCardSkills order rnd m card trigger = some m := by
  obtain ⟨owner, hown⟩ := cardOwnerID_no_fault m c.id order (valid_of_perm m order ho hv)
  by_cases he : c.skill = ""
  · simp [resolveCardSkills, hc, he]
  · simp [resolveCardSkills, hc, he, hown, h1, h2]

end FloydWars
